import Mathlib

/-!
Bean: result pool, single-flight retry wrapper, helpers and request context

A shallow embedding of parts of the `bean` web framework:

* the concurrent result pool (`sync.ResultPool`), exercised by
  `sync/result_pool_test.go`; its implementation file is not part of the
  source tree at hand, so the pool is modelled from the specification as a
  labelled transition system over all interleavings of task events;
* `helpers.SingleDo` (`helpers/singleflight.go`), embedded from the source,
  with the single-flight group it shares among its callers;
* the escaping helpers of `helpers/escape.go` and the conversions of
  `helpers/interface.go`;
* the accessors of `beanContext` (`context.go`).
-/

namespace Bean

/-! ## Go errors and contexts -/

/-- Go error values as far as `errors.Is` and message wrapping can tell them
apart.  `canceled` and `deadlineExceeded` are the values `context.Canceled`
and `context.DeadlineExceeded`; `leaf` is any other error without a cause
(`errors.New`, `fmt.Errorf` without `%w`), told apart by its message;
`withMessage` and `withStack` are the wrappers of `github.com/pkg/errors`,
whose `Unwrap` gives the cause; `recovered` wraps the value of a recovered
panic. -/
inductive GoError where
  | canceled
  | deadlineExceeded
  | leaf (msg : String)
  | withMessage (cause : GoError) (msg : String)
  | withStack (cause : GoError)
  | recovered (val : String)
  deriving DecidableEq, Repr

/-- The two values `ctx.Err()` can take once a context is done. -/
inductive CtxErr where
  | canceled
  | deadlineExceeded
  deriving DecidableEq, Repr

/-- The value `context.Canceled`. -/
def ctxCanceled : GoError := .canceled

/-- The value `context.DeadlineExceeded`. -/
def ctxDeadlineExceeded : GoError := .deadlineExceeded

/-- The error value behind a `CtxErr`. -/
def CtxErr.toError : CtxErr → GoError
  | .canceled => ctxCanceled
  | .deadlineExceeded => ctxDeadlineExceeded

/-- A context that is done: what `ctx.Err()` reports and what
`context.Cause(ctx)` reports (the cause given to `WithTimeoutCause` or
`WithCancelCause`, or the same value as `Err` when none was given). -/
structure CtxDone where
  err : CtxErr
  cause : GoError
  deriving DecidableEq, Repr

/-! ## Result pool (modelled from the specification) -/

/-- Modelled from the spec: the behaviour of a task body
`func(ctx) (T, error)` that runs to its natural end; it returns a value with
an optional error, or panics with a value.  (`sync.ResultPool` itself is
missing from the source tree; only its test is present.) -/
inductive TaskRet (T : Type) where
  | ret (v : T) (err : Option GoError)
  | panics (r : String)
  deriving DecidableEq, Repr

/-- A submitted task: its position in the batch (the order of the `Go`
calls) and the behaviour of its body. -/
abbrev Job (T : Type) := Nat × TaskRet T

/-- Modelled from the spec: the outcome classification, one tag per completed
task (`Success`, `TaskError`, `Panic`, `CanceledOrTimedOut`). -/
inductive Outcome (T : Type) where
  | success (v : T)
  | taskError (v : T) (e : GoError)
  | panic (e : GoError)
  | canceledOrTimedOut (cause : GoError)
  deriving DecidableEq, Repr

/-- Modelled from the spec: the error kinds of the combined error. -/
inductive ErrKind where
  | taskError
  | panic
  | canceledOrTimedOut
  deriving DecidableEq, Repr

/-- Modelled from the spec: the options of `NewResultPool`.
`concurrencyLimit = 0` means unbounded (option unset); the request option
has no behavioural effect and is left out. -/
structure PoolConfig where
  concurrencyLimit : Nat
  cancelOnFirstErr : Bool
  collectErroredResults : Bool
  deriving DecidableEq, Repr

/-- A pool created with no options. -/
def noOptions : PoolConfig := ⟨0, false, false⟩

/-- Modelled from the spec: the state of a pool between `Go` and the return
of `Wait`: the derived context (`none` while it is not done), the tasks still
queued for a slot, the tasks whose body is executing, and the outcomes
recorded so far in completion order, each with the task it belongs to. -/
structure PoolState (T : Type) where
  ctx : Option CtxDone
  pending : List (Job T)
  running : List (Job T)
  recorded : List (Job T × Outcome T)
  deriving DecidableEq, Repr

/-- Modelled from the spec: what can happen while `Wait` blocks.
`start j`: the j-th queued task is scheduled; `finish j`: the body of the
j-th running task comes to its end by itself; `observe j`: the j-th running
task polls the context, sees it done and exits; `ctxDone d`: the context
supplied by the caller becomes done (deadline or cancel). -/
inductive Event where
  | start (j : Nat)
  | finish (j : Nat)
  | observe (j : Nat)
  | ctxDone (d : CtxDone)
  deriving DecidableEq, Repr

/-- Modelled from the spec: the outcome of a task body that ran to its end:
a nil error is `Success`, a non-nil error is `TaskError`, a panic is recovered
at the task boundary into `Panic` wrapping the recovered value. -/
def natural {T : Type} : TaskRet T → Outcome T
  | .ret v none => .success v
  | .ret v (some e) => .taskError v e
  | .panics r => .panic (.recovered r)

/-- Modelled from the spec: the outcomes that trigger cancel-on-first-error
(`TaskError` or `Panic`). -/
def Outcome.isFailure {T : Type} : Outcome T → Bool
  | .taskError _ _ => true
  | .panic _ => true
  | _ => false

/-- Modelled from the spec: the counting semaphore of `concurrencyLimit`
slots; a slot is free when the limit is unset or fewer than `limit` bodies
are running. -/
def slotFree {T : Type} (cfg : PoolConfig) (s : PoolState T) : Bool :=
  cfg.concurrencyLimit == 0 || decide (s.running.length < cfg.concurrencyLimit)

/-- Modelled from the spec: the context after an outcome is recorded; with
`cancelOnFirstErr` the first `TaskError` or `Panic` cancels the derived
context (a plain cancel: `Err` and `Cause` are `context.Canceled`). -/
def ctxAfter {T : Type} (cfg : PoolConfig) (ctx : Option CtxDone) (o : Outcome T) :
    Option CtxDone :=
  match ctx with
  | some d => some d
  | none => if cfg.cancelOnFirstErr && o.isFailure then some ⟨.canceled, ctxCanceled⟩ else none

/-- Modelled from the spec: the outcome recorded for a task whose body comes
to its end.  While the context is not done it is the natural outcome of the
body.  Once the context is done (deadline, cancel, or cancel-on-first-error)
the task has not finished first: the pool cannot preempt the body, which runs
on, but its late result is discarded and the task resolves to
`CanceledOrTimedOut` carrying `context.Cause`. -/
def resolve {T : Type} (ctx : Option CtxDone) (t : TaskRet T) : Outcome T :=
  match ctx with
  | none => natural t
  | some d => .canceledOrTimedOut d.cause

/-- Modelled from the spec: one step of the pool.  A queued task first checks
the context: when it is done the task short-circuits to `CanceledOrTimedOut`
carrying `context.Cause`, without running its body; otherwise it needs a free
slot to start its body.  A running body comes to its end, with the outcome
`resolve` gives it, or, when the context is done, observes that and resolves
to `CanceledOrTimedOut`.  The result is `none` when the event cannot happen
in the state. -/
def step {T : Type} (cfg : PoolConfig) (s : PoolState T) : Event → Option (PoolState T)
  | .start j =>
    match s.pending[j]? with
    | none => none
    | some t =>
      match s.ctx with
      | some d =>
        some { s with pending := s.pending.eraseIdx j,
                      recorded := s.recorded ++ [(t, .canceledOrTimedOut d.cause)] }
      | none =>
        if slotFree cfg s then
          some { s with pending := s.pending.eraseIdx j, running := s.running ++ [t] }
        else none
  | .finish j =>
    match s.running[j]? with
    | none => none
    | some t =>
      some { s with ctx := ctxAfter cfg s.ctx (resolve s.ctx t.2),
                    running := s.running.eraseIdx j,
                    recorded := s.recorded ++ [(t, resolve s.ctx t.2)] }
  | .observe j =>
    match s.running[j]?, s.ctx with
    | some t, some d =>
      some { s with running := s.running.eraseIdx j,
                    recorded := s.recorded ++ [(t, .canceledOrTimedOut d.cause)] }
    | _, _ => none
  | .ctxDone d =>
    match s.ctx with
    | none => some { s with ctx := some d }
    | some _ => none

/-- An execution: the events applied in order; `none` when one of them cannot
happen. -/
def run {T : Type} (cfg : PoolConfig) : PoolState T → List Event → Option (PoolState T)
  | s, [] => some s
  | s, e :: es => (step cfg s e).bind fun s' => run cfg s' es

/-- Modelled from the spec: the pool once `Go` has been called for every task
of the batch, on a context that is done (`some d`) or not (`none`). -/
def initPool {T : Type} (ctx : Option CtxDone) (tasks : List (TaskRet T)) : PoolState T :=
  ⟨ctx, tasks.enum, [], []⟩

/-- Modelled from the spec: the value an outcome contributes to `results`:
`Success` always, `TaskError` only with `collectErroredResults`. -/
def retained {T : Type} (cfg : PoolConfig) : Outcome T → Option T
  | .success v => some v
  | .taskError v _ => if cfg.collectErroredResults then some v else none
  | _ => none

/-- Modelled from the spec: the classified error of a non-success outcome. -/
def errorOf {T : Type} : Outcome T → Option (ErrKind × GoError)
  | .success _ => none
  | .taskError _ e => some (.taskError, e)
  | .panic e => some (.panic, e)
  | .canceledOrTimedOut c => some (.canceledOrTimedOut, c)

/-- Modelled from the spec: the combined error of `Wait`: nil (`none`) when
no outcome is a failure, otherwise the classified errors, one per
non-success outcome. -/
def combine (errs : List (ErrKind × GoError)) : Option (List (ErrKind × GoError)) :=
  if errs.isEmpty then none else some errs

/-- Modelled from the spec: the count per classification that a caller can
query on the combined error. -/
def errCount (k : ErrKind) : Option (List (ErrKind × GoError)) → Nat
  | none => 0
  | some errs => (errs.filter fun p => p.1 == k).length

/-- Modelled from the spec: the total number of errors in the combined
error. -/
def errTotal : Option (List (ErrKind × GoError)) → Nat
  | none => 0
  | some errs => errs.length

/-- Modelled from the spec: `Wait` blocks until every scheduled task has
produced an outcome (`none` while some task is queued or running), then
returns the retained results in completion order and the combined error. -/
def wait {T : Type} (cfg : PoolConfig) (s : PoolState T) :
    Option (List T × Option (List (ErrKind × GoError))) :=
  if s.pending.isEmpty && s.running.isEmpty then
    some ((s.recorded.map Prod.snd).filterMap (retained cfg),
          combine ((s.recorded.map Prod.snd).filterMap errorOf))
  else none

/-- The task of kind `n` of the test generator `genRltTasks`: it returns
`data{v: i}` and a nil error. -/
def taskN (i : Int) : TaskRet Int := .ret i none

/-- The task of kind `e` of `genRltTasks`: it returns `data{v: i}` together
with `ErrTask`. -/
def taskE (i : Int) : TaskRet Int := .ret i (some (.leaf "task error"))

/-- The task of kind `p` of `genRltTasks`: it panics with `PanicMsg`. -/
def taskP : TaskRet Int := .panics "panic message"

/-- The value a task contributes to `results` when its body ends with a nil
error. -/
def successValue {T : Type} : TaskRet T → Option T
  | .ret v none => some v
  | _ => none

/-- The value a task body returns, with or without an error. -/
def returnedValue {T : Type} : TaskRet T → Option T
  | .ret v _ => some v
  | .panics _ => none

/-- Whether a task body returns a non-nil error. -/
def TaskRet.fails {T : Type} : TaskRet T → Bool
  | .ret _ (some _) => true
  | _ => false

/-- Whether a task body panics. -/
def TaskRet.isPanic {T : Type} : TaskRet T → Bool
  | .panics _ => true
  | _ => false

/-- The relational view of `step`, one rule per way an event can happen. -/
inductive Step {T : Type} (cfg : PoolConfig) : PoolState T → Event → PoolState T → Prop where
  | cancelQueued {s : PoolState T} {j : Nat} {t : Job T} {d : CtxDone} :
      s.pending[j]? = some t → s.ctx = some d →
      Step cfg s (.start j)
        { s with pending := s.pending.eraseIdx j,
                 recorded := s.recorded ++ [(t, .canceledOrTimedOut d.cause)] }
  | startBody {s : PoolState T} {j : Nat} {t : Job T} :
      s.pending[j]? = some t → s.ctx = none → slotFree cfg s = true →
      Step cfg s (.start j)
        { s with pending := s.pending.eraseIdx j, running := s.running ++ [t] }
  | finishBody {s : PoolState T} {j : Nat} {t : Job T} :
      s.running[j]? = some t →
      Step cfg s (.finish j)
        { s with ctx := ctxAfter cfg s.ctx (resolve s.ctx t.2),
                 running := s.running.eraseIdx j,
                 recorded := s.recorded ++ [(t, resolve s.ctx t.2)] }
  | observeDone {s : PoolState T} {j : Nat} {t : Job T} {d : CtxDone} :
      s.running[j]? = some t → s.ctx = some d →
      Step cfg s (.observe j)
        { s with running := s.running.eraseIdx j,
                 recorded := s.recorded ++ [(t, .canceledOrTimedOut d.cause)] }
  | contextDone {s : PoolState T} {d : CtxDone} :
      s.ctx = none → Step cfg s (.ctxDone d) { s with ctx := some d }

/-- An event of the pool itself, as opposed to the caller's context
becoming done. -/
def Event.isTask : Event → Bool
  | .ctxDone _ => false
  | _ => true

/-- Every task of the batch is queued, running, or has exactly one recorded
outcome. -/
def Accounted {T : Type} (tasks : List (TaskRet T)) (s : PoolState T) : Prop :=
  (s.pending ++ s.running ++ s.recorded.map Prod.fst).Perm tasks.enum

/-- Every recorded outcome is the natural outcome of its task or a
cancellation. -/
def Classified {T : Type} (s : PoolState T) : Prop :=
  ∀ p ∈ s.recorded, p.2 = natural p.1.2 ∨ ∃ c, p.2 = Outcome.canceledOrTimedOut c

/-- The context is not done and every recorded outcome is the natural one:
the state of a pool without cancel-on-first-error whose context never
becomes done. -/
def Quiet {T : Type} (s : PoolState T) : Prop :=
  s.ctx = none ∧ ∀ p ∈ s.recorded, p.2 = natural p.1.2

/-- The error `ErrTask` of the pool test. -/
def errTask : GoError := .leaf "task error"

/-- The batch of the test case "go tasks with errors": kinds n, e, n, n, e. -/
def errBatch : List (TaskRet Int) := [taskN 0, taskE 1, taskN 2, taskN 3, taskE 4]

/-- One interleaving of the batch `errBatch`: all five bodies start, then end
in the order 4, 0, 1, 3, 2. -/
def errSchedule : List Event :=
  [.start 0, .start 0, .start 0, .start 0, .start 0,
   .finish 4, .finish 0, .finish 0, .finish 1, .finish 0]

/-- The state reached by `errSchedule` on a pool with no options. -/
def errFinal : PoolState Int :=
  ⟨none, [], [],
   [((4, taskE 4), .taskError 4 errTask), ((0, taskN 0), .success 0),
    ((1, taskE 1), .taskError 1 errTask), ((3, taskN 3), .success 3),
    ((2, taskN 2), .success 2)]⟩

/-- The state of a pool whose context was done with `d` before any task
started: no body runs and every recorded outcome is a cancellation carrying
the cause of `d`. -/
def AlreadyDone {T : Type} (d : CtxDone) (s : PoolState T) : Prop :=
  s.ctx = some d ∧ s.running = [] ∧
    ∀ p ∈ s.recorded, p.2 = Outcome.canceledOrTimedOut d.cause

/-- No more bodies run than the concurrency limit allows. -/
def WithinLimit {T : Type} (cfg : PoolConfig) (s : PoolState T) : Prop :=
  s.running.length ≤ cfg.concurrencyLimit

/-- The context of the timeout test case: past its deadline, with the cause
`ErrTimeout` given to `WithTimeoutCause`. -/
def timedOut : CtxDone := ⟨.deadlineExceeded, .leaf "timeout"⟩

/-- The batch of the test cases with five tasks of kind n. -/
def okBatch : List (TaskRet Int) := [taskN 0, taskN 1, taskN 2, taskN 3, taskN 4]

/-- The interleaving in which the five queued tasks are scheduled in the order
2, 0, 1, 4, 3. -/
def startAll : List Event := [.start 2, .start 0, .start 0, .start 1, .start 0]

/-- The state reached by `startAll` when the context is already done. -/
def timedOutFinal : PoolState Int :=
  ⟨some timedOut, [], [],
   [((2, taskN 2), .canceledOrTimedOut (.leaf "timeout")),
    ((0, taskN 0), .canceledOrTimedOut (.leaf "timeout")),
    ((1, taskN 1), .canceledOrTimedOut (.leaf "timeout")),
    ((4, taskN 4), .canceledOrTimedOut (.leaf "timeout")),
    ((3, taskN 3), .canceledOrTimedOut (.leaf "timeout"))]⟩

/-- A pool with at most two running bodies that cancels on the first
error. -/
def twoCancel : PoolConfig := ⟨2, true, false⟩

/-- An interleaving of `errBatch` on `twoCancel`: tasks 0 and 1 start, task 1
fails (which cancels the context), task 2 is cancelled in the queue, task 0
observes the cancellation, tasks 3 and 4 are cancelled in the queue. -/
def cancelSchedule : List Event :=
  [.start 0, .start 0, .finish 1, .start 0, .observe 0, .start 0, .start 0]

/-- The state reached by `cancelSchedule`. -/
def cancelFinal : PoolState Int :=
  ⟨some ⟨.canceled, ctxCanceled⟩, [], [],
   [((1, taskE 1), .taskError 1 errTask),
    ((2, taskN 2), .canceledOrTimedOut ctxCanceled),
    ((0, taskN 0), .canceledOrTimedOut ctxCanceled),
    ((3, taskN 3), .canceledOrTimedOut ctxCanceled),
    ((4, taskE 4), .canceledOrTimedOut ctxCanceled)]⟩

/-- What `Wait` returns in `cancelFinal`. -/
def cancelErrors : Option (List (ErrKind × GoError)) :=
  some [(.taskError, errTask), (.canceledOrTimedOut, ctxCanceled),
        (.canceledOrTimedOut, ctxCanceled), (.canceledOrTimedOut, ctxCanceled),
        (.canceledOrTimedOut, ctxCanceled)]

/-- A pool created with the collect-errored-results option only. -/
def collectErrored : PoolConfig := ⟨0, false, true⟩

/-- A pool created with the max-goroutines option set to `k` only. -/
def maxGoroutines (k : Nat) : PoolConfig := ⟨k, false, false⟩

/-- An interleaving of `okBatch` under a limit of two: a body starts only
when one of the two slots is free. -/
def limitedSchedule : List Event :=
  [.start 0, .start 0, .finish 1, .start 0, .finish 0, .start 1]

/-- The state reached by `limitedSchedule`: task 3 queued, tasks 2 and 4
running, tasks 1 and 0 done. -/
def limitedState : PoolState Int :=
  ⟨none, [(3, taskN 3)], [(2, taskN 2), (4, taskN 4)],
   [((1, taskN 1), .success 1), ((0, taskN 0), .success 0)]⟩

/-- Modelled from the spec: the pool once `Go` has been called for the given
jobs (tasks with their positions in a batch). -/
def initJobs {T : Type} (ctx : Option CtxDone) (jobs : List (Job T)) : PoolState T :=
  ⟨ctx, jobs, [], []⟩

/-- Whether a job's body does not panic. -/
def Job.calm {T : Type} (j : Job T) : Bool := !j.2.isPanic

/-- The state with the panicking tasks left out. -/
def withoutPanics {T : Type} (s : PoolState T) : PoolState T :=
  ⟨s.ctx, s.pending.filter Job.calm, s.running.filter Job.calm,
   s.recorded.filter fun p => Job.calm p.1⟩

/-- Whether an outcome is `CanceledOrTimedOut`. -/
def Outcome.isCanceled {T : Type} : Outcome T → Bool
  | .canceledOrTimedOut _ => true
  | _ => false

/-- A pool that cancels on the first error, with no other option. -/
def cancelOnly : PoolConfig := ⟨0, true, false⟩

/-- The batch of the test case "go tasks with panic": kinds n, n, p, n, n. -/
def panicBatch : List (TaskRet Int) := [taskN 0, taskN 1, taskP, taskN 3, taskN 4]

/-- An interleaving of `panicBatch` in which the panicking task ends first. -/
def panicSchedule : List Event :=
  [.start 0, .start 1, .start 0, .finish 1, .finish 0,
   .start 0, .start 0, .finish 1, .finish 0, .finish 0]

/-- The state reached by `panicSchedule` on a pool with no options. -/
def panicFinal : PoolState Int :=
  ⟨none, [], [],
   [((2, taskP), .panic (.recovered "panic message")), ((0, taskN 0), .success 0),
    ((3, taskN 3), .success 3), ((1, taskN 1), .success 1), ((4, taskN 4), .success 4)]⟩

/-- Modelled from the spec: the context of a pool once cancel-on-first-error
has fired, a plain cancel (`Err` and `Cause` are `context.Canceled`). -/
def firstErrCancel : CtxDone := ⟨.canceled, ctxCanceled⟩

/-- Once a failure is recorded the context of a pool that cancels on the
first error is done, cancelled by the pool. -/
def Fired {T : Type} (s : PoolState T) : Prop :=
  (∃ p ∈ s.recorded, p.2.isFailure = true) → s.ctx = some firstErrCancel

/-- The state `s` of a pool whose context was done with `d` in the earlier
state `s1`: no body has started since, and every outcome recorded since is a
cancellation carrying the cause of `d`. -/
def AfterDone {T : Type} (d : CtxDone) (s1 s : PoolState T) : Prop :=
  s.ctx = some d ∧ s.running.Sublist s1.running ∧
    ∀ p ∈ s.recorded, p ∈ s1.recorded ∨ p.2 = Outcome.canceledOrTimedOut d.cause

/-- The values a configuration retains from a batch when every body runs to
its end. -/
def retainedOf {T : Type} (cfg : PoolConfig) (t : TaskRet T) : Option T :=
  if cfg.collectErroredResults then returnedValue t else successValue t

/-- The state of the batch `[taskE 0, taskN 1]` once both bodies have started
and task 0 has failed: the context is cancelled and task 1 is still
running. -/
def spareMid : PoolState Int :=
  ⟨some ⟨.canceled, ctxCanceled⟩, [], [(1, taskN 1)],
   [((0, taskE 0), .taskError 0 errTask)]⟩

/-- The state reached from `spareMid` when the body of task 1 ends: its late
result is discarded. -/
def spareFinal : PoolState Int :=
  ⟨some ⟨.canceled, ctxCanceled⟩, [], [],
   [((0, taskE 0), .taskError 0 errTask),
    ((1, taskN 1), .canceledOrTimedOut ctxCanceled)]⟩

/-! ## SingleDo (helpers/singleflight.go) -/

/-- The test `errors.Is(err, target)` for a target that is one of the context errors:
the chain of `err` is walked through `Unwrap`; a wrapper is never equal to the
target, a value without a cause is compared with it. -/
def errorsIs (target : GoError) : GoError → Bool
  | .withMessage cause _ => errorsIs target cause
  | .withStack cause => errorsIs target cause
  | .canceled => target == .canceled
  | .deadlineExceeded => target == .deadlineExceeded
  | .leaf msg => target == .leaf msg
  | .recovered val => target == .recovered val

/-- The text of `ctx.Err().Error()`. -/
def CtxErr.message : CtxErr → String
  | .canceled => "context canceled"
  | .deadlineExceeded => "context deadline exceeded"

/-- A non-nil value held in a Go interface: its dynamic type and its payload
(payload 0 is the zero value of the type, such as a nil pointer). -/
structure Dyn where
  typ : String
  val : Int
  deriving DecidableEq, Repr

/-- A value of type `interface{}`; `none` is the nil interface value. -/
abbrev GoAny := Option Dyn

/-- The type argument `T` of `SingleDo`: a non-interface type, given by its
name, or an interface type, given by the dynamic types that implement it.
A value of `T` is represented by its conversion to `interface{}`, which is
what the assignment `result, err = call()` stores. -/
inductive GoType where
  | concrete (name : String)
  | iface (implementers : List String)
  deriving DecidableEq, Repr

/-- Whether an `interface{}` value is the conversion of a value of `T`. -/
def GoType.holds : GoType → GoAny → Bool
  | .concrete name, some d => d.typ == name
  | .concrete _, none => false
  | .iface impls, some d => impls.contains d.typ
  | .iface _, none => true

/-- The zero value of `T` (the unassigned named result `data T`): payload 0
of a non-interface type, the nil interface value of an interface type. -/
def GoType.zero : GoType → GoAny
  | .concrete name => some ⟨name, 0⟩
  | .iface _ => none

/-- The type assertion `val, ok := result.(T)`; `none` is `ok == false`.  It
fails on the nil interface value whatever `T` is. -/
def GoType.assert (T : GoType) : GoAny → Option GoAny
  | none => none
  | some d =>
    match T with
    | .concrete name => if d.typ == name then some (some d) else none
    | .iface impls => if impls.contains d.typ then some (some d) else none

/-- The text `%T` prints for an `interface{}` value. -/
def typeName : GoAny → String
  | none => "<nil>"
  | some d => d.typ

/-- The conversion `int(retry)` of a `uint` on a machine word of `w` bits. -/
def toInt (w : Nat) (u : Nat) : Int :=
  if u % 2 ^ w < 2 ^ (w - 1) then (u % 2 ^ w : Nat) else (u % 2 ^ w : Nat) - (2 ^ w : Nat)

/-- What the function given to `singleFlightGroup.Do` returns, with what it
did on the way: the number of invocations of `call`, and the attempt numbers
`i` at which it entered a backoff wait (the argument of `JitterBackoff`). -/
structure Flight where
  result : GoAny
  err : Option GoError
  calls : Nat
  waits : List Nat
  deriving DecidableEq, Repr

/-- The `switch` of `SingleDo` taken when `ctx.Done()` fires during a wait:
the error of the last attempt is returned as it is when it and `ctx.Err()`
are both the deadline error or both the cancel error, and with the message
of `ctx.Err()` added otherwise. -/
def onCtxDone (err : GoError) (ce : CtxErr) : GoError :=
  if (errorsIs .deadlineExceeded err && errorsIs .deadlineExceeded ce.toError)
      || (errorsIs .canceled err && errorsIs .canceled ce.toError) then err
  else .withMessage err ce.message

/-- The loop `for i := 0; i <= int(retry); i++` of `SingleDo` from attempt
`i` on, with `k = int(retry) - i` retries left.  `call i` is what the
invocation number `i` of `call` returns; `sel i` is how the `select` after
the failed attempt `i` ends: `none` when the timer fires, `some ce` when
`ctx.Done()` fires with `ctx.Err() = ce`. -/
def attempt (sel : Nat → Option CtxErr) (call : Nat → GoAny × Option GoError) :
    Nat → Nat → Flight
  | k, i =>
    match call i with
    | (result, none) => ⟨result, none, 1, []⟩
    | (_, some err) =>
      match k with
      | 0 => ⟨none, some err, 1, []⟩
      | k + 1 =>
        match sel i with
        | some ce => ⟨none, some (onCtxDone err ce), 1, [i]⟩
        | none =>
          let r := attempt sel call k (i + 1)
          ⟨r.result, r.err, r.calls + 1, i :: r.waits⟩

/-- The function `SingleDo` gives to `singleFlightGroup.Do`.  When
`int(retry)` is negative the loop body never runs and the function returns
`nil, err` with `err` still nil.  (The timer that forgets the key after
`ttl` does not change what is returned and is left out.) -/
def flight (w : Nat) (sel : Nat → Option CtxErr) (call : Nat → GoAny × Option GoError)
    (retry : Nat) : Flight :=
  if toInt w retry < 0 then ⟨none, none, 0, []⟩
  else attempt sel call (toInt w retry).toNat 0

/-- The text of the error `SingleDo` makes when the type assertion fails. -/
def mismatchMessage (T : GoType) (result : GoAny) : String :=
  "expected type " ++ typeName T.zero ++ " but got type " ++ typeName result

/-- What a caller of `SingleDo` with type argument `T` does with the result
and error it receives from `singleFlightGroup.Do`. -/
def receive (T : GoType) (result : GoAny) (e : Option GoError) : GoAny × Option GoError :=
  match e with
  | some e => (T.zero, some e)
  | none =>
    match T.assert result with
    | some val => (val, none)
    | none => (T.zero, some (.withStack (.leaf (mismatchMessage T result))))

/-- The call `SingleDo[T](ctx, key, call, retry)` by the caller that executes the
flight, on a machine word of `w` bits: the pair `(data, err)` it returns. -/
def SingleDo (T : GoType) (w : Nat) (sel : Nat → Option CtxErr)
    (call : Nat → GoAny × Option GoError) (retry : Nat) : GoAny × Option GoError :=
  receive T (flight w sel call retry).result (flight w sel call retry).err

/-- The number of times `SingleDo` invokes `call`. -/
def invocations (w : Nat) (sel : Nat → Option CtxErr)
    (call : Nat → GoAny × Option GoError) (retry : Nat) : Nat :=
  (flight w sel call retry).calls

/-- A context that is never done: every wait ends with its timer. -/
def neverDone : Nat → Option CtxErr := fun _ => none

/-- An interface type, such as `error`, with one implementing type. -/
def errorIface : GoType := .iface ["*errors.errorString"]

/-- A `call` that returns the nil interface value and a nil error. -/
def callNil : Nat → GoAny × Option GoError := fun _ => (none, none)

/-- A `call` that returns a nil pointer of type `*T` and a nil error. -/
def callNilPtr : Nat → GoAny × Option GoError := fun _ => (some ⟨"*T", 0⟩, none)

/-- A `call` that fails on every attempt. -/
def callBoom : Nat → GoAny × Option GoError := fun _ => (none, some (.leaf "boom"))

/-- A `call` whose error on every attempt wraps `context.Canceled`. -/
def callCanceled : Nat → GoAny × Option GoError :=
  fun _ => (none, some (.withStack .canceled))

/-- A context that is cancelled during the wait after attempt 1. -/
def cancelDuringSecondWait : Nat → Option CtxErr :=
  fun i => if i = 1 then some .canceled else none

/-! ## SingleDo: error texts and contexts with a cause -/

/-- The text `err.Error()` of an error: `errors.WithMessage` puts its message
and ": " before the text of the cause, `errors.WithStack` keeps the text of
the cause. -/
def GoError.message : GoError → String
  | .canceled => "context canceled"
  | .deadlineExceeded => "context deadline exceeded"
  | .leaf msg => msg
  | .withMessage cause msg => msg ++ ": " ++ cause.message
  | .withStack cause => cause.message
  | .recovered val => val

/-- The call `SingleDo[T](ctx, key, call, retry)` on a context given with its
cause: `ctx i` is `none` when the wait after the failed attempt `i` ends with
the timer and `some d` when `ctx.Done()` fires, `d` holding both `ctx.Err()`
and `context.Cause(ctx)`.  The code reads `ctx.Done()` and `ctx.Err()` only;
`context.Cause` is not called anywhere in `SingleDo`. -/
def SingleDoOn (T : GoType) (w : Nat) (ctx : Nat → Option CtxDone)
    (call : Nat → GoAny × Option GoError) (retry : Nat) : GoAny × Option GoError :=
  SingleDo T w (fun i => (ctx i).map CtxDone.err) call retry

/-- A context made by `context.WithTimeoutCause(parent, d, ErrTimeout)` whose
deadline passes during the first wait. -/
def timeoutWithCause : Nat → Option CtxDone :=
  fun i => if i = 0 then some timedOut else none

/-- The result of a flight whose call returned the `int` 5. -/
def sharedInt : GoAny := some ⟨"int", 5⟩

/-! ## The single-flight group shared by the callers of SingleDo -/

/-- One call of `SingleDo` on the shared key: its type argument `T`, its
arguments, and whether a `ttl` was passed. -/
structure Caller where
  typ : GoType
  sel : Nat → Option CtxErr
  call : Nat → GoAny × Option GoError
  retry : Nat
  ttl : Bool

/-- One execution started in `singleFlightGroup` for the key: the callers
blocked on it, the first of which runs the function it gave to `Do`; whether
the function has returned; and whether the timer of
`time.AfterFunc(ttl[0], ...)` is pending (set when the first caller passed a
`ttl`, until it fires or is stopped by `defer forgetTimer.Stop()`). -/
structure Shared where
  callers : List Caller
  done : Bool
  timer : Bool

/-- The state of `singleFlightGroup` for one key: `entry` is the execution
registered under the key, which a caller entering `Do` joins (`none` when
the key is absent from the group), and `flights` are the executions started
so far. -/
structure Group where
  entry : Option Nat
  flights : List Shared

/-- What can happen in the group, each as one step under the lock of the
group: a caller enters `singleFlightGroup.Do(key, fn)`; the timer of the
execution number `f` fires and calls `Forget(key)`; the function of the
execution number `f` returns. -/
inductive GroupEvent where
  | arrive (c : Caller)
  | forget (f : Nat)
  | complete (f : Nat)

/-- One step of the group, as `singleflight.Group` documents `Do` and
`Forget`: a caller that finds the key registered waits for that execution,
otherwise it registers a new execution and runs its function; `Forget`
removes the key, whichever execution it is registered for; a function that
returns stops its timer, removes the key when it is still registered for its
own execution, and releases its callers. -/
def groupStep (g : Group) : GroupEvent → Option Group
  | .arrive c =>
    match g.entry with
    | some f =>
      match g.flights[f]? with
      | some fr =>
        some { g with flights := g.flights.set f { fr with callers := fr.callers ++ [c] } }
      | none => none
    | none => some ⟨some g.flights.length, g.flights ++ [⟨[c], false, c.ttl⟩]⟩
  | .forget f =>
    match g.flights[f]? with
    | some fr =>
      if fr.timer && !fr.done then
        some ⟨none, g.flights.set f { fr with timer := false }⟩
      else none
    | none => none
  | .complete f =>
    match g.flights[f]? with
    | some fr =>
      if fr.done then none
      else some ⟨if g.entry = some f then none else g.entry,
                 g.flights.set f { fr with done := true, timer := false }⟩
    | none => none

/-- An execution of the group: the events applied in order. -/
def runGroup : Group → List GroupEvent → Option Group
  | g, [] => some g
  | g, e :: es => (groupStep g e).bind fun g' => runGroup g' es

/-- The group before any call. -/
def emptyGroup : Group := ⟨none, []⟩

/-- What the function of an execution returns: the flight of its first
caller, with the context, `call` and `retry` of that caller. -/
def Shared.outcome (w : Nat) (fr : Shared) : Flight :=
  match fr.callers.head? with
  | some ex => flight w ex.sel ex.call ex.retry
  | none => ⟨none, none, 0, []⟩

/-- What `SingleDo` returns to a caller blocked on an execution: the result
and error of the execution, passed through the type assertion of the
caller. -/
def Shared.returned (w : Nat) (fr : Shared) (c : Caller) : GoAny × Option GoError :=
  receive c.typ (fr.outcome w).result (fr.outcome w).err

/-- Whether an event is not the `Forget` of a `ttl` timer. -/
def GroupEvent.keeps : GroupEvent → Bool
  | .forget _ => false
  | _ => true

/-- The key is registered exactly for the execution that has not returned:
the state of a group in which no `ttl` timer has fired. -/
def Registered (g : Group) : Prop :=
  ∀ f fr, g.flights[f]? = some fr → (fr.done = false ↔ g.entry = some f)

/-- A caller whose `call` returns the `int` 5, with result type `int` and a
`ttl`. -/
def callerInt : Caller := ⟨.concrete "int", neverDone, fun _ => (some ⟨"int", 5⟩, none), 0, true⟩

/-- A caller on the same key with result type `string`. -/
def callerString : Caller :=
  ⟨.concrete "string", neverDone, fun _ => (some ⟨"string", 1⟩, none), 0, false⟩

/-- The group after two callers with result type `int` have arrived. -/
def twoJoined : Group := ⟨some 0, [⟨[callerInt, callerInt], false, true⟩]⟩

/-- The group after a third caller has arrived. -/
def threeJoined : Group :=
  ⟨some 0, [⟨[callerInt, callerInt, callerInt], false, true⟩]⟩

/-- A `call` that succeeds on every attempt with the `int` 7. -/
def callSeven : Nat → GoAny × Option GoError := fun _ => (some ⟨"int", 7⟩, none)

/-- A caller on the same key whose result type is an interface type that
both `int` and `string` implement, such as `any`. -/
def callerAny : Caller :=
  ⟨.iface ["int", "string"], neverDone, fun _ => (some ⟨"string", 1⟩, none), 0, false⟩

/-- A caller with result type `int` whose `call` fails on every attempt. -/
def callerBoom : Caller := ⟨.concrete "int", neverDone, callBoom, 0, false⟩

/-- The group after `callerInt`, `callerString` and `callerAny` have arrived
in this order and the execution of the first has returned. -/
def mixedDone : Group := ⟨none, [⟨[callerInt, callerString, callerAny], true, false⟩]⟩

/-- The group after `callerBoom` and `callerString` have arrived and the
execution of the first has returned. -/
def boomDone : Group := ⟨none, [⟨[callerBoom, callerString], true, false⟩]⟩

/-! ## InterfaceStripTags and PostDataStripTags (helpers/escape.go) -/

/-- An `interface{}` value as `InterfaceStripTags` tells values apart: the
values `encoding/json` decodes to (nil, `bool`, `float64` given by its bits,
`string`, `[]interface{}`, `map[string]interface{}` as the list of its
entries) and any other value, given by the name of its type.  A string is a
sequence of characters (valid UTF-8). -/
inductive Data where
  | nil
  | bool (b : Bool)
  | number (bits : Nat)
  | str (s : String)
  | slice (vs : List Data)
  | dict (kvs : List (String × Data))
  | other (typ : String)

/-- The test `unicode.IsSpace`: the white space characters of Latin-1 and the
other code points with the Unicode property White_Space. -/
def isSpace (c : Char) : Bool :=
  c.toNat == 0x09 || c.toNat == 0x0a || c.toNat == 0x0b || c.toNat == 0x0c ||
  c.toNat == 0x0d || c.toNat == 0x20 || c.toNat == 0x85 || c.toNat == 0xa0 ||
  c.toNat == 0x1680 || (0x2000 ≤ c.toNat && c.toNat ≤ 0x200a) ||
  c.toNat == 0x2028 || c.toNat == 0x2029 || c.toNat == 0x202f ||
  c.toNat == 0x205f || c.toNat == 0x3000

/-- The function `strings.TrimSpace`: the string without its leading and
trailing white space (`TrimLeftFunc`, then `TrimRightFunc`, with
`unicode.IsSpace`). -/
def stringsTrimSpace (s : String) : String :=
  ⟨(s.data.dropWhile isSpace).rdropWhile isSpace⟩

/-- The apostrophe, U+0027. -/
def apostrophe : Char := Char.ofNat 39

/-- The double quote, U+0022. -/
def doubleQuote : Char := Char.ofNat 34

/-- The replacement table of `html.EscapeString`. -/
def escapeChar (c : Char) : List Char :=
  if c = '&' then "&amp;".data
  else if c = apostrophe then "&#39;".data
  else if c = '<' then "&lt;".data
  else if c = '>' then "&gt;".data
  else if c = doubleQuote then "&#34;".data
  else [c]

/-- The function `html.EscapeString`: a replacer that rewrites each of the
five characters of its table and copies every other character. -/
def htmlEscapeString (s : String) : String :=
  ⟨s.data.flatMap escapeChar⟩

mutual
/-- The function `InterfaceStripTags(data, trimSpace)`: the elements of a
`[]interface{}` and the values of a `map[string]interface{}` are replaced by
their stripped form, a string is trimmed when `trimSpace` is set and then
escaped, any other value is returned as it is. -/
def InterfaceStripTags : Data → Bool → Data
  | .slice vs, trimSpace => .slice (stripValues vs trimSpace)
  | .dict kvs, trimSpace => .dict (stripEntries kvs trimSpace)
  | .str s, trimSpace =>
    .str (htmlEscapeString (if trimSpace then stringsTrimSpace s else s))
  | .nil, _ => .nil
  | .bool b, _ => .bool b
  | .number bits, _ => .number bits
  | .other typ, _ => .other typ
/-- The loop `for i := range values` of `InterfaceStripTags`. -/
def stripValues : List Data → Bool → List Data
  | [], _ => []
  | v :: vs, trimSpace => InterfaceStripTags v trimSpace :: stripValues vs trimSpace
/-- The loop `for k, v := range values` of `InterfaceStripTags`: the keys are
kept, the values are stripped. -/
def stripEntries : List (String × Data) → Bool → List (String × Data)
  | [], _ => []
  | (k, v) :: kvs, trimSpace => (k, InterfaceStripTags v trimSpace) :: stripEntries kvs trimSpace
end

/-- In the words of the claim: `t` is `s` with its leading and trailing white
space removed: `s` is `t` between two runs of white space, and `t` neither
begins nor ends with white space. -/
def IsTrimOf (s t : List Char) : Prop :=
  ∃ pre post, s = pre ++ t ++ post ∧
    (∀ c ∈ pre, isSpace c = true) ∧ (∀ c ∈ post, isSpace c = true) ∧
    (∀ c, t.head? = some c → isSpace c = false) ∧
    (∀ c, t.getLast? = some c → isSpace c = false)

/-- The test `strings.Contains(s, substr)`. -/
def stringsContains (s substr : String) : Bool :=
  s.data.tails.any fun t => substr.data.isPrefixOf t

/-- What `json.NewDecoder(reader).Decode(&data)` does on a reader over the
bytes of a body: the number of bytes it has pulled from the reader when it
returns (the decoder reads ahead in blocks and stops reading once the first
JSON value is complete), the decoded value, and its error. -/
structure Decoded where
  read : Nat
  value : Data
  err : Option GoError

/-- The parts of a `*http.Request` that `PostDataStripTags` uses: the value of
the header `Content-Type`, and `req.Body`, `none` when it is nil and
otherwise the bytes that reading it yields. -/
structure Request where
  contentType : String
  body : Option (List Nat)

/-- The function `PostDataStripTags(req, trimSpace)`, with the map and the
error it returns and the request as it leaves it.  `toLower` is
`strings.ToLower` and `decode` is the JSON decoder of `encoding/json`.  The
decoder reads the body through a `TeeReader` that copies what is read into a
buffer; after a successful decode `req.Body` is replaced by that buffer. -/
def PostDataStripTags (toLower : String → String) (decode : List Nat → Decoded)
    (req : Request) (trimSpace : Bool) :
    (Option (List (String × Data)) × Option GoError) × Request :=
  if stringsContains (toLower req.contentType) "application/json" then
    match req.body with
    | some bytes =>
      match (decode bytes).err with
      | some err => ((none, some err), { req with body := some (bytes.drop (decode bytes).read) })
      | none =>
        match InterfaceStripTags (decode bytes).value trimSpace with
        | .dict kvs => ((some kvs, none), { req with body := some (bytes.take (decode bytes).read) })
        | _ =>
          ((none, some (.leaf "ERROR: JSON syntax error")),
           { req with body := some (bytes.take (decode bytes).read) })
    | none => ((none, some (.leaf "ERROR: empty request body")), req)
  else ((none, none), req)

/-- Whether a value is a `map[string]interface{}`. -/
def Data.isDict : Data → Bool
  | .dict _ => true
  | _ => false

/-- The 13 bytes of the JSON object with the one entry "a": " <b> ". -/
def objectBytes : List Nat := [123, 34, 97, 34, 58, 34, 32, 60, 98, 62, 32, 34, 125]

/-- A body of 600 bytes: the object of `objectBytes` followed by spaces. -/
def longBody : List Nat := objectBytes ++ List.replicate 587 32

/-- The 5 bytes of the JSON array with the one element "a". -/
def arrayBytes : List Nat := [91, 34, 97, 34, 93]

/-- The decoder on the bodies of the examples that begin with `objectBytes`:
its first read fills a buffer of 512 bytes, in which the object is complete,
so it reads no further. -/
def firstBlock : List Nat → Decoded :=
  fun bytes => ⟨min 512 bytes.length, .dict [("a", .str " <b> ")], none⟩

/-- The decoder on the body `arrayBytes`. -/
def arrayDecoder : List Nat → Decoded :=
  fun bytes => ⟨min 512 bytes.length, .slice [.str "a"], none⟩

/-- The function `strings.ToLower` on ASCII text. -/
def asciiLower (s : String) : String := ⟨s.data.map Char.toLower⟩

/-- The request of the examples: a JSON content type in mixed case and the
body `longBody`. -/
def longRequest : Request := ⟨"Application/JSON; charset=utf-8", some longBody⟩

/-- A request with a JSON content type whose body is the object of
`objectBytes` alone. -/
def shortRequest : Request := ⟨"application/json", some objectBytes⟩

/-- A request with a JSON content type whose body is the array of
`arrayBytes`. -/
def arrayRequest : Request := ⟨"application/json", some arrayBytes⟩

/-! ## The conversions of helpers/interface.go -/

/-- The predeclared integer types that the conversions tell apart. -/
inductive IntKind where
  | int | int8 | int16 | int32 | int64
  | uint | uint8 | uint16 | uint32 | uint64
  deriving DecidableEq, Repr

/-- A Go value as `reflect` and a type switch see it: the nil interface
value; a `bool`, a `string`, an integer of a predeclared type, a `float32` or
`float64` given by its bits; a nil pointer; a pointer to a variable, given by
the value the variable holds; `boxed v`, a variable of interface type holding
`v`, which occurs as the target of a pointer only; a slice and an array with
their elements; and any other value, given by the name of its type. -/
inductive Value where
  | nil
  | bool (b : Bool)
  | string (s : String)
  | int (kind : IntKind) (n : Int)
  | float32 (bits : Nat)
  | float64 (bits : Nat)
  | nilPtr
  | ptr (target : Value)
  | boxed (v : Value)
  | slice (elems : List Value)
  | array (elems : List Value)
  | other (typ : String)

/-- The loop `for v.Kind() == reflect.Ptr && !v.IsNil() { v = v.Elem() }` of
`indirect`. -/
def derefLoop : Value → Value
  | .ptr target => derefLoop target
  | v => v

/-- The method `v.Interface()` of `reflect.Value`: for a variable of interface
type, the value it holds. -/
def valueInterface : Value → Value
  | .boxed v => v
  | v => v

/-- The function `indirect(i)`: nil for nil, `i` itself when it is not a
pointer, and otherwise the value reached by dereferencing as long as the
value is a non-nil pointer. -/
def indirect : Value → Value
  | .nil => .nil
  | .ptr target => valueInterface (derefLoop (.ptr target))
  | .nilPtr => valueInterface (derefLoop .nilPtr)
  | v => v

/-- Whether `reflect.ValueOf(value).Kind()` is `Array` or `Slice`. -/
def isArrayOrSlice : Value → Bool
  | .slice _ => true
  | .array _ => true
  | _ => false

/-- The function `ConvertInterfaceToSlice(value)`. -/
def ConvertInterfaceToSlice (value : Value) : Value :=
  if isArrayOrSlice (indirect value) then indirect value
  else .slice [indirect value]

/-- The functions of `strconv` and the conversions to `float64` that the
conversions call, taken as they are: `formatInt` is `FormatInt(v, 10)`,
`FormatUint(v, 10)` and `Itoa`; `formatFloat x bitSize` is
`FormatFloat(x, 'f', -1, bitSize)`; floats are given by their bits. -/
structure Strconv where
  parseBool : String → Bool × Option GoError
  formatBool : Bool → String
  formatInt : Int → String
  formatFloat : Nat → Nat → String
  parseFloat : String → Nat × Option GoError
  floatOfInt : Int → Nat
  float64Of32 : Nat → Nat

/-- The function `ConvertInterfaceToBool(value)`. -/
def ConvertInterfaceToBool (lib : Strconv) (value : Value) : Bool × Option GoError :=
  match indirect value with
  | .bool v => (v, none)
  | .string v => lib.parseBool v
  | .int _ v => lib.parseBool (lib.formatInt v)
  | .float32 v => lib.parseBool (lib.formatFloat (lib.float64Of32 v) 64)
  | .float64 v => lib.parseBool (lib.formatFloat v 64)
  | _ => (false, some (.leaf "wrong parameter type"))

/-- The function `ConvertInterfaceToFloat(value)`; the `float64` it returns is
given by its bits, 0 for the zero value. -/
def ConvertInterfaceToFloat (lib : Strconv) (value : Value) : Nat × Option GoError :=
  match indirect value with
  | .string v => lib.parseFloat v
  | .int _ v => (lib.floatOfInt v, none)
  | .float32 v => (lib.float64Of32 v, none)
  | .float64 v => (v, none)
  | _ => (0, some (.leaf "wrong parameter type"))

/-- The function `ConvertInterfaceToString(value)`. -/
def ConvertInterfaceToString (lib : Strconv) (value : Value) : String × Option GoError :=
  match indirect value with
  | .string v => (v, none)
  | .bool v => (lib.formatBool v, none)
  | .int _ v => (lib.formatInt v, none)
  | .float32 v => (lib.formatFloat (lib.float64Of32 v) 32, none)
  | .float64 v => (lib.formatFloat v 64, none)
  | _ => ("", some (.leaf "wrong parameter type"))

/-- A value of one of the types the three conversions support. -/
def Value.isBasic : Value → Bool
  | .bool _ => true
  | .string _ => true
  | .int _ _ => true
  | .float32 _ => true
  | .float64 _ => true
  | _ => false

/-- A chain of `n` non-nil pointers ending at `x`. -/
def pointerChain : Nat → Value → Value
  | 0, x => x
  | n + 1, x => .ptr (pointerChain n x)

/-- A stand-in for `strconv` on the values of the examples: booleans are
parsed from "1" and "true", integers are formatted in decimal. -/
def exampleStrconv : Strconv :=
  ⟨fun s => if s = "1" ∨ s = "true" then (true, none)
            else if s = "0" ∨ s = "false" then (false, none)
            else (false, some (.leaf "invalid syntax")),
   fun b => if b then "true" else "false",
   fun n => toString n,
   fun _ _ => "",
   fun _ => (0, some (.leaf "invalid syntax")),
   fun _ => 0,
   fun x => x⟩

/-! ## beanContext (context.go) -/

/-- A key given to `Value`: a key of type `int`, a key of type `string`, or a
key of any other type. -/
inductive CtxKey where
  | int (n : Int)
  | str (s : String)
  | other (id : Nat)
  deriving DecidableEq, Repr

/-- The parts of a `*http.Request` that `beanContext` reads: the parameters of
the URL query (`r.URL.Query()`), and the context of the request
(`r.Context()`): its `Value`, its deadline (`none` for no deadline), its
`Done` channel (`none` for a nil channel) and its `Err`.  A value of type
`any` is `none` when it is nil. -/
structure HttpRequest (V : Type) where
  query : List (String × List String)
  ctxValue : CtxKey → Option V
  ctxDeadline : Option Nat
  ctxDone : Option Nat
  ctxErr : Option GoError

/-- The fields of `beanContext` that its accessors use: the request (`none`
for a nil pointer), the map `keys` (`none` while it is not initialised), the
path parameters, and the cached query parameters (`none` for nil). -/
structure beanContext (V : Type) where
  request : Option (HttpRequest V)
  keys : Option (List (String × Option V))
  params : List (String × String)
  query : Option (List (String × List String))

/-- What `Value` returns, a value of type `any`: a stored or inherited value,
or, for the key `0`, the pointer to the request. -/
inductive AnyValue (V : Type) where
  | value (v : Option V)
  | request (r : Option (HttpRequest V))

/-- The assignment `m[key] = value` on a Go map given by its entries. -/
def mapStore {V : Type} (m : List (String × V)) (key : String) (value : V) :
    List (String × V) :=
  (key, value) :: m.filter fun p => p.1 != key

/-- The method `Get(key)`: the value and `true` when the key is in `keys`,
`(nil, false)` otherwise, also on a map that is nil; the context is only
read. -/
def beanContext.Get {V : Type} (bc : beanContext V) (key : String) :
    (Option V × Bool) × beanContext V :=
  match bc.keys with
  | none => ((none, false), bc)
  | some m =>
    match m.lookup key with
    | some v => ((v, true), bc)
    | none => ((none, false), bc)

/-- The method `Set(key, value)`: `keys` is made when it is nil, then the
value is stored under the key. -/
def beanContext.Set {V : Type} (bc : beanContext V) (key : String) (value : Option V) :
    beanContext V :=
  { bc with keys := some (mapStore (bc.keys.getD []) key value) }

/-- The end of the method `Value`: nil when there is no request, otherwise
the value of the context of the request. -/
def beanContext.inherited {V : Type} (bc : beanContext V) (key : CtxKey) : AnyValue V :=
  match bc.request with
  | none => .value none
  | some r => .value (r.ctxValue key)

/-- The method `Value(key)`: the request for the key `0`; for a string key
under which a value is stored, that value; otherwise the value of the
context of the request, or nil without a request; the context is only
read. -/
def beanContext.Value {V : Type} (bc : beanContext V) (key : CtxKey) :
    AnyValue V × beanContext V :=
  match key with
  | .int 0 => (.request bc.request, bc)
  | .str keyAsString =>
    match (bc.Get keyAsString).1 with
    | (val, true) => (.value val, bc)
    | (_, false) => (bc.inherited key, bc)
  | _ => (bc.inherited key, bc)

/-- The calls `Set(key, value)` of a list, in order. -/
def beanContext.setAll {V : Type} (bc : beanContext V) :
    List (String × Option V) → beanContext V
  | [] => bc
  | (key, value) :: rest => (bc.Set key value).setAll rest

/-- A context as `new(beanContext)` leaves it, without a request. -/
def freshContext : beanContext Nat := ⟨none, none, [], none⟩

/-- The method `Get` of `url.Values`: the first value stored under the name,
the empty string when the name has no value. -/
def urlValuesGet (v : List (String × List String)) (name : String) : String :=
  match v.lookup name with
  | some (first :: _) => first
  | _ => ""

/-- The method `SetRequest(r)`: the request is replaced, nothing else. -/
def beanContext.SetRequest {V : Type} (bc : beanContext V) (r : Option (HttpRequest V)) :
    beanContext V :=
  { bc with request := r }

/-- The method `Reset(r, w)`: the request and the response writer are
replaced, nothing else; the response writer is not among the fields of the
model. -/
def beanContext.Reset {V W : Type} (bc : beanContext V) (r : Option (HttpRequest V))
    (_w : W) : beanContext V :=
  { bc with request := r }

/-- The method `QueryParams()`: when the cached `query` is nil it is filled
from the URL of the request, then the cached `query` is returned; `none` is
the nil dereference of a context without a request and with an empty
cache. -/
def beanContext.QueryParams {V : Type} (bc : beanContext V) :
    Option (List (String × List String) × beanContext V) :=
  match bc.query with
  | some q => some (q, bc)
  | none =>
    match bc.request with
    | none => none
    | some r => some (r.query, { bc with query := some r.query })

/-- The method `Query(name)`: `QueryParams().Get(name)`. -/
def beanContext.Query {V : Type} (bc : beanContext V) (name : String) :
    Option (String × beanContext V) :=
  match bc.QueryParams with
  | none => none
  | some (q, bc') => some (urlValuesGet q name, bc')

/-- The result `(deadline, ok)` of `Deadline()` on the context of a request;
the zero time is `0`. -/
def HttpRequest.Deadline {V : Type} (r : HttpRequest V) : Nat × Bool :=
  match r.ctxDeadline with
  | some t => (t, true)
  | none => (0, false)

/-- The method `Deadline()`: the zero time and `false` without a request,
otherwise the deadline of the context of the request. -/
def beanContext.Deadline {V : Type} (bc : beanContext V) : Nat × Bool :=
  match bc.request with
  | none => (0, false)
  | some r => r.Deadline

/-- The method `Done()`: the nil channel without a request, otherwise the
channel of the context of the request. -/
def beanContext.Done {V : Type} (bc : beanContext V) : Option Nat :=
  match bc.request with
  | none => none
  | some r => r.ctxDone

/-- The method `Err()`: nil without a request, otherwise the error of the
context of the request. -/
def beanContext.Err {V : Type} (bc : beanContext V) : Option GoError :=
  match bc.request with
  | none => none
  | some r => r.ctxErr

/-- A request whose URL query is `a=1&b=x&b=y`; its context has a deadline,
a channel and the error of a cancellation. -/
def firstRequest : HttpRequest Nat :=
  ⟨[("a", ["1"]), ("b", ["x", "y"])], fun _ => none, some 1700, some 7, some .canceled⟩

/-- A request whose URL query is `a=2`; its context is the background
context. -/
def secondRequest : HttpRequest Nat :=
  ⟨[("a", ["2"])], fun _ => none, none, none, none⟩

/-- A context that holds `firstRequest` and has not read its query yet. -/
def servingContext : beanContext Nat := ⟨some firstRequest, none, [], none⟩

/-- The context after `Query(name)`; a failed call leaves it as it was. -/
def beanContext.afterQuery {V : Type} (bc : beanContext V) (name : String) : beanContext V :=
  match bc.Query name with
  | some (_, bc') => bc'
  | none => bc

/-- The number of non-nil pointers to follow from a value to the value that
is not a non-nil pointer. -/
def ptrDepth : Value → Nat
  | .ptr target => ptrDepth target + 1
  | _ => 0

/-- A pointer to a pointer to the slice `[1, 2]` of `int`. -/
def slicePtrPtr : Value := .ptr (.ptr (.slice [.int .int 1, .int .int 2]))

/-! ### Lemmas on the pool model -/

theorem step_sound {T : Type} {cfg : PoolConfig} {s s' : PoolState T} {e : Event}
    (h : step cfg s e = some s') : Step cfg s e s' := by
  cases e with
  | start j =>
    simp only [step] at h
    cases hp : s.pending[j]? with
    | none => simp [hp] at h
    | some t =>
      cases hc : s.ctx with
      | some d =>
        simp only [hp, hc, Option.some.injEq] at h
        subst h
        have h' := @Step.cancelQueued T cfg s j t d hp hc
        simpa only [hc] using h'
      | none =>
        simp only [hp, hc] at h
        by_cases hs : slotFree cfg s = true
        · simp only [hs, if_true, Option.some.injEq] at h
          subst h
          have h' := @Step.startBody T cfg s j t hp hc hs
          simpa only [hc] using h'
        · simp [hs] at h
  | finish j =>
    simp only [step] at h
    cases hp : s.running[j]? with
    | none => simp [hp] at h
    | some t =>
      simp only [hp, Option.some.injEq] at h
      subst h
      exact Step.finishBody hp
  | observe j =>
    simp only [step] at h
    cases hp : s.running[j]? with
    | none => simp [hp] at h
    | some t =>
      cases hc : s.ctx with
      | none => simp [hp, hc] at h
      | some d =>
        simp only [hp, hc, Option.some.injEq] at h
        subst h
        have h' := @Step.observeDone T cfg s j t d hp hc
        simpa only [hc] using h'
  | ctxDone d =>
    simp only [step] at h
    cases hc : s.ctx with
    | some d0 => simp [hc] at h
    | none =>
      simp only [hc, Option.some.injEq] at h
      subst h
      exact Step.contextDone hc

/-- Induction over an execution: a property kept by every step allowed by
`ok` holds at the end of every execution made of such steps. -/
theorem run_induction {T : Type} {cfg : PoolConfig} (ok : Event → Prop)
    (P : PoolState T → Prop)
    (hstep : ∀ s e s', ok e → P s → Step cfg s e s' → P s') :
    ∀ (evs : List Event) (s s' : PoolState T), (∀ e ∈ evs, ok e) → P s →
      run cfg s evs = some s' → P s' := by
  intro evs
  induction evs with
  | nil =>
    intro s s' _ hP h
    simp only [run, Option.some.injEq] at h
    exact h ▸ hP
  | cons e es ih =>
    intro s s' hok hP h
    simp only [run] at h
    cases hs : step cfg s e with
    | none => simp [hs] at h
    | some s1 =>
      simp only [hs, Option.some_bind] at h
      exact ih s1 s' (fun x hx => hok x (List.mem_cons_of_mem _ hx))
        (hstep s e s1 (hok e (List.mem_cons_self _ _)) hP (step_sound hs)) h

theorem perm_cons_eraseIdx {α : Type} : ∀ (l : List α) (j : Nat) (a : α),
    l[j]? = some a → (a :: l.eraseIdx j).Perm l
  | [], j, a, h => by simp at h
  | x :: xs, 0, a, h => by
    simp only [List.getElem?_cons_zero, Option.some.injEq] at h
    subst h
    simp
  | x :: xs, j + 1, a, h => by
    simp only [List.getElem?_cons_succ] at h
    have ih := perm_cons_eraseIdx xs j a h
    simp only [List.eraseIdx_cons_succ]
    exact (List.Perm.swap x a _).trans (ih.cons x)

theorem coe_eraseIdx_add {α : Type} {l : List α} {j : Nat} {a : α} (h : l[j]? = some a) :
    (↑l : Multiset α) = {a} + ↑(l.eraseIdx j) := by
  rw [Multiset.singleton_add, Multiset.cons_coe, Multiset.coe_eq_coe]
  exact (perm_cons_eraseIdx l j a h).symm

theorem accounted_iff {T : Type} (tasks : List (TaskRet T)) (s : PoolState T) :
    Accounted tasks s ↔
      (↑s.pending + ↑s.running + ↑(s.recorded.map Prod.fst) : Multiset (Job T)) = ↑tasks.enum := by
  unfold Accounted
  rw [← Multiset.coe_eq_coe, ← Multiset.coe_add, ← Multiset.coe_add]

theorem accounted_step {T : Type} {cfg : PoolConfig} {tasks : List (TaskRet T)}
    {s s' : PoolState T} {e : Event} (hA : Accounted tasks s) (h : Step cfg s e s') :
    Accounted tasks s' := by
  rw [accounted_iff] at hA ⊢
  cases h with
  | cancelQueued hp hc =>
    rw [coe_eraseIdx_add hp] at hA
    simp only [List.map_append, List.map_cons, List.map_nil]
    rw [← hA]
    simp only [← Multiset.coe_add, Multiset.coe_singleton]
    abel
  | startBody hp hc hs =>
    rw [coe_eraseIdx_add hp] at hA
    rw [← hA]
    simp only [← Multiset.coe_add, Multiset.coe_singleton]
    abel
  | finishBody hp =>
    rw [coe_eraseIdx_add hp] at hA
    simp only [List.map_append, List.map_cons, List.map_nil]
    rw [← hA]
    simp only [← Multiset.coe_add, Multiset.coe_singleton]
    abel
  | observeDone hp hc =>
    rw [coe_eraseIdx_add hp] at hA
    simp only [List.map_append, List.map_cons, List.map_nil]
    rw [← hA]
    simp only [← Multiset.coe_add, Multiset.coe_singleton]
    abel
  | contextDone hc => exact hA

theorem accounted_init {T : Type} (ctx : Option CtxDone) (tasks : List (TaskRet T)) :
    Accounted tasks (initPool ctx tasks) := by
  simp [Accounted, initPool]

theorem accounted_run {T : Type} {cfg : PoolConfig} {ctx : Option CtxDone}
    {tasks : List (TaskRet T)} {evs : List Event} {s : PoolState T}
    (h : run cfg (initPool ctx tasks) evs = some s) : Accounted tasks s :=
  run_induction (fun _ => True) (Accounted tasks)
    (fun _ _ _ _ hA hS => accounted_step hA hS) evs _ _ (fun _ _ => trivial)
    (accounted_init ctx tasks) h

/-- The outcome of a body that comes to its end is its natural outcome or a
cancellation. -/
theorem resolve_cases {T : Type} (ctx : Option CtxDone) (t : TaskRet T) :
    resolve ctx t = natural t ∨ ∃ c, resolve ctx t = Outcome.canceledOrTimedOut c := by
  cases ctx with
  | none => exact Or.inl rfl
  | some d => exact Or.inr ⟨_, rfl⟩

theorem classified_step {T : Type} {cfg : PoolConfig} {s s' : PoolState T} {e : Event}
    (hC : Classified s) (h : Step cfg s e s') : Classified s' := by
  cases h with
  | cancelQueued hp hc =>
    intro p hp'
    simp only [List.mem_append, List.mem_singleton] at hp'
    rcases hp' with hp' | rfl
    · exact hC p hp'
    · exact Or.inr ⟨_, rfl⟩
  | startBody hp hc hs => exact hC
  | finishBody hp =>
    intro p hp'
    simp only [List.mem_append, List.mem_singleton] at hp'
    rcases hp' with hp' | rfl
    · exact hC p hp'
    · exact resolve_cases _ _
  | observeDone hp hc =>
    intro p hp'
    simp only [List.mem_append, List.mem_singleton] at hp'
    rcases hp' with hp' | rfl
    · exact hC p hp'
    · exact Or.inr ⟨_, rfl⟩
  | contextDone hc => exact hC

theorem classified_run {T : Type} {cfg : PoolConfig} {ctx : Option CtxDone}
    {tasks : List (TaskRet T)} {evs : List Event} {s : PoolState T}
    (h : run cfg (initPool ctx tasks) evs = some s) : Classified s :=
  run_induction (fun _ => True) Classified
    (fun _ _ _ _ hC hS => classified_step hC hS) evs _ _ (fun _ _ => trivial)
    (by intro p hp; simp [initPool] at hp) h

theorem quiet_step {T : Type} {cfg : PoolConfig} (hcfg : cfg.cancelOnFirstErr = false)
    {s s' : PoolState T} {e : Event} (he : e.isTask = true)
    (hQ : Quiet s) (h : Step cfg s e s') : Quiet s' := by
  obtain ⟨hctx, hrec⟩ := hQ
  cases h with
  | cancelQueued hp hc => rw [hctx] at hc; cases hc
  | startBody hp hc hs => exact ⟨hctx, hrec⟩
  | finishBody hp =>
    refine ⟨?_, ?_⟩
    · simp [ctxAfter, hctx, hcfg]
    · intro p hp'
      simp only [List.mem_append, List.mem_singleton] at hp'
      rcases hp' with hp' | rfl
      · exact hrec p hp'
      · simp [hctx, resolve]
  | observeDone hp hc => rw [hctx] at hc; cases hc
  | contextDone hc => simp [Event.isTask] at he

theorem quiet_run {T : Type} {cfg : PoolConfig} (hcfg : cfg.cancelOnFirstErr = false)
    {tasks : List (TaskRet T)} {evs : List Event} {s : PoolState T}
    (hev : ∀ e ∈ evs, e.isTask = true)
    (h : run cfg (initPool none tasks) evs = some s) : Quiet s :=
  run_induction (fun e => e.isTask = true) Quiet
    (fun _ _ _ he hQ hS => quiet_step hcfg he hQ hS) evs _ _ hev
    ⟨rfl, by intro p hp; simp [initPool] at hp⟩ h

theorem wait_some {T : Type} {cfg : PoolConfig} {s : PoolState T}
    {r : List T × Option (List (ErrKind × GoError))} (h : wait cfg s = some r) :
    s.pending = [] ∧ s.running = [] ∧
      r = ((s.recorded.map Prod.snd).filterMap (retained cfg),
           combine ((s.recorded.map Prod.snd).filterMap errorOf)) := by
  unfold wait at h
  split at h
  · rename_i hc
    simp only [Bool.and_eq_true, List.isEmpty_iff] at hc
    simp only [Option.some.injEq] at h
    exact ⟨hc.1, hc.2, h.symm⟩
  · cases h

theorem wait_of_final {T : Type} (cfg : PoolConfig) {s : PoolState T}
    (hp : s.pending = []) (hr : s.running = []) :
    wait cfg s = some ((s.recorded.map Prod.snd).filterMap (retained cfg),
           combine ((s.recorded.map Prod.snd).filterMap errorOf)) := by
  simp [wait, hp, hr]

theorem errCount_combine (k : ErrKind) (l : List (ErrKind × GoError)) :
    errCount k (combine l) = l.countP fun p => p.1 == k := by
  cases l with
  | nil => simp [combine, errCount]
  | cons a l => simp [combine, errCount, List.countP_eq_length_filter]

theorem errTotal_combine (l : List (ErrKind × GoError)) :
    errTotal (combine l) = l.length := by
  cases l with
  | nil => simp [combine, errTotal]
  | cons a l => simp [combine, errTotal]

/-- Once `Wait` returns, the recorded tasks are the batch. -/
theorem recorded_perm_of_final {T : Type} {tasks : List (TaskRet T)} {s : PoolState T}
    (hA : Accounted tasks s) (hp : s.pending = []) (hr : s.running = []) :
    (s.recorded.map Prod.fst).Perm tasks.enum := by
  simpa [Accounted, hp, hr] using hA

theorem map_snd_of_natural {T : Type} (l : List (Job T × Outcome T))
    (h : ∀ p ∈ l, p.2 = natural p.1.2) :
    l.map Prod.snd = ((l.map Prod.fst).map Prod.snd).map natural := by
  induction l with
  | nil => rfl
  | cons a l ih =>
    simp only [List.map_cons, List.cons.injEq]
    exact ⟨h a (List.mem_cons_self _ _), ih fun p hp => h p (List.mem_cons_of_mem _ hp)⟩

/-- In a quiet final state the recorded outcomes are, up to order, the
natural outcomes of the tasks of the batch. -/
theorem outcomes_perm_of_quiet {T : Type} {tasks : List (TaskRet T)} {s : PoolState T}
    (hA : Accounted tasks s) (hQ : Quiet s) (hp : s.pending = []) (hr : s.running = []) :
    (s.recorded.map Prod.snd).Perm (tasks.map natural) := by
  rw [map_snd_of_natural _ hQ.2]
  have h1 := ((recorded_perm_of_final hA hp hr).map Prod.snd).map natural
  rwa [List.enum_map_snd] at h1

theorem run_append {T : Type} (cfg : PoolConfig) (s : PoolState T) (a b : List Event) :
    run cfg s (a ++ b) = (run cfg s a).bind fun s' => run cfg s' b := by
  induction a generalizing s with
  | nil => simp [run]
  | cons e es ih =>
    simp only [List.cons_append, run]
    cases step cfg s e with
    | none => simp
    | some s1 => simp [ih]

/-- The running bodies can all be brought to their end. -/
theorem finish_running {T : Type} (cfg : PoolConfig) :
    ∀ (n : Nat) (s : PoolState T), s.running.length = n →
      ∃ evs s', (∀ e ∈ evs, e.isTask = true) ∧ run cfg s evs = some s' ∧
        s'.running = [] ∧ s'.pending = s.pending
  | 0, s, h => ⟨[], s, by simp, rfl, List.length_eq_zero.mp h, rfl⟩
  | n + 1, s, h => by
    cases hr : s.running with
    | nil => simp [hr] at h
    | cons t ts =>
      have hstep : step cfg s (.finish 0) =
          some { s with ctx := ctxAfter cfg s.ctx (resolve s.ctx t.2),
                        running := ts,
                        recorded := s.recorded ++ [(t, resolve s.ctx t.2)] } := by
        simp [step, hr]
      obtain ⟨evs, s', hev, hrun, h1, h2⟩ := finish_running cfg n
        { s with ctx := ctxAfter cfg s.ctx (resolve s.ctx t.2),
                 running := ts,
                 recorded := s.recorded ++ [(t, resolve s.ctx t.2)] }
        (by simpa [hr] using h)
      refine ⟨.finish 0 :: evs, s', ?_, ?_, h1, h2⟩
      · intro e he
        rcases List.mem_cons.mp he with rfl | he
        · rfl
        · exact hev e he
      · simp [run, hstep, hrun]

/-- With no body running, the queued tasks can all be brought to an
outcome. -/
theorem drain_pending {T : Type} (cfg : PoolConfig) :
    ∀ (n : Nat) (s : PoolState T), s.pending.length = n → s.running = [] →
      ∃ evs s', (∀ e ∈ evs, e.isTask = true) ∧ run cfg s evs = some s' ∧
        s'.running = [] ∧ s'.pending = []
  | 0, s, h, hr => ⟨[], s, by simp, rfl, hr, List.length_eq_zero.mp h⟩
  | n + 1, s, h, hr => by
    cases hp : s.pending with
    | nil => simp [hp] at h
    | cons t ts =>
      cases hc : s.ctx with
      | some d =>
        have hstep : step cfg s (.start 0) =
            some { s with pending := ts,
                          recorded := s.recorded ++ [(t, .canceledOrTimedOut d.cause)] } := by
          simp [step, hp, hc]
        obtain ⟨evs, s', hev, hrun, h1, h2⟩ := drain_pending cfg n
          { s with pending := ts,
                   recorded := s.recorded ++ [(t, .canceledOrTimedOut d.cause)] }
          (by simpa [hp] using h) hr
        refine ⟨.start 0 :: evs, s', ?_, ?_, h1, h2⟩
        · intro e he
          rcases List.mem_cons.mp he with rfl | he
          · rfl
          · exact hev e he
        · simp [run, hstep, hrun]
      | none =>
        have hfree : slotFree cfg s = true := by
          simp only [slotFree, hr, List.length_nil, Bool.or_eq_true, beq_iff_eq,
            decide_eq_true_eq]
          omega
        have hstep1 : step cfg s (.start 0) =
            some { s with pending := ts, running := [t] } := by
          simp [step, hp, hc, hfree, hr]
        have hstep2 : step cfg { s with pending := ts, running := [t] } (.finish 0) =
            some { s with ctx := ctxAfter cfg s.ctx (resolve s.ctx t.2),
                          pending := ts, running := [],
                          recorded := s.recorded ++ [(t, resolve s.ctx t.2)] } := by
          simp [step]
        obtain ⟨evs, s', hev, hrun, h1, h2⟩ := drain_pending cfg n
          { s with ctx := ctxAfter cfg s.ctx (resolve s.ctx t.2),
                   pending := ts, running := [],
                   recorded := s.recorded ++ [(t, resolve s.ctx t.2)] }
          (by simpa [hp] using h) rfl
        refine ⟨.start 0 :: .finish 0 :: evs, s', ?_, ?_, h1, h2⟩
        · intro e he
          rcases List.mem_cons.mp he with rfl | he
          · rfl
          · rcases List.mem_cons.mp he with rfl | he
            · rfl
            · exact hev e he
        · simp [run, hstep1, hstep2, hrun]

/-- From every state of the pool the batch can be brought to completion by
events of the pool alone, after which `Wait` returns. -/
theorem can_complete {T : Type} (cfg : PoolConfig) (s : PoolState T) :
    ∃ evs s' r, (∀ e ∈ evs, e.isTask = true) ∧ run cfg s evs = some s' ∧
      wait cfg s' = some r := by
  obtain ⟨e1, s1, hev1, hrun1, hr1, _⟩ := finish_running cfg s.running.length s rfl
  obtain ⟨e2, s2, hev2, hrun2, hr2, hp2⟩ := drain_pending cfg s1.pending.length s1 rfl hr1
  refine ⟨e1 ++ e2, s2, _, ?_, ?_, wait_of_final cfg hp2 hr2⟩
  · intro e he
    rcases List.mem_append.mp he with he | he
    · exact hev1 e he
    · exact hev2 e he
  · simp [run_append, hrun1, hrun2]

/-- Every event of the pool removes a task from the queue or from the
running set: an execution is made of at most two events per task. -/
theorem task_events_bound {T : Type} (cfg : PoolConfig) :
    ∀ (evs : List Event) (s s' : PoolState T), run cfg s evs = some s' →
      evs.countP Event.isTask + 2 * s'.pending.length + s'.running.length ≤
        2 * s.pending.length + s.running.length := by
  intro evs
  induction evs with
  | nil =>
    intro s s' h
    simp only [run, Option.some.injEq] at h
    subst h
    simp
  | cons e es ih =>
    intro s s' h
    simp only [run] at h
    cases hs : step cfg s e with
    | none => simp [hs] at h
    | some s1 =>
      simp only [hs, Option.some_bind] at h
      have h2 : (if e.isTask then 1 else 0) + 2 * s1.pending.length + s1.running.length ≤
          2 * s.pending.length + s.running.length := by
        cases step_sound hs with
        | cancelQueued hp hc =>
          have := List.length_eraseIdx_add_one (List.getElem?_eq_some_iff.mp hp).1
          simp only [Event.isTask, if_true, ↓reduceIte]
          omega
        | startBody hp hc hf =>
          have := List.length_eraseIdx_add_one (List.getElem?_eq_some_iff.mp hp).1
          simp only [Event.isTask, if_true, ↓reduceIte, List.length_append, List.length_singleton]
          omega
        | finishBody hp =>
          have := List.length_eraseIdx_add_one (List.getElem?_eq_some_iff.mp hp).1
          simp only [Event.isTask, if_true, ↓reduceIte]
          omega
        | observeDone hp hc =>
          have := List.length_eraseIdx_add_one (List.getElem?_eq_some_iff.mp hp).1
          simp only [Event.isTask, if_true, ↓reduceIte]
          omega
        | contextDone hc => simp [Event.isTask]
      have h1 := ih s1 s' h
      rw [List.countP_cons]
      omega

theorem retained_natural {T : Type} (cfg : PoolConfig) (t : TaskRet T) :
    retained cfg (natural t) =
      if cfg.collectErroredResults then returnedValue t else successValue t := by
  cases t with
  | ret v err => cases err <;> simp [natural, retained, returnedValue, successValue]
  | panics r => simp [natural, retained, returnedValue, successValue]

/-- The results of a quiet final state are, up to order, the values the
tasks of the batch contribute. -/
theorem results_perm_of_quiet {T : Type} (cfg : PoolConfig) {tasks : List (TaskRet T)}
    {s : PoolState T} (hA : Accounted tasks s) (hQ : Quiet s)
    (hp : s.pending = []) (hr : s.running = []) :
    ((s.recorded.map Prod.snd).filterMap (retained cfg)).Perm
      (tasks.filterMap fun t =>
        if cfg.collectErroredResults then returnedValue t else successValue t) := by
  have h := (outcomes_perm_of_quiet hA hQ hp hr).filterMap (retained cfg)
  have hfun : (retained cfg ∘ natural) = fun t : TaskRet T =>
      if cfg.collectErroredResults then returnedValue t else successValue t :=
    funext fun t => retained_natural cfg t
  have h2 : (tasks.map natural).filterMap (retained cfg) =
      tasks.filterMap fun t =>
        if cfg.collectErroredResults then returnedValue t else successValue t := by
    rw [List.filterMap_map, hfun]
  rwa [h2] at h

theorem countP_filterMap_any {α β : Type} (f : α → Option β) (p : β → Bool) (l : List α) :
    (l.filterMap f).countP p = l.countP fun a => (f a).any p := by
  induction l with
  | nil => rfl
  | cons a l ih =>
    cases hf : f a with
    | none => rw [List.filterMap_cons_none hf, List.countP_cons, ih, hf]; simp
    | some b => rw [List.filterMap_cons_some hf, List.countP_cons, List.countP_cons, ih, hf]; simp

theorem countP_errorOf_natural {T : Type} (k : ErrKind) (tasks : List (TaskRet T)) :
    ((tasks.map natural).filterMap errorOf).countP (fun p => p.1 == k) =
      tasks.countP fun t => (errorOf (natural t)).any fun p => p.1 == k := by
  rw [countP_filterMap_any, List.countP_map]
  rfl

theorem taskError_iff_fails {T : Type} (t : TaskRet T) :
    ((errorOf (natural t)).any fun p => p.1 == ErrKind.taskError) = t.fails := by
  cases t with
  | ret v err => cases err <;> rfl
  | panics r => rfl

theorem panic_iff_isPanic {T : Type} (t : TaskRet T) :
    ((errorOf (natural t)).any fun p => p.1 == ErrKind.panic) = t.isPanic := by
  cases t with
  | ret v err => cases err <;> rfl
  | panics r => rfl

/-- The classified errors of a quiet final state: one of kind `k` per task
whose natural outcome is of kind `k`. -/
theorem errCount_of_quiet {T : Type} (k : ErrKind) {tasks : List (TaskRet T)}
    {s : PoolState T} (hA : Accounted tasks s) (hQ : Quiet s)
    (hp : s.pending = []) (hr : s.running = []) :
    errCount k (combine ((s.recorded.map Prod.snd).filterMap errorOf)) =
      tasks.countP fun t => (errorOf (natural t)).any fun p => p.1 == k := by
  rw [errCount_combine, ← countP_errorOf_natural]
  exact ((outcomes_perm_of_quiet hA hQ hp hr).filterMap errorOf).countP_eq _

theorem errorOf_natural_none {T : Type} (t : TaskRet T) (h : (successValue t).isSome) :
    errorOf (natural t) = none := by
  cases t with
  | ret v err =>
    cases err with
    | none => rfl
    | some e => simp [successValue] at h
  | panics r => simp [successValue] at h

theorem filterMap_eq_nil_of_forall {α β : Type} (f : α → Option β) (l : List α)
    (h : ∀ a ∈ l, f a = none) : l.filterMap f = [] := by
  induction l with
  | nil => rfl
  | cons a l ih =>
    rw [List.filterMap_cons_none (h a (List.mem_cons_self _ _))]
    exact ih fun b hb => h b (List.mem_cons_of_mem _ hb)

theorem filterMap_length_of_forall {α β : Type} (f : α → Option β) (l : List α)
    (h : ∀ a ∈ l, (f a).isSome) : (l.filterMap f).length = l.length := by
  induction l with
  | nil => rfl
  | cons a l ih =>
    obtain ⟨b, hb⟩ := Option.isSome_iff_exists.mp (h a (List.mem_cons_self _ _))
    rw [List.filterMap_cons_some hb, List.length_cons, List.length_cons,
      ih fun b hb => h b (List.mem_cons_of_mem _ hb)]

theorem filterMap_length_add {α β γ : Type} (f : α → Option β) (g : α → Option γ)
    (l : List α) (h : ∀ a ∈ l, (f a).isSome = !(g a).isSome) :
    (l.filterMap f).length + (l.filterMap g).length = l.length := by
  induction l with
  | nil => rfl
  | cons a l ih =>
    have ih' := ih fun b hb => h b (List.mem_cons_of_mem _ hb)
    have ha := h a (List.mem_cons_self _ _)
    cases hf : f a with
    | none =>
      rw [hf] at ha
      obtain ⟨c, hc⟩ := Option.isSome_iff_exists.mp (by simpa using ha : (g a).isSome = true)
      rw [List.filterMap_cons_none hf, List.filterMap_cons_some hc, List.length_cons,
        List.length_cons]
      omega
    | some b =>
      rw [hf] at ha
      have hg : g a = none := by
        cases hga : g a with
        | none => rfl
        | some c => simp [hga] at ha
      rw [List.filterMap_cons_some hf, List.filterMap_cons_none hg, List.length_cons,
        List.length_cons]
      omega

theorem retained_xor_error {T : Type} (cfg : PoolConfig)
    (hcfg : cfg.collectErroredResults = false) (o : Outcome T) :
    (retained cfg o).isSome = !(errorOf o).isSome := by
  cases o <;> simp [retained, errorOf, hcfg]

theorem alreadyDone_step {T : Type} {cfg : PoolConfig} {d : CtxDone}
    {s s' : PoolState T} {e : Event} (hD : AlreadyDone d s) (h : Step cfg s e s') :
    AlreadyDone d s' := by
  obtain ⟨hctx, hrun, hrec⟩ := hD
  cases h with
  | cancelQueued hp hc =>
    rw [hctx] at hc
    cases hc
    refine ⟨hctx, hrun, ?_⟩
    intro p hp'
    simp only [List.mem_append, List.mem_singleton] at hp'
    rcases hp' with hp' | rfl
    · exact hrec p hp'
    · rfl
  | startBody hp hc hs => rw [hctx] at hc; cases hc
  | finishBody hp => simp [hrun] at hp
  | observeDone hp hc => simp [hrun] at hp
  | contextDone hc => rw [hctx] at hc; cases hc

theorem alreadyDone_run {T : Type} {cfg : PoolConfig} {d : CtxDone}
    {tasks : List (TaskRet T)} {evs : List Event} {s : PoolState T}
    (h : run cfg (initPool (some d) tasks) evs = some s) : AlreadyDone d s :=
  run_induction (fun _ => True) (AlreadyDone d)
    (fun _ _ _ _ hD hS => alreadyDone_step hD hS) evs _ _ (fun _ _ => trivial)
    ⟨rfl, rfl, by intro p hp; simp [initPool] at hp⟩ h

theorem map_snd_of_const {α β : Type} (l : List (α × β)) (b : β)
    (h : ∀ p ∈ l, p.2 = b) : l.map Prod.snd = List.replicate l.length b := by
  induction l with
  | nil => rfl
  | cons a l ih =>
    simp only [List.map_cons, List.length_cons, List.replicate_succ, List.cons.injEq]
    exact ⟨h a (List.mem_cons_self _ _), ih fun p hp => h p (List.mem_cons_of_mem _ hp)⟩

theorem filterMap_replicate_none {α β : Type} (f : α → Option β) (a : α) (h : f a = none) :
    ∀ n : Nat, (List.replicate n a).filterMap f = []
  | 0 => rfl
  | n + 1 => by
    rw [List.replicate_succ, List.filterMap_cons_none h]
    exact filterMap_replicate_none f a h n

theorem filterMap_replicate_some {α β : Type} (f : α → Option β) (a : α) (b : β)
    (h : f a = some b) : ∀ n : Nat, (List.replicate n a).filterMap f = List.replicate n b
  | 0 => rfl
  | n + 1 => by
    rw [List.replicate_succ, List.filterMap_cons_some h, List.replicate_succ,
      filterMap_replicate_some f a b h n]

theorem errCount_replicate (k : ErrKind) (e : GoError) (n : Nat) :
    errCount k (combine (List.replicate n (k, e))) = n := by
  rw [errCount_combine]
  induction n with
  | zero => rfl
  | succ n ih => simpa [List.replicate_succ] using ih

theorem withinLimit_step {T : Type} {cfg : PoolConfig} (hk : 1 ≤ cfg.concurrencyLimit)
    {s s' : PoolState T} {e : Event} (hW : WithinLimit cfg s) (h : Step cfg s e s') :
    WithinLimit cfg s' := by
  unfold WithinLimit at hW ⊢
  cases h with
  | cancelQueued hp hc => exact hW
  | startBody hp hc hs =>
    simp only [slotFree, Bool.or_eq_true, beq_iff_eq, decide_eq_true_eq] at hs
    simp only [List.length_append, List.length_singleton]
    omega
  | finishBody hp => exact (List.length_eraseIdx_le _ _).trans hW
  | observeDone hp hc => exact (List.length_eraseIdx_le _ _).trans hW
  | contextDone hc => exact hW

theorem withinLimit_run {T : Type} {cfg : PoolConfig} (hk : 1 ≤ cfg.concurrencyLimit)
    {ctx : Option CtxDone} {tasks : List (TaskRet T)} {evs : List Event} {s : PoolState T}
    (h : run cfg (initPool ctx tasks) evs = some s) : WithinLimit cfg s :=
  run_induction (fun _ => True) (WithinLimit cfg)
    (fun _ _ _ _ hW hS => withinLimit_step hk hW hS) evs _ _ (fun _ _ => trivial)
    (by simp [WithinLimit, initPool]) h

theorem retained_of_fails {T : Type} (cfg : PoolConfig)
    (hcfg : cfg.collectErroredResults = false) (t : TaskRet T) (o : Outcome T)
    (ho : o = natural t ∨ ∃ c, o = Outcome.canceledOrTimedOut c) (hf : t.fails = true) :
    retained cfg o = none := by
  rcases ho with rfl | ⟨c, rfl⟩
  · cases t with
    | ret v err =>
      cases err with
      | none => simp [TaskRet.fails] at hf
      | some e => simp [natural, retained, hcfg]
    | panics r => rfl
  · rfl

theorem returned_of_not_panic {T : Type} (t : TaskRet T) (h : t.isPanic = false) :
    (returnedValue t).isSome := by
  cases t with
  | ret v err => rfl
  | panics r => simp [TaskRet.isPanic] at h

theorem filter_eraseIdx_of_false {α : Type} (p : α → Bool) :
    ∀ (l : List α) (j : Nat) (a : α), l[j]? = some a → p a = false →
      (l.eraseIdx j).filter p = l.filter p
  | [], j, a, h, _ => by simp at h
  | x :: xs, 0, a, h, hpa => by
    simp only [List.getElem?_cons_zero, Option.some.injEq] at h
    subst h
    simp [List.filter_cons, hpa]
  | x :: xs, j + 1, a, h, hpa => by
    simp only [List.getElem?_cons_succ] at h
    simp only [List.eraseIdx_cons_succ, List.filter_cons,
      filter_eraseIdx_of_false p xs j a h hpa]

theorem filter_eraseIdx_of_true {α : Type} (p : α → Bool) :
    ∀ (l : List α) (j : Nat) (a : α), l[j]? = some a → p a = true →
      (l.filter p)[(l.take j).countP p]? = some a ∧
      (l.eraseIdx j).filter p = (l.filter p).eraseIdx ((l.take j).countP p)
  | [], j, a, h, _ => by simp at h
  | x :: xs, 0, a, h, hpa => by
    simp only [List.getElem?_cons_zero, Option.some.injEq] at h
    subst h
    simp [List.filter_cons, hpa]
  | x :: xs, j + 1, a, h, hpa => by
    simp only [List.getElem?_cons_succ] at h
    obtain ⟨h1, h2⟩ := filter_eraseIdx_of_true p xs j a h hpa
    by_cases hx : p x = true
    · simp only [List.take_succ_cons, List.countP_cons_of_pos _ _ hx, List.filter_cons, hx,
        if_true, List.getElem?_cons_succ, List.eraseIdx_cons_succ, h1, h2, and_self]
    · have hx' : p x = false := by simpa using hx
      simp only [List.take_succ_cons, List.countP_cons_of_neg _ _ hx, List.filter_cons, hx',
        List.eraseIdx_cons_succ, h2]
      exact ⟨h1, by simp⟩

theorem filter_length_le_of_free {T : Type} (cfg : PoolConfig) (s : PoolState T)
    (h : slotFree cfg s = true) : slotFree cfg (withoutPanics s) = true := by
  simp only [slotFree, Bool.or_eq_true, beq_iff_eq, decide_eq_true_eq] at h ⊢
  rcases h with h | h
  · exact Or.inl h
  · exact Or.inr (lt_of_le_of_lt (List.length_filter_le _ _) h)

theorem ctxAfter_of_no_cancel {T : Type} (cfg : PoolConfig)
    (hcfg : cfg.cancelOnFirstErr = false) (ctx : Option CtxDone) (o : Outcome T) :
    ctxAfter cfg ctx o = ctx := by
  cases ctx <;> simp [ctxAfter, hcfg]

/-- On a pool without cancel-on-first-error every step is matched, on the
state with the panicking tasks left out, by no step (the event was one of a
panicking task) or by one step. -/
theorem step_withoutPanics {T : Type} {cfg : PoolConfig}
    (hcfg : cfg.cancelOnFirstErr = false) {s s' : PoolState T} {e : Event}
    (h : Step cfg s e s') :
    ∃ evs, run cfg (withoutPanics s) evs = some (withoutPanics s') := by
  cases h with
  | @cancelQueued j t d hp hc =>
    by_cases ht : Job.calm t = true
    · obtain ⟨h1, h2⟩ := filter_eraseIdx_of_true Job.calm s.pending j t hp ht
      refine ⟨[.start ((s.pending.take j).countP Job.calm)], ?_⟩
      simp [run, step, withoutPanics, h1, h2, hc, List.filter_append, List.filter_cons, ht]
    · have ht' : Job.calm t = false := by simpa using ht
      refine ⟨[], ?_⟩
      simp [run, withoutPanics, filter_eraseIdx_of_false Job.calm s.pending j t hp ht',
        List.filter_append, List.filter_cons, ht']
  | @startBody j t hp hc hs =>
    by_cases ht : Job.calm t = true
    · obtain ⟨h1, h2⟩ := filter_eraseIdx_of_true Job.calm s.pending j t hp ht
      have hfree := filter_length_le_of_free cfg s hs
      refine ⟨[.start ((s.pending.take j).countP Job.calm)], ?_⟩
      simp only [withoutPanics, slotFree] at hfree
      simp [run, step, withoutPanics, slotFree, h1, h2, hc, hfree, List.filter_append,
        List.filter_cons, ht]
    · have ht' : Job.calm t = false := by simpa using ht
      refine ⟨[], ?_⟩
      simp [run, withoutPanics, filter_eraseIdx_of_false Job.calm s.pending j t hp ht',
        List.filter_append, List.filter_cons, ht']
  | @finishBody j t hp =>
    by_cases ht : Job.calm t = true
    · obtain ⟨h1, h2⟩ := filter_eraseIdx_of_true Job.calm s.running j t hp ht
      refine ⟨[.finish ((s.running.take j).countP Job.calm)], ?_⟩
      simp [run, step, withoutPanics, h1, h2, ctxAfter_of_no_cancel cfg hcfg,
        List.filter_append, List.filter_cons, ht]
    · have ht' : Job.calm t = false := by simpa using ht
      refine ⟨[], ?_⟩
      simp [run, withoutPanics, filter_eraseIdx_of_false Job.calm s.running j t hp ht',
        ctxAfter_of_no_cancel cfg hcfg, List.filter_append, List.filter_cons, ht']
  | @observeDone j t d hp hc =>
    by_cases ht : Job.calm t = true
    · obtain ⟨h1, h2⟩ := filter_eraseIdx_of_true Job.calm s.running j t hp ht
      refine ⟨[.observe ((s.running.take j).countP Job.calm)], ?_⟩
      simp [run, step, withoutPanics, h1, h2, hc, List.filter_append, List.filter_cons, ht]
    · have ht' : Job.calm t = false := by simpa using ht
      refine ⟨[], ?_⟩
      simp [run, withoutPanics, filter_eraseIdx_of_false Job.calm s.running j t hp ht',
        List.filter_append, List.filter_cons, ht']
  | @contextDone d hc =>
    refine ⟨[.ctxDone d], ?_⟩
    simp [run, step, withoutPanics, hc]

/-- Every execution of a pool without cancel-on-first-error is matched by an
execution of the pool with the panicking tasks left out. -/
theorem run_withoutPanics {T : Type} {cfg : PoolConfig}
    (hcfg : cfg.cancelOnFirstErr = false) :
    ∀ (evs : List Event) (s s' : PoolState T), run cfg s evs = some s' →
      ∃ evs', run cfg (withoutPanics s) evs' = some (withoutPanics s') := by
  intro evs
  induction evs with
  | nil =>
    intro s s' h
    simp only [run, Option.some.injEq] at h
    exact ⟨[], by rw [h]; rfl⟩
  | cons e es ih =>
    intro s s' h
    simp only [run] at h
    cases hs : step cfg s e with
    | none => simp [hs] at h
    | some s1 =>
      simp only [hs, Option.some_bind] at h
      obtain ⟨e1, h1⟩ := step_withoutPanics hcfg (step_sound hs)
      obtain ⟨e2, h2⟩ := ih s1 s' h
      exact ⟨e1 ++ e2, by simp [run_append, h1, h2]⟩

theorem filterMap_filter_of_none {α β : Type} (p : α → Bool) (f : α → Option β)
    (l : List α) (h : ∀ a ∈ l, p a = false → f a = none) :
    (l.filter p).filterMap f = l.filterMap f := by
  induction l with
  | nil => rfl
  | cons a l ih =>
    have ih' := ih fun b hb => h b (List.mem_cons_of_mem _ hb)
    by_cases hpa : p a = true
    · rw [List.filter_cons_of_pos hpa]
      cases hf : f a with
      | none => rw [List.filterMap_cons_none hf, List.filterMap_cons_none hf, ih']
      | some b => rw [List.filterMap_cons_some hf, List.filterMap_cons_some hf, ih']
    · rw [List.filter_cons_of_neg hpa,
        List.filterMap_cons_none (h a (List.mem_cons_self _ _) (by simpa using hpa)), ih']

theorem retained_of_panic {T : Type} (cfg : PoolConfig) (t : TaskRet T) (o : Outcome T)
    (ho : o = natural t ∨ ∃ c, o = Outcome.canceledOrTimedOut c) (hp : t.isPanic = true) :
    retained cfg o = none := by
  rcases ho with rfl | ⟨c, rfl⟩
  · cases t with
    | ret v err => simp [TaskRet.isPanic] at hp
    | panics r => rfl
  · rfl

theorem panic_outcome_iff {T : Type} (t : TaskRet T) (o : Outcome T)
    (ho : o = natural t ∨ ∃ c, o = Outcome.canceledOrTimedOut c) :
    ((errorOf o).any fun p => p.1 == ErrKind.panic) = (t.isPanic && !o.isCanceled) := by
  rcases ho with rfl | ⟨c, rfl⟩
  · cases t with
    | ret v err => cases err <;> rfl
    | panics r => rfl
  · cases t <;> simp [errorOf, Outcome.isCanceled]

theorem taskError_outcome_iff {T : Type} (t : TaskRet T) (o : Outcome T)
    (ho : o = natural t ∨ ∃ c, o = Outcome.canceledOrTimedOut c) :
    ((errorOf o).any fun p => p.1 == ErrKind.taskError) = (t.fails && !o.isCanceled) := by
  rcases ho with rfl | ⟨c, rfl⟩
  · cases t with
    | ret v err => cases err <;> rfl
    | panics r => rfl
  · cases t <;> simp [errorOf, Outcome.isCanceled]

/-- The number of errors of kind `k` that `Wait` reports, counted on the
recorded outcomes. -/
theorem errCount_recorded {T : Type} (k : ErrKind) (s : PoolState T) :
    errCount k (combine ((s.recorded.map Prod.snd).filterMap errorOf)) =
      s.recorded.countP fun p => (errorOf p.2).any fun q => q.1 == k := by
  rw [errCount_combine, countP_filterMap_any, List.countP_map]
  rfl

/-- When `Wait` returns, it returns the same results on the state with the
panicking tasks left out. -/
theorem wait_withoutPanics {T : Type} {cfg : PoolConfig} {s : PoolState T}
    (hC : Classified s) {rs : List T} {err : Option (List (ErrKind × GoError))}
    (hwait : wait cfg s = some (rs, err)) :
    ∃ err', wait cfg (withoutPanics s) = some (rs, err') := by
  obtain ⟨hp, hr, hres⟩ := wait_some hwait
  simp only [Prod.mk.injEq] at hres
  refine ⟨combine (((withoutPanics s).recorded.map Prod.snd).filterMap errorOf), ?_⟩
  rw [wait_of_final cfg (by simp [withoutPanics, hp]) (by simp [withoutPanics, hr])]
  simp only [Option.some.injEq, Prod.mk.injEq, and_true]
  rw [hres.1, List.filterMap_map, List.filterMap_map]
  simp only [withoutPanics]
  apply filterMap_filter_of_none
  intro p hp' hcalm
  have hpanic : p.1.2.isPanic = true := by simpa [Job.calm] using hcalm
  exact retained_of_panic cfg p.1.2 p.2 (hC p hp') hpanic

theorem fired_step {T : Type} {cfg : PoolConfig} (hcfg : cfg.cancelOnFirstErr = true)
    {s s' : PoolState T} {e : Event} (hF : Fired s) (h : Step cfg s e s') : Fired s' := by
  unfold Fired at hF ⊢
  cases h with
  | cancelQueued hp hc =>
    rintro ⟨p, hp', hfail⟩
    simp only [List.mem_append, List.mem_singleton] at hp'
    rcases hp' with hp' | rfl
    · exact hF ⟨p, hp', hfail⟩
    · simp [Outcome.isFailure] at hfail
  | startBody hp hc hs => exact hF
  | @finishBody j t hp =>
    rintro ⟨p, hp', hfail⟩
    simp only [List.mem_append, List.mem_singleton] at hp'
    cases hctx : s.ctx with
    | some d =>
      rcases hp' with hp' | rfl
      · have := hF ⟨p, hp', hfail⟩
        rw [hctx] at this
        simpa [ctxAfter] using this
      · simp [hctx, resolve, Outcome.isFailure] at hfail
    | none =>
      rcases hp' with hp' | rfl
      · have := hF ⟨p, hp', hfail⟩
        simp [hctx] at this
      · simp only [hctx, resolve] at hfail
        simp [ctxAfter, hcfg, hfail, resolve, firstErrCancel]
  | observeDone hp hc =>
    rintro ⟨p, hp', hfail⟩
    simp only [List.mem_append, List.mem_singleton] at hp'
    rcases hp' with hp' | rfl
    · exact hF ⟨p, hp', hfail⟩
    · simp [Outcome.isFailure] at hfail
  | contextDone hc =>
    rintro ⟨p, hp', hfail⟩
    have := hF ⟨p, hp', hfail⟩
    simp [hc] at this

theorem fired_run {T : Type} {cfg : PoolConfig} (hcfg : cfg.cancelOnFirstErr = true)
    {ctx : Option CtxDone} {tasks : List (TaskRet T)} {evs : List Event} {s : PoolState T}
    (h : run cfg (initPool ctx tasks) evs = some s) : Fired s :=
  run_induction (fun _ => True) Fired
    (fun _ _ _ _ hF hS => fired_step hcfg hF hS) evs _ _ (fun _ _ => trivial)
    (by rintro ⟨p, hp, _⟩; simp [initPool] at hp) h

theorem afterDone_step {T : Type} {cfg : PoolConfig} {d : CtxDone}
    {s1 s s' : PoolState T} {e : Event} (hD : AfterDone d s1 s) (h : Step cfg s e s') :
    AfterDone d s1 s' := by
  obtain ⟨hctx, hsub, hrec⟩ := hD
  cases h with
  | cancelQueued hp hc =>
    rw [hctx] at hc
    cases hc
    refine ⟨hctx, hsub, ?_⟩
    intro p hp'
    simp only [List.mem_append, List.mem_singleton] at hp'
    rcases hp' with hp' | rfl
    · exact hrec p hp'
    · exact Or.inr rfl
  | startBody hp hc hs => rw [hctx] at hc; cases hc
  | @finishBody j t hp =>
    refine ⟨by simp [ctxAfter, hctx], (List.eraseIdx_sublist _ _).trans hsub, ?_⟩
    intro p hp'
    simp only [List.mem_append, List.mem_singleton] at hp'
    rcases hp' with hp' | rfl
    · exact hrec p hp'
    · exact Or.inr (by simp [hctx, resolve])
  | @observeDone j t d' hp hc =>
    rw [hctx] at hc
    cases hc
    refine ⟨hctx, (List.eraseIdx_sublist _ _).trans hsub, ?_⟩
    intro p hp'
    simp only [List.mem_append, List.mem_singleton] at hp'
    rcases hp' with hp' | rfl
    · exact hrec p hp'
    · exact Or.inr rfl
  | contextDone hc => rw [hctx] at hc; cases hc

theorem afterDone_run {T : Type} {cfg : PoolConfig} {d : CtxDone}
    {s1 s2 : PoolState T} {evs : List Event} (hctx : s1.ctx = some d)
    (h : run cfg s1 evs = some s2) : AfterDone d s1 s2 :=
  run_induction (fun _ => True) (AfterDone d s1)
    (fun _ _ _ _ hD hS => afterDone_step hD hS) evs _ _ (fun _ _ => trivial)
    ⟨hctx, List.Sublist.refl _, fun _ hp => Or.inl hp⟩ h

/-- The tasks of a reachable state are pairwise distinct: a task is queued,
running or recorded, and only one of these. -/
theorem accounted_nodup {T : Type} {tasks : List (TaskRet T)} {s : PoolState T}
    (hA : Accounted tasks s) :
    (s.pending ++ s.running ++ s.recorded.map Prod.fst).Nodup :=
  hA.nodup_iff.mpr (List.Nodup.of_map Prod.fst (List.nodup_enum_map_fst tasks))

/-- In every final state the results are at most as many as the values the
batch contributes when every body runs to its end. -/
theorem results_length_le {T : Type} (cfg : PoolConfig) {tasks : List (TaskRet T)}
    {s : PoolState T} (hA : Accounted tasks s) (hC : Classified s)
    (hp : s.pending = []) (hr : s.running = []) :
    ((s.recorded.map Prod.snd).filterMap (retained cfg)).length ≤
      (tasks.filterMap (retainedOf cfg)).length := by
  rw [List.length_filterMap_eq_countP, List.length_filterMap_eq_countP, List.countP_map]
  have h1 : s.recorded.countP ((fun o => (retained cfg o).isSome) ∘ Prod.snd) ≤
      s.recorded.countP ((fun j : Job T => (retainedOf cfg j.2).isSome) ∘ Prod.fst) := by
    apply List.countP_mono_left
    intro p hp' hsome
    rcases hC p hp' with hn | ⟨c, hc⟩
    · simp only [Function.comp] at hsome ⊢
      rw [hn, retained_natural] at hsome
      exact hsome
    · simp [Function.comp, hc, retained] at hsome
  have h2 : s.recorded.countP ((fun j : Job T => (retainedOf cfg j.2).isSome) ∘ Prod.fst) =
      tasks.countP fun t => (retainedOf cfg t).isSome := by
    rw [← List.countP_map, (recorded_perm_of_final hA hp hr).countP_eq]
    have : (fun j : Job T => (retainedOf cfg j.2).isSome) =
        (fun t => (retainedOf cfg t).isSome) ∘ Prod.snd := rfl
    rw [this, ← List.countP_map, List.enum_map_snd]
  exact h1.trans (le_of_eq h2)

/-- In every final state the `TaskError` outcomes are at most as many as the
failing tasks of the batch. -/
theorem taskErrors_le {T : Type} {tasks : List (TaskRet T)}
    {s : PoolState T} (hA : Accounted tasks s)
    (hp : s.pending = []) (hr : s.running = []) :
    s.recorded.countP (fun p => p.1.2.fails && !p.2.isCanceled) ≤
      tasks.countP TaskRet.fails := by
  have h1 : s.recorded.countP (fun p => p.1.2.fails && !p.2.isCanceled) ≤
      s.recorded.countP ((fun j : Job T => j.2.fails) ∘ Prod.fst) := by
    apply List.countP_mono_left
    intro _ _ h
    simp only [Bool.and_eq_true] at h
    exact h.1
  have h2 : s.recorded.countP ((fun j : Job T => j.2.fails) ∘ Prod.fst) =
      tasks.countP TaskRet.fails := by
    rw [← List.countP_map, (recorded_perm_of_final hA hp hr).countP_eq]
    have : (fun j : Job T => j.2.fails) = TaskRet.fails ∘ Prod.snd := rfl
    rw [this, ← List.countP_map, List.enum_map_snd]
  exact h1.trans (le_of_eq h2)

/-! ### Lemmas on SingleDo -/

theorem toInt_of_lt {w retry : Nat} (h : retry < 2 ^ (w - 1)) : toInt w retry = (retry : Int) := by
  have hle : 2 ^ (w - 1) ≤ 2 ^ w := Nat.pow_le_pow_right (by decide) (Nat.sub_le w 1)
  have hmod : retry % 2 ^ w = retry := Nat.mod_eq_of_lt (lt_of_lt_of_le h hle)
  simp [toInt, hmod, h]

/-- The loop of `SingleDo` after `j` failed attempts whose waits ended with
the timer: it goes on from attempt `i + j`, with `j` more invocations and `j`
more waits. -/
theorem attempt_skip (sel : Nat → Option CtxErr) (call : Nat → GoAny × Option GoError) :
    ∀ (j k i : Nat), (∀ m < j, ∃ r e, call (i + m) = (r, some e)) →
      (∀ m < j, sel (i + m) = none) →
      attempt sel call (k + j) i =
        ⟨(attempt sel call k (i + j)).result, (attempt sel call k (i + j)).err,
         (attempt sel call k (i + j)).calls + j,
         List.range' i j ++ (attempt sel call k (i + j)).waits⟩
  | 0, k, i, _, _ => by simp
  | j + 1, k, i, hfail, hsel => by
    obtain ⟨r, e, hc⟩ := hfail 0 (Nat.succ_pos j)
    have hs := hsel 0 (Nat.succ_pos j)
    simp only [Nat.add_zero] at hc hs
    have ih := attempt_skip sel call j k (i + 1)
      (fun m hm => by
        have := hfail (m + 1) (Nat.succ_lt_succ hm)
        rwa [show i + (m + 1) = i + 1 + m by omega] at this)
      (fun m hm => by
        have := hsel (m + 1) (Nat.succ_lt_succ hm)
        rwa [show i + (m + 1) = i + 1 + m by omega] at this)
    rw [show k + (j + 1) = (k + j) + 1 by omega]
    rw [attempt, hc]
    simp only [hs]
    rw [ih, show i + 1 + j = i + (j + 1) by omega]
    simp [List.range'_succ]
    omega

/-- The type assertion succeeds on the conversion of a value of `T` that is
not the nil interface value. -/
theorem assert_of_holds (T : GoType) (d : Dyn) (h : T.holds (some d) = true) :
    T.assert (some d) = some (some d) := by
  cases T with
  | concrete name => simpa [GoType.assert, GoType.holds] using h
  | iface impls => simpa [GoType.assert, GoType.holds] using h

/-- A value of a non-interface type is never the nil interface value. -/
theorem holds_concrete_ne_none (name : String) (v : GoAny)
    (h : (GoType.concrete name).holds v = true) : v ≠ none := by
  cases v with
  | none => simp [GoType.holds] at h
  | some d => simp

/-- With `int(retry) = retry`: when attempts `0..k-1` return errors, attempt
`k ≤ retry` returns `(v, nil)` and the context is never done, the flight
returns `(v, nil)` after `k + 1` invocations and `k` waits. -/
theorem flight_success (w : Nat) (call : Nat → GoAny × Option GoError) (retry k : Nat)
    (v : GoAny) (hr : retry < 2 ^ (w - 1)) (hk : k ≤ retry)
    (hfail : ∀ i < k, ∃ r e, call i = (r, some e)) (hok : call k = (v, none)) :
    flight w neverDone call retry = ⟨v, none, k + 1, List.range' 0 k⟩ := by
  have hskip := attempt_skip neverDone call k (retry - k) 0
    (fun m hm => by simpa using hfail m hm) (fun _ _ => rfl)
  rw [Nat.sub_add_cancel hk] at hskip
  have hlast : attempt neverDone call (retry - k) (0 + k) = ⟨v, none, 1, []⟩ := by
    rw [Nat.zero_add, attempt, hok]
  rw [hlast] at hskip
  simp only [flight, toInt_of_lt hr, Int.toNat_ofNat]
  rw [if_neg (by omega), hskip]
  simp [Nat.add_comm]

/-- With `int(retry) = retry`: when every attempt returns an error and the
context is never done, the flight returns the error of attempt `retry` after
`retry + 1` invocations and `retry` waits. -/
theorem flight_all_fail (w : Nat) (call : Nat → GoAny × Option GoError) (retry : Nat)
    (r : GoAny) (e : GoError) (hr : retry < 2 ^ (w - 1))
    (hfail : ∀ i, ∃ r e, call i = (r, some e)) (hlast : call retry = (r, some e)) :
    flight w neverDone call retry = ⟨none, some e, retry + 1, List.range' 0 retry⟩ := by
  have hskip := attempt_skip neverDone call retry 0 0
    (fun m _ => by simpa using hfail m) (fun _ _ => rfl)
  have hend : attempt neverDone call 0 (0 + retry) = ⟨none, some e, 1, []⟩ := by
    rw [Nat.zero_add, attempt, hlast]
  rw [hend, Nat.zero_add] at hskip
  simp only [flight, toInt_of_lt hr, Int.toNat_ofNat]
  rw [if_neg (by omega), hskip]
  simp [Nat.add_comm]

/-- When a wait follows the failed attempt `i` (`i < int(retry)`), the
earlier waits ended with the timer, and `ctx.Done()` fires during this one,
the flight returns after `i + 1` invocations with the error chosen by the
`switch`. -/
theorem flight_ctx_done (w : Nat) (sel : Nat → Option CtxErr)
    (call : Nat → GoAny × Option GoError) (retry i : Nat) (r : GoAny) (e : GoError)
    (ce : CtxErr) (hi : (i : Int) < toInt w retry)
    (hfail : ∀ m < i, ∃ r' e', call m = (r', some e'))
    (hsel : ∀ m < i, sel m = none)
    (hlast : call i = (r, some e)) (hdone : sel i = some ce) :
    flight w sel call retry = ⟨none, some (onCtxDone e ce), i + 1, List.range' 0 (i + 1)⟩ := by
  obtain ⟨n, hn⟩ := Int.eq_ofNat_of_zero_le (show 0 ≤ toInt w retry by omega)
  rw [hn] at hi
  have hin : i < n := by exact_mod_cast hi
  have hskip := attempt_skip sel call i (n - i) 0
    (fun m hm => by simpa using hfail m hm) (fun m hm => by simpa using hsel m hm)
  rw [Nat.sub_add_cancel (le_of_lt hin)] at hskip
  obtain ⟨k, hk⟩ : ∃ k, n - i = k + 1 := ⟨n - i - 1, by omega⟩
  have hhere : attempt sel call (n - i) (0 + i) = ⟨none, some (onCtxDone e ce), 1, [i]⟩ := by
    rw [Nat.zero_add, hk, attempt, hlast]
    simp only [hdone]
  rw [hhere] at hskip
  simp only [flight, hn, Int.toNat_ofNat]
  rw [if_neg (by omega), hskip]
  simp [Nat.add_comm, List.range'_concat]

/-- With `int(retry) = retry`, for a value `v` of `T` that is not the nil
interface value: when attempts `0..k-1` return errors, attempt `k ≤ retry`
returns `(v, nil)` and the context is never done, `SingleDo` returns
`(v, nil)` and `call` is invoked `k + 1` times. -/
theorem singleDo_success (T : GoType) (w : Nat) (call : Nat → GoAny × Option GoError)
    (retry k : Nat) (d : Dyn) (hr : retry < 2 ^ (w - 1)) (hk : k ≤ retry)
    (hv : T.holds (some d) = true)
    (hfail : ∀ i < k, ∃ r e, call i = (r, some e)) (hok : call k = (some d, none)) :
    SingleDo T w neverDone call retry = (some d, none) ∧
    invocations w neverDone call retry = k + 1 := by
  have h := flight_success w call retry k (some d) hr hk hfail hok
  simp [SingleDo, invocations, h, receive, assert_of_holds T d hv]

/-- With `int(retry) = retry`: when every attempt returns an error and the
context is never done, `SingleDo` invokes `call` `retry + 1` times, waits
`retry` times, and returns the zero value of `T` with the error of the last
attempt. -/
theorem singleDo_all_fail (T : GoType) (w : Nat) (call : Nat → GoAny × Option GoError)
    (retry : Nat) (r : GoAny) (e : GoError) (hr : retry < 2 ^ (w - 1))
    (hfail : ∀ i, ∃ r e, call i = (r, some e)) (hlast : call retry = (r, some e)) :
    SingleDo T w neverDone call retry = (T.zero, some e) ∧
    invocations w neverDone call retry = retry + 1 ∧
    (flight w neverDone call retry).waits = List.range' 0 retry := by
  have h := flight_all_fail w call retry r e hr hfail hlast
  simp [SingleDo, invocations, h, receive]

/-! ### Lemmas on the errors and types of SingleDo -/


/-- The `switch` of `SingleDo` in its default case: when the error of the
last attempt and `ctx.Err()` are not both the deadline error and not both
the cancel error, the message of `ctx.Err()` is put before the error. -/
theorem onCtxDone_differs (e : GoError) (ce : CtxErr)
    (hdiff : ¬ ((errorsIs .deadlineExceeded e = true ∧ ce = .deadlineExceeded) ∨
      (errorsIs .canceled e = true ∧ ce = .canceled))) :
    onCtxDone e ce = .withMessage e ce.message := by
  cases ce with
  | canceled =>
    have h : errorsIs .canceled e = false := by
      cases hc : errorsIs .canceled e with
      | false => rfl
      | true => exact absurd (Or.inr ⟨hc, rfl⟩) hdiff
    simp [onCtxDone, h, CtxErr.toError, ctxCanceled, errorsIs]
  | deadlineExceeded =>
    have h : errorsIs .deadlineExceeded e = false := by
      cases hc : errorsIs .deadlineExceeded e with
      | false => rfl
      | true => exact absurd (Or.inl ⟨hc, rfl⟩) hdiff
    simp [onCtxDone, h, CtxErr.toError, ctxDeadlineExceeded, errorsIs]

/-- The type assertion fails on every value that is not the conversion of a
value of `T`. -/
theorem assert_of_not_holds (T : GoType) (result : GoAny) (h : T.holds result = false) :
    T.assert result = none := by
  cases result with
  | none => rfl
  | some d =>
    cases T with
    | concrete name => simpa [GoType.assert, GoType.holds] using h
    | iface impls => simpa [GoType.assert, GoType.holds] using h

/-- The zero value of `T` is a value of `T`. -/
theorem holds_zero (T : GoType) : T.holds T.zero = true := by
  cases T <;> simp [GoType.holds, GoType.zero]

/-- What the type assertion lets through is a value of `T`. -/
theorem holds_of_assert (T : GoType) (result val : GoAny) (h : T.assert result = some val) :
    T.holds val = true := by
  cases result with
  | none => simp [GoType.assert] at h
  | some d =>
    cases T with
    | concrete name =>
      simp only [GoType.assert] at h
      split at h
      · rename_i hd
        simp only [Option.some.injEq] at h
        subst h
        simpa [GoType.holds] using hd
      · cases h
    | iface impls =>
      simp only [GoType.assert] at h
      split at h
      · rename_i hd
        simp only [Option.some.injEq] at h
        subst h
        simpa [GoType.holds] using hd
      · cases h

/-- Whatever a caller receives from the shared execution, the data
`SingleDo` returns to it is a value of its own `T`. -/
theorem receive_holds (T : GoType) (result : GoAny) (e : Option GoError) :
    T.holds (receive T result e).1 = true := by
  cases e with
  | some e => exact holds_zero T
  | none =>
    cases ha : T.assert result with
    | none => simpa [receive, ha] using holds_zero T
    | some val => simpa [receive, ha] using holds_of_assert T result val ha

theorem runGroup_induction (ok : GroupEvent → Prop) (P : Group → Prop)
    (hstep : ∀ g e g', ok e → P g → groupStep g e = some g' → P g') :
    ∀ (evs : List GroupEvent) (g g' : Group), (∀ e ∈ evs, ok e) → P g →
      runGroup g evs = some g' → P g' := by
  intro evs
  induction evs with
  | nil =>
    intro g g' _ hP h
    simp only [runGroup, Option.some.injEq] at h
    exact h ▸ hP
  | cons e es ih =>
    intro g g' hok hP h
    simp only [runGroup] at h
    cases hs : groupStep g e with
    | none => simp [hs] at h
    | some g1 =>
      simp only [hs, Option.some_bind] at h
      exact ih g1 g' (fun x hx => hok x (List.mem_cons_of_mem _ hx))
        (hstep g e g1 (hok e (List.mem_cons_self _ _)) hP hs) h

/-- While no `ttl` timer fires, the key stays registered for the execution
that has not returned. -/
theorem registered_step (g g' : Group) (e : GroupEvent) (he : e.keeps = true)
    (hR : Registered g) (h : groupStep g e = some g') : Registered g' := by
  cases e with
  | forget f => simp [GroupEvent.keeps] at he
  | arrive c =>
    simp only [groupStep] at h
    cases hentry : g.entry with
    | some f =>
      cases hf : g.flights[f]? with
      | none => simp [hentry, hf] at h
      | some fr =>
        simp only [hentry, hf, Option.some.injEq] at h
        subst h
        intro j frj hj
        simp only [List.getElem?_set] at hj
        by_cases hjf : f = j
        · subst hjf
          have hlt : f < g.flights.length := (List.getElem?_eq_some_iff.mp hf).1
          simp only [hlt, if_true, Option.some.injEq] at hj
          subst hj
          simpa [hentry] using hR f fr hf
        · simp only [hjf, if_false] at hj
          simpa [hentry] using hR j frj hj
    | none =>
      simp only [hentry, Option.some.injEq] at h
      subst h
      intro j frj hj
      by_cases hjl : j < g.flights.length
      · rw [List.getElem?_append_left hjl] at hj
        have := hR j frj hj
        simp only [hentry] at this
        have hne : g.flights.length ≠ j := by omega
        simp only [Option.some.injEq, hne, iff_false]
        simpa using this
      · have hle : g.flights.length ≤ j := by omega
        rw [List.getElem?_append_right hle] at hj
        have hj0 : j - g.flights.length = 0 := by
          by_contra hne
          obtain ⟨k, hk⟩ : ∃ k, j - g.flights.length = k + 1 := ⟨j - g.flights.length - 1, by omega⟩
          rw [hk] at hj
          simp at hj
        rw [hj0] at hj
        simp only [List.getElem?_cons_zero, Option.some.injEq] at hj
        subst hj
        have : g.flights.length = j := by omega
        simp [this]
  | complete f =>
    simp only [groupStep] at h
    cases hf : g.flights[f]? with
    | none => simp [hf] at h
    | some fr =>
      simp only [hf] at h
      by_cases hd : fr.done = true
      · simp [hd] at h
      · have hd' : fr.done = false := by simpa using hd
        simp only [hd', Bool.false_eq_true, if_false, Option.some.injEq] at h
        have hentry : g.entry = some f := (hR f fr hf).mp hd'
        subst h
        intro j frj hj
        simp only [List.getElem?_set] at hj
        simp only [hentry, if_true]
        by_cases hjf : f = j
        · subst hjf
          have hlt : f < g.flights.length := (List.getElem?_eq_some_iff.mp hf).1
          simp only [hlt, if_true, Option.some.injEq] at hj
          subst hj
          simp
        · simp only [hjf, if_false] at hj
          have := hR j frj hj
          simp only [hentry, Option.some.injEq, hjf, iff_false] at this
          simpa using this

theorem registered_run (evs : List GroupEvent) (g : Group)
    (hkeep : ∀ e ∈ evs, e.keeps = true) (h : runGroup emptyGroup evs = some g) :
    Registered g :=
  runGroup_induction (fun e => e.keeps = true) Registered
    (fun g e g' he hR hs => registered_step g g' e he hR hs) evs _ _ hkeep
    (by intro f fr hf; simp [emptyGroup] at hf) h

/-- Every execution of the group has a first caller, the one that runs the
function. -/
theorem callers_ne_nil_step (g g' : Group) (e : GroupEvent)
    (hN : ∀ fr ∈ g.flights, fr.callers ≠ []) (h : groupStep g e = some g') :
    ∀ fr ∈ g'.flights, fr.callers ≠ [] := by
  cases e with
  | forget f =>
    simp only [groupStep] at h
    cases hf : g.flights[f]? with
    | none => simp [hf] at h
    | some fr =>
      simp only [hf] at h
      split at h
      · simp only [Option.some.injEq] at h
        subst h
        intro fr' hfr'
        rcases List.mem_or_eq_of_mem_set hfr' with hm | rfl
        · exact hN fr' hm
        · exact hN fr (List.getElem?_mem hf)
      · cases h
  | arrive c =>
    simp only [groupStep] at h
    cases hentry : g.entry with
    | some f =>
      cases hf : g.flights[f]? with
      | none => simp [hentry, hf] at h
      | some fr =>
        simp only [hentry, hf, Option.some.injEq] at h
        subst h
        intro fr' hfr'
        rcases List.mem_or_eq_of_mem_set hfr' with hm | rfl
        · exact hN fr' hm
        · simp
    | none =>
      simp only [hentry, Option.some.injEq] at h
      subst h
      intro fr' hfr'
      rcases List.mem_append.mp hfr' with hm | hm
      · exact hN fr' hm
      · simp only [List.mem_singleton] at hm
        subst hm
        simp
  | complete f =>
    simp only [groupStep] at h
    cases hf : g.flights[f]? with
    | none => simp [hf] at h
    | some fr =>
      simp only [hf] at h
      split at h
      · cases h
      · simp only [Option.some.injEq] at h
        subst h
        intro fr' hfr'
        rcases List.mem_or_eq_of_mem_set hfr' with hm | rfl
        · exact hN fr' hm
        · exact hN fr (List.getElem?_mem hf)

theorem callers_ne_nil_run (evs : List GroupEvent) (g : Group)
    (h : runGroup emptyGroup evs = some g) : ∀ fr ∈ g.flights, fr.callers ≠ [] :=
  runGroup_induction (fun _ => True) (fun g => ∀ fr ∈ g.flights, fr.callers ≠ [])
    (fun g e g' _ hN hs => callers_ne_nil_step g g' e hN hs) evs _ _ (fun _ _ => trivial)
    (by intro fr hfr; simp [emptyGroup] at hfr) h

/-- The loop of `SingleDo` with `k` retries left invokes `call` at least once
and at most `k + 1` times, whatever `call` returns and whenever the context
is done. -/
theorem attempt_calls_bounds (sel : Nat → Option CtxErr)
    (call : Nat → GoAny × Option GoError) :
    ∀ (k i : Nat), 1 ≤ (attempt sel call k i).calls ∧ (attempt sel call k i).calls ≤ k + 1
  | 0, i => by
    rw [attempt]
    rcases hc : call i with ⟨r, _ | e⟩ <;> simp
  | k + 1, i => by
    have ih := attempt_calls_bounds sel call k (i + 1)
    rw [attempt]
    rcases hc : call i with ⟨r, _ | e⟩
    · simp
    · rcases hs : sel i with _ | ce
      · simp only []
        omega
      · simp

/-- The conversion `int(retry)` is negative exactly when the word holds a
value of at least `2^(w-1)`. -/
theorem toInt_neg_iff (w retry : Nat) : toInt w retry < 0 ↔ 2 ^ (w - 1) ≤ retry % 2 ^ w := by
  have hlt : retry % 2 ^ w < 2 ^ w := Nat.mod_lt _ (Nat.two_pow_pos w)
  unfold toInt
  split
  · omega
  · constructor
    · intro _; omega
    · intro _
      have : ((retry % 2 ^ w : Nat) : Int) < ((2 ^ w : Nat) : Int) := by exact_mod_cast hlt
      omega

/-- A conversion `int(retry)` that is not negative is at most `retry`. -/
theorem toInt_toNat_le (w retry : Nat) : (toInt w retry).toNat ≤ retry := by
  have hle : retry % 2 ^ w ≤ retry := Nat.mod_le _ _
  unfold toInt
  split
  · rw [Int.toNat_ofNat]; exact hle
  · have hlt : retry % 2 ^ w < 2 ^ w := Nat.mod_lt _ (Nat.two_pow_pos w)
    have : ((retry % 2 ^ w : Nat) : Int) < ((2 ^ w : Nat) : Int) := by exact_mod_cast hlt
    omega

/-- For every `retry`, word size, `call` and context, `call` is invoked at
most `retry + 1` times. -/
theorem invocations_le (w : Nat) (sel : Nat → Option CtxErr)
    (call : Nat → GoAny × Option GoError) (retry : Nat) :
    invocations w sel call retry ≤ retry + 1 := by
  unfold invocations flight
  split
  · simp
  · have h := (attempt_calls_bounds sel call (toInt w retry).toNat 0).2
    have h2 := toInt_toNat_le w retry
    omega

/-- The number of invocations of `call` over the full range of `retry`: none
when `int(retry)` is negative, that is for `retry` from `2^(w-1)` on, and
at least one otherwise. -/
theorem invocations_pos_iff (w : Nat) (sel : Nat → Option CtxErr)
    (call : Nat → GoAny × Option GoError) (retry : Nat) :
    (1 ≤ invocations w sel call retry ↔ retry % 2 ^ w < 2 ^ (w - 1)) ∧
    (invocations w sel call retry = 0 ↔ 2 ^ (w - 1) ≤ retry % 2 ^ w) := by
  have hneg := toInt_neg_iff w retry
  unfold invocations flight
  split
  · rename_i h
    have := hneg.1 h
    simp
    omega
  · rename_i h
    have h1 := (attempt_calls_bounds sel call (toInt w retry).toNat 0).1
    have : ¬ 2 ^ (w - 1) ≤ retry % 2 ^ w := fun hc => h (hneg.2 hc)
    constructor
    · constructor
      · intro _; omega
      · intro _; exact h1
    · constructor
      · intro h0; omega
      · intro hc; exact absurd hc this

/-- Callers that arrive while the execution registered for the key is in
flight all join it. -/
theorem arrive_joins (t : Bool) :
    ∀ (rest cs : List Caller),
      runGroup ⟨some 0, [⟨cs, false, t⟩]⟩ (rest.map GroupEvent.arrive)
        = some ⟨some 0, [⟨cs ++ rest, false, t⟩]⟩
  | [], cs => by simp [runGroup]
  | c :: rest, cs => by
    have ih := arrive_joins t rest (cs ++ [c])
    simp only [List.map_cons, runGroup, groupStep, List.getElem?_cons_zero, List.set_cons_zero,
      Option.some_bind]
    rw [ih, List.append_assoc]
    rfl

/-- An execution of the group in two parts. -/
theorem runGroup_append (g : Group) (a b : List GroupEvent) :
    runGroup g (a ++ b) = (runGroup g a).bind fun g' => runGroup g' b := by
  induction a generalizing g with
  | nil => simp [runGroup]
  | cons e es ih =>
    simp only [List.cons_append, runGroup]
    cases groupStep g e with
    | none => simp
    | some g1 => simp [ih]

/-- When `N ≥ 1` callers arrive one after the other before the execution of
the first returns and no timer fires, the group runs one execution, on which
all `N` callers are blocked until it returns. -/
theorem arrive_all_one_flight (c0 : Caller) (rest : List Caller) :
    runGroup emptyGroup ((c0 :: rest).map GroupEvent.arrive ++ [.complete 0])
      = some ⟨none, [⟨c0 :: rest, true, false⟩]⟩ := by
  have h := arrive_joins c0.ttl rest [c0]
  have h1 : runGroup emptyGroup ((c0 :: rest).map GroupEvent.arrive)
      = some ⟨some 0, [⟨c0 :: rest, false, c0.ttl⟩]⟩ := by
    simp only [List.map_cons, runGroup, groupStep, emptyGroup, List.length_nil,
      List.nil_append, Option.some_bind]
    rw [h]
    rfl
  rw [runGroup_append, h1]
  simp [runGroup, groupStep]

/-- What a caller blocked on an execution receives, by the result and error
of the flight of the first caller `ex`: the error when there is one, with the
zero value of the type of the caller; the result itself when it is a non-nil
value of the type of the caller; the type-mismatch error otherwise. -/
theorem returned_cases (w : Nat) (fr : Shared) (ex c : Caller)
    (hex : fr.callers.head? = some ex) :
    (∀ e, (flight w ex.sel ex.call ex.retry).err = some e →
      fr.returned w c = (c.typ.zero, some e)) ∧
    (∀ d, (flight w ex.sel ex.call ex.retry).err = none →
      (flight w ex.sel ex.call ex.retry).result = some d → c.typ.holds (some d) = true →
      fr.returned w c = (some d, none)) ∧
    ((flight w ex.sel ex.call ex.retry).err = none →
      ((flight w ex.sel ex.call ex.retry).result = none ∨
        c.typ.holds (flight w ex.sel ex.call ex.retry).result = false) →
      fr.returned w c = (c.typ.zero, some (.withStack (.leaf
        (mismatchMessage c.typ (flight w ex.sel ex.call ex.retry).result))))) ∧
    (c.typ = ex.typ → fr.returned w c = SingleDo ex.typ w ex.sel ex.call ex.retry) := by
  have ho : fr.outcome w = flight w ex.sel ex.call ex.retry := by
    simp [Shared.outcome, hex]
  refine ⟨?_, ?_, ?_, ?_⟩
  · intro e he
    simp [Shared.returned, ho, receive, he]
  · intro d he hd hh
    simp [Shared.returned, ho, receive, he, hd, assert_of_holds c.typ d hh]
  · intro he hr
    have ha : c.typ.assert (flight w ex.sel ex.call ex.retry).result = none := by
      rcases hr with hr | hr
      · rw [hr]; rfl
      · exact assert_of_not_holds _ _ hr
    simp [Shared.returned, ho, receive, he, ha]
  · intro hT
    simp [Shared.returned, ho, SingleDo, hT]

/-! ### Lemmas on the helpers and the context -/


theorem rdropWhile_append_rtakeWhile {α : Type} (p : α → Bool) (l : List α) :
    l.rdropWhile p ++ l.rtakeWhile p = l := by
  simp only [List.rdropWhile, List.rtakeWhile, ← List.reverse_append,
    List.takeWhile_append_dropWhile, List.reverse_reverse]

/-- Dropping the leading and then the trailing elements that satisfy `p`
leaves the list between two runs of such elements, with no such element at
either end. -/
theorem trim_spec {α : Type} (p : α → Bool) (l : List α) :
    ∃ pre post, l = pre ++ (l.dropWhile p).rdropWhile p ++ post ∧
      (∀ c ∈ pre, p c = true) ∧ (∀ c ∈ post, p c = true) ∧
      (∀ c, ((l.dropWhile p).rdropWhile p).head? = some c → p c = false) ∧
      (∀ c, ((l.dropWhile p).rdropWhile p).getLast? = some c → p c = false) := by
  refine ⟨l.takeWhile p, (l.dropWhile p).rtakeWhile p, ?_, ?_, ?_, ?_, ?_⟩
  · rw [List.append_assoc, rdropWhile_append_rtakeWhile, List.takeWhile_append_dropWhile]
  · intro c hc
    exact List.mem_takeWhile_imp hc
  · intro c hc
    exact List.mem_rtakeWhile_imp hc
  · intro c hc
    have hne : (l.dropWhile p).rdropWhile p ≠ [] := by
      intro h
      rw [h] at hc
      cases hc
    have hpre : (l.dropWhile p).rdropWhile p <+: l.dropWhile p := List.rdropWhile_prefix p _
    have hhead := hpre.head hne
    have hc' : ((l.dropWhile p).rdropWhile p).head hne = c := by
      rw [List.head?_eq_head hne] at hc
      exact Option.some.inj hc
    have hne' : l.dropWhile p ≠ [] := by
      intro h
      rw [h] at hne
      simp at hne
    have := List.head_dropWhile_not p l hne'
    rw [← hhead, hc'] at this
    simpa using this
  · intro c hc
    have hne : (l.dropWhile p).rdropWhile p ≠ [] := by
      intro h
      rw [h] at hc
      cases hc
    have := List.rdropWhile_last_not p (l.dropWhile p) hne
    rw [List.getLast?_eq_getLast _ hne] at hc
    rw [Option.some.inj hc] at this
    simpa using this

/-- A character outside the table of `html.EscapeString` is copied. -/
theorem escapeChar_other (c : Char) (h1 : c ≠ '&') (h2 : c ≠ apostrophe) (h3 : c ≠ '<')
    (h4 : c ≠ '>') (h5 : c ≠ doubleQuote) : escapeChar c = [c] := by
  simp [escapeChar, h1, h2, h3, h4, h5]

/-- Stripping leaves every value that is not a map a value that is not a
map. -/
theorem strip_not_dict (v : Data) (trimSpace : Bool) (h : v.isDict = false) :
    ∀ kvs, InterfaceStripTags v trimSpace ≠ .dict kvs := by
  intro kvs
  cases v with
  | dict kvs' => simp [Data.isDict] at h
  | nil => simp [InterfaceStripTags]
  | bool b => simp [InterfaceStripTags]
  | number bits => simp [InterfaceStripTags]
  | str s => simp [InterfaceStripTags]
  | slice vs => simp [InterfaceStripTags]
  | other typ => simp [InterfaceStripTags]

/-- After a successful decode the body of the request is the buffer of the
`TeeReader`: the bytes the decoder has read. -/
theorem postData_body_after (toLower : String → String) (decode : List Nat → Decoded)
    (req : Request) (trimSpace : Bool) (bytes : List Nat)
    (hct : stringsContains (toLower req.contentType) "application/json" = true)
    (hbody : req.body = some bytes) (hok : (decode bytes).err = none) :
    (PostDataStripTags toLower decode req trimSpace).2.body
      = some (bytes.take (decode bytes).read) := by
  simp only [PostDataStripTags, hct, if_true, hbody, hok]
  split <;> rfl

/-- The loop of `indirect` stops at once on a value that is not a non-nil
pointer. -/
theorem derefLoop_pointerChain (n : Nat) (x : Value) :
    derefLoop (pointerChain n x) = derefLoop x := by
  induction n with
  | zero => rfl
  | succ n ih => simpa [pointerChain, derefLoop] using ih

theorem indirect_of_basic (x : Value) (h : x.isBasic = true) : indirect x = x := by
  cases x <;> first | rfl | simp [Value.isBasic] at h

/-- The function `indirect` dereferences a chain of one or more non-nil
pointers down to the value of a supported type at its end. -/
theorem indirect_pointerChain (n : Nat) (x : Value) (hn : 1 ≤ n) (h : x.isBasic = true) :
    indirect (pointerChain n x) = x := by
  obtain ⟨m, rfl⟩ : ∃ m, n = m + 1 := ⟨n - 1, by omega⟩
  have h1 : indirect (pointerChain (m + 1) x)
      = valueInterface (derefLoop (pointerChain (m + 1) x)) := rfl
  rw [h1, derefLoop_pointerChain]
  cases x <;> first | rfl | simp [Value.isBasic] at h

theorem indirect_of_arrayOrSlice (v : Value) (h : isArrayOrSlice v = true) :
    indirect v = v := by
  cases v <;> first | rfl | simp [isArrayOrSlice] at h

/-- An array or a slice is returned as it is. -/
theorem convert_of_arrayOrSlice (r : Value) (h : isArrayOrSlice r = true) :
    ConvertInterfaceToSlice r = r := by
  simp [ConvertInterfaceToSlice, indirect_of_arrayOrSlice r h, h]

theorem lookup_filter_ne {V : Type} (m : List (String × V)) (k k' : String) (h : k ≠ k') :
    (m.filter fun p => p.1 != k).lookup k' = m.lookup k' := by
  induction m with
  | nil => rfl
  | cons p m ih =>
    obtain ⟨a, b⟩ := p
    by_cases hak : a = k
    · subst hak
      have hne : (k' == a) = false := by simpa using fun h' => h h'.symm
      simp [List.filter_cons, List.lookup_cons, hne, ih]
    · have hb : (a != k) = true := by simpa using hak
      simp only [List.filter_cons, hb, if_true, List.lookup_cons, ih]

/-- After `m[key] = value` the map holds `value` under `key`. -/
theorem lookup_mapStore_self {V : Type} (m : List (String × V)) (k : String) (v : V) :
    (mapStore m k v).lookup k = some v := by
  simp [mapStore, List.lookup_cons]

/-- The assignment `m[key] = value` leaves the other keys as they are. -/
theorem lookup_mapStore_ne {V : Type} (m : List (String × V)) (k k' : String) (v : V)
    (h : k ≠ k') : (mapStore m k v).lookup k' = m.lookup k' := by
  have hne : (k' == k) = false := by simpa using fun h' => h h'.symm
  simp [mapStore, List.lookup_cons, hne, lookup_filter_ne m k k' h]

theorem get_set_self {V : Type} (bc : beanContext V) (k : String) (v : Option V) :
    ((bc.Set k v).Get k).1 = (v, true) := by
  simp [beanContext.Get, beanContext.Set, lookup_mapStore_self]

theorem get_set_ne {V : Type} (bc : beanContext V) (k k' : String) (v : Option V)
    (h : k ≠ k') : ((bc.Set k v).Get k').1 = (bc.Get k').1 := by
  cases hk : bc.keys with
  | none => simp [beanContext.Get, beanContext.Set, hk, lookup_mapStore_ne _ k k' v h]
  | some m =>
    simp only [beanContext.Get, beanContext.Set, hk, Option.getD_some,
      lookup_mapStore_ne _ k k' v h]
    cases m.lookup k' <;> rfl

/-- On a context on which `Get(k)` finds nothing, it finds nothing after any
calls of `Set` on other keys. -/
theorem get_setAll_other {V : Type} (k : String) :
    ∀ (sets : List (String × Option V)) (bc : beanContext V),
      (∀ p ∈ sets, p.1 ≠ k) → (bc.Get k).1 = (none, false) →
      ((bc.setAll sets).Get k).1 = (none, false)
  | [], _, _, h => h
  | (key, value) :: rest, bc, hne, h => by
    have h1 : ((bc.Set key value).Get k).1 = (none, false) := by
      rw [get_set_ne bc key k value (hne (key, value) (List.mem_cons_self _ _))]
      exact h
    exact get_setAll_other k rest (bc.Set key value)
      (fun p hp => hne p (List.mem_cons_of_mem _ hp)) h1

/-- With an empty cache, `QueryParams` returns the parameters of the request
and caches them. -/
theorem queryParams_cold {V : Type} (bc : beanContext V) (r : HttpRequest V)
    (hr : bc.request = some r) (hq : bc.query = none) :
    bc.QueryParams = some (r.query, { bc with query := some r.query }) := by
  simp [beanContext.QueryParams, hr, hq]

/-- With a filled cache, `QueryParams` returns the cache, whatever the
request is. -/
theorem queryParams_warm {V : Type} (bc : beanContext V) (q : List (String × List String))
    (hq : bc.query = some q) : bc.QueryParams = some (q, bc) := by
  simp [beanContext.QueryParams, hq]

/-- With an empty cache, `Query` returns the first value of the name in the
query of the request. -/
theorem query_cold {V : Type} (bc : beanContext V) (r : HttpRequest V) (name : String)
    (hr : bc.request = some r) (hq : bc.query = none) :
    bc.Query name = some (urlValuesGet r.query name, { bc with query := some r.query }) := by
  simp [beanContext.Query, queryParams_cold bc r hr hq]

/-- With a filled cache, `Query` returns the first value of the name in the
cache, whatever the request is. -/
theorem query_warm {V : Type} (bc : beanContext V) (q : List (String × List String))
    (name : String) (hq : bc.query = some q) :
    bc.Query name = some (urlValuesGet q name, bc) := by
  simp [beanContext.Query, queryParams_warm bc q hq]

/-- Once the query of a request was read, `Reset` and `SetRequest` to any
other request leave `Query` and `QueryParams` answering from the request
that was read. -/
theorem query_stale {V W : Type} (bc : beanContext V) (r : HttpRequest V)
    (r' : Option (HttpRequest V)) (w : W) (name name' : String)
    (hr : bc.request = some r) (hq : bc.query = none) :
    (((bc.afterQuery name).Reset r' w).Query name').map Prod.fst
      = some (urlValuesGet r.query name') ∧
    (((bc.afterQuery name).SetRequest r').Query name').map Prod.fst
      = some (urlValuesGet r.query name') ∧
    (((bc.afterQuery name).Reset r' w).QueryParams).map Prod.fst = some r.query ∧
    (((bc.afterQuery name).SetRequest r').QueryParams).map Prod.fst = some r.query := by
  have h : bc.afterQuery name = { bc with query := some r.query } := by
    simp [beanContext.afterQuery, query_cold bc r name hr hq]
  rw [h]
  refine ⟨?_, ?_, ?_, ?_⟩
  · rw [query_warm _ r.query name' rfl]; rfl
  · rw [query_warm _ r.query name' rfl]; rfl
  · rw [queryParams_warm _ r.query rfl]; rfl
  · rw [queryParams_warm _ r.query rfl]; rfl

/-- Every value is a chain of non-nil pointers that ends at a value that is
not a non-nil pointer. -/
theorem pointerChain_decompose : ∀ v : Value, v = pointerChain (ptrDepth v) (derefLoop v)
  | .ptr target => by
    have ih := pointerChain_decompose target
    simp only [ptrDepth, derefLoop, pointerChain]
    exact congrArg Value.ptr ih
  | .nil => rfl
  | .bool _ => rfl
  | .string _ => rfl
  | .int _ _ => rfl
  | .float32 _ => rfl
  | .float64 _ => rfl
  | .nilPtr => rfl
  | .boxed _ => rfl
  | .slice _ => rfl
  | .array _ => rfl
  | .other _ => rfl

/-- The loop of `indirect` ends at a value that is not a non-nil pointer. -/
theorem derefLoop_not_ptr : ∀ (v t : Value), derefLoop v ≠ .ptr t
  | .ptr target, t => by
    simp only [derefLoop]
    exact derefLoop_not_ptr target t
  | .nil, _ => by simp [derefLoop]
  | .bool _, _ => by simp [derefLoop]
  | .string _, _ => by simp [derefLoop]
  | .int _ _, _ => by simp [derefLoop]
  | .float32 _, _ => by simp [derefLoop]
  | .float64 _, _ => by simp [derefLoop]
  | .nilPtr, _ => by simp [derefLoop]
  | .boxed _, _ => by simp [derefLoop]
  | .slice _, _ => by simp [derefLoop]
  | .array _, _ => by simp [derefLoop]
  | .other _, _ => by simp [derefLoop]

/-- The loop of `indirect` leaves a value that is not a non-nil pointer as it
is. -/
theorem derefLoop_of_not_ptr (x : Value) (h : ∀ t, x ≠ .ptr t) : derefLoop x = x := by
  cases x with
  | ptr t => exact absurd rfl (h t)
  | _ => rfl

/-- The function `indirect` on a chain of `n` non-nil pointers that ends at a
value `x` that is not a non-nil pointer: `x` itself, and for a chain of one
pointer or more that ends at a variable of interface type, the value that
the variable holds. -/
theorem indirect_chain (n : Nat) (x : Value) (h : ∀ t, x ≠ .ptr t) :
    (n = 0 → indirect (pointerChain n x) = x) ∧
    (1 ≤ n → indirect (pointerChain n x) = valueInterface x) := by
  refine ⟨?_, ?_⟩
  · intro hn
    subst hn
    cases x with
    | ptr t => exact absurd rfl (h t)
    | _ => rfl
  · intro hn
    obtain ⟨m, rfl⟩ : ∃ m, n = m + 1 := ⟨n - 1, by omega⟩
    have h1 : indirect (pointerChain (m + 1) x)
        = valueInterface (derefLoop (pointerChain (m + 1) x)) := rfl
    rw [h1, derefLoop_pointerChain, derefLoop_of_not_ptr x h]

/-- The function `indirect` on a chain of pointers that ends at a value that
is neither a non-nil pointer nor a variable of interface type. -/
theorem indirect_chain_plain (n : Nat) (x : Value) (h : ∀ t, x ≠ .ptr t)
    (hb : ∀ y, x ≠ .boxed y) : indirect (pointerChain n x) = x := by
  rcases Nat.eq_zero_or_pos n with hn | hn
  · exact (indirect_chain n x h).1 hn
  · rw [(indirect_chain n x h).2 hn]
    cases x with
    | boxed y => exact absurd rfl (hb y)
    | _ => rfl

/-- Whether a value is an array or a slice, by the shape of the value. -/
theorem isArrayOrSlice_false (x : Value) (hs : ∀ es, x ≠ .slice es)
    (ha : ∀ es, x ≠ .array es) : isArrayOrSlice x = false := by
  cases x with
  | slice es => exact absurd rfl (hs es)
  | array es => exact absurd rfl (ha es)
  | _ => rfl

/-! ## The claims -/

/-- C1: on a pool created with no options whose context is never done,
whenever `Wait` returns, the results are exactly the multiset of the values
of the tasks that returned a nil error (a permutation of them: order aside),
the combined error counts one `TaskError` per task that returned a non-nil
error, and when every task returns a nil error the combined error is nil and
all N values are returned; and `Wait` does return: from every state the batch
can be driven to completion. -/
theorem wait_no_options {T : Type} (tasks : List (TaskRet T)) (evs : List Event)
    (s : PoolState T) (rs : List T) (err : Option (List (ErrKind × GoError)))
    (hev : ∀ e ∈ evs, e.isTask = true)
    (hrun : run noOptions (initPool none tasks) evs = some s)
    (hwait : wait noOptions s = some (rs, err)) :
    rs.Perm (tasks.filterMap successValue) ∧
    errCount .taskError err = tasks.countP TaskRet.fails ∧
    ((∀ t ∈ tasks, (successValue t).isSome) → err = none ∧ rs.length = tasks.length) ∧
    (∀ (evs0 : List Event) (s0 : PoolState T),
      run noOptions (initPool none tasks) evs0 = some s0 →
      ∃ evs1 s1 r, (∀ e ∈ evs1, e.isTask = true) ∧ run noOptions s0 evs1 = some s1 ∧
        wait noOptions s1 = some r) := by
  have hA := accounted_run hrun
  have hQ := @quiet_run T noOptions rfl tasks evs s hev hrun
  obtain ⟨hp, hr, hres⟩ := wait_some hwait
  simp only [Prod.mk.injEq] at hres
  obtain ⟨hrs, herr⟩ := hres
  have hperm : rs.Perm (tasks.filterMap successValue) := by
    have h := results_perm_of_quiet noOptions hA hQ hp hr
    simp only [noOptions, Bool.false_eq_true, if_false] at h
    rw [hrs]
    exact h
  refine ⟨hperm, ?_, ?_, fun evs0 s0 _ => can_complete noOptions s0⟩
  · rw [herr, errCount_of_quiet _ hA hQ hp hr]
    simp only [taskError_iff_fails]
  · intro hall
    refine ⟨?_, ?_⟩
    · rw [herr]
      have hnil : (s.recorded.map Prod.snd).filterMap errorOf = [] := by
        have h := (outcomes_perm_of_quiet hA hQ hp hr).filterMap errorOf
        rw [filterMap_eq_nil_of_forall errorOf (tasks.map natural)] at h
        · exact List.Perm.eq_nil h
        · intro o ho
          obtain ⟨t, ht, rfl⟩ := List.mem_map.mp ho
          exact errorOf_natural_none t (hall t ht)
      rw [hnil]
      rfl
    · rw [hperm.length_eq]
      exact filterMap_length_of_forall _ _ hall

/-- C1 (witness): the test case "go tasks with errors" under one
interleaving. -/
theorem wait_no_options_witness :
    run noOptions (initPool none errBatch) errSchedule = some errFinal ∧
    wait noOptions errFinal
      = some ([0, 3, 2], some [(.taskError, errTask), (.taskError, errTask)]) ∧
    ([0, 3, 2] : List Int).Perm (errBatch.filterMap successValue) ∧
    errCount .taskError (some [(.taskError, errTask), (.taskError, errTask)])
      = errBatch.countP TaskRet.fails :=
  have h := wait_no_options errBatch errSchedule errFinal [0, 3, 2]
    (some [(.taskError, errTask), (.taskError, errTask)]) (by decide) rfl rfl
  ⟨rfl, rfl, h.1, h.2.1⟩

/-- C2: for every pool configuration, every context and every batch, when
`Wait` returns each submitted task has exactly one recorded outcome (the
recorded tasks are a permutation of the batch, so N outcomes are recorded),
and without the collect-errored-results option the number of results plus the
number of errors in the combined error is N. -/
theorem every_task_one_outcome {T : Type} (cfg : PoolConfig) (ctx : Option CtxDone)
    (tasks : List (TaskRet T)) (evs : List Event) (s : PoolState T) (rs : List T)
    (err : Option (List (ErrKind × GoError)))
    (hrun : run cfg (initPool ctx tasks) evs = some s)
    (hwait : wait cfg s = some (rs, err)) :
    (s.recorded.map Prod.fst).Perm tasks.enum ∧
    s.recorded.length = tasks.length ∧
    (cfg.collectErroredResults = false → rs.length + errTotal err = tasks.length) := by
  have hA := accounted_run hrun
  obtain ⟨hp, hr, hres⟩ := wait_some hwait
  simp only [Prod.mk.injEq] at hres
  obtain ⟨hrs, herr⟩ := hres
  have hperm := recorded_perm_of_final hA hp hr
  have hlen : s.recorded.length = tasks.length := by
    have := hperm.length_eq
    simpa using this
  refine ⟨hperm, hlen, fun hcfg => ?_⟩
  rw [hrs, herr, errTotal_combine,
    filterMap_length_add _ _ _ fun o _ => retained_xor_error cfg hcfg o]
  simpa using hlen

/-- C2 (witness): a batch with errors on a pool with a limit of two that
cancels on the first error. -/
theorem every_task_one_outcome_witness :
    run twoCancel (initPool none errBatch) cancelSchedule = some cancelFinal ∧
    wait twoCancel cancelFinal = some ([], cancelErrors) ∧
    (cancelFinal.recorded.map Prod.fst).Perm errBatch.enum ∧
    cancelFinal.recorded.length = errBatch.length ∧
    (twoCancel.collectErroredResults = false →
      ([] : List Int).length + errTotal cancelErrors = errBatch.length) :=
  ⟨rfl, rfl, every_task_one_outcome twoCancel none errBatch cancelSchedule cancelFinal []
    cancelErrors rfl rfl⟩

/-- C3 (as stated, refuted): on a pool that cancels on the first error, a
batch of a panicking task and a task returning 1: the panic is recorded, the
context is cancelled, and the sibling task is cancelled in the queue, so the
results are empty; without the panicking task the results are `[1]`. -/
theorem panic_cancels_siblings_counterexample :
    (run cancelOnly (initPool none [taskP, taskN 1]) [.start 0, .finish 0, .start 0]).bind
        (wait cancelOnly)
      = some ([], some [(.panic, .recovered "panic message"),
                        (.canceledOrTimedOut, ctxCanceled)]) ∧
    (run cancelOnly (initJobs none ([taskP, taskN 1].enum.filter Job.calm))
        [.start 0, .finish 0]).bind (wait cancelOnly) = some ([1], none) ∧
    [taskP, taskN 1].filterMap successValue = [1] ∧
    ¬ ([] : List Int).Perm [1] :=
  ⟨rfl, rfl, rfl, by simp⟩

/-- C3 (amended): on a pool without cancel-on-first-error, in every other
configuration and context: `Wait` returns normally from every reachable
state; the combined error counts exactly one `Panic` per panicking task that
was not cancelled, which is every panicking task of the batch when the
context is never done; and the results are exactly those of an execution of
the same batch with the panicking tasks absent (and, when the context is
never done, order aside the values the sibling tasks contribute). -/
theorem panic_contained {T : Type} (cfg : PoolConfig) (hcfg : cfg.cancelOnFirstErr = false)
    (ctx : Option CtxDone) (tasks : List (TaskRet T)) (evs : List Event)
    (s : PoolState T) (rs : List T) (err : Option (List (ErrKind × GoError)))
    (hrun : run cfg (initPool ctx tasks) evs = some s)
    (hwait : wait cfg s = some (rs, err)) :
    (∀ (evs0 : List Event) (s0 : PoolState T),
      run cfg (initPool ctx tasks) evs0 = some s0 →
      ∃ evs1 s1 r, (∀ e ∈ evs1, e.isTask = true) ∧ run cfg s0 evs1 = some s1 ∧
        wait cfg s1 = some r) ∧
    errCount .panic err
      = s.recorded.countP (fun p => p.1.2.isPanic && !p.2.isCanceled) ∧
    (ctx = none → (∀ e ∈ evs, e.isTask = true) →
      errCount .panic err = tasks.countP TaskRet.isPanic ∧
      rs.Perm ((tasks.filter fun t => !t.isPanic).filterMap fun t =>
        if cfg.collectErroredResults then returnedValue t else successValue t)) ∧
    (∃ evs' s' err',
      run cfg (initJobs ctx (tasks.enum.filter Job.calm)) evs' = some s' ∧
      wait cfg s' = some (rs, err')) := by
  have hA := accounted_run hrun
  have hC := classified_run hrun
  obtain ⟨hp, hr, hres⟩ := wait_some hwait
  simp only [Prod.mk.injEq] at hres
  obtain ⟨hrs, herr⟩ := hres
  refine ⟨fun evs0 s0 _ => can_complete cfg s0, ?_, ?_, ?_⟩
  · rw [herr, errCount_recorded]
    exact List.countP_congr fun p hp' => by rw [panic_outcome_iff p.1.2 p.2 (hC p hp')]
  · intro hctx hev
    subst hctx
    have hQ := quiet_run hcfg hev hrun
    refine ⟨?_, ?_⟩
    · rw [herr, errCount_of_quiet _ hA hQ hp hr]
      simp only [panic_iff_isPanic]
    · have h := results_perm_of_quiet cfg hA hQ hp hr
      rw [hrs]
      refine h.trans (List.Perm.of_eq ?_)
      symm
      apply filterMap_filter_of_none
      intro t _ ht
      have ht' : t.isPanic = true := by simpa using ht
      cases t with
      | ret v e => simp [TaskRet.isPanic] at ht'
      | panics r => simp [returnedValue, successValue]
  · obtain ⟨evs', h'⟩ := run_withoutPanics hcfg evs _ _ hrun
    obtain ⟨err', hw'⟩ := wait_withoutPanics hC hwait
    exact ⟨evs', withoutPanics s, err', h', hw'⟩

/-- C3 (amended, witness): the test case "go tasks with panic". -/
theorem panic_contained_witness :
    noOptions.cancelOnFirstErr = false ∧
    run noOptions (initPool none panicBatch) panicSchedule = some panicFinal ∧
    wait noOptions panicFinal
      = some ([0, 3, 1, 4], some [(.panic, .recovered "panic message")]) ∧
    errCount .panic (some [(.panic, .recovered "panic message")])
      = panicFinal.recorded.countP (fun p => p.1.2.isPanic && !p.2.isCanceled) ∧
    (∃ evs' s' err',
      run noOptions (initJobs none (panicBatch.enum.filter Job.calm)) evs' = some s' ∧
      wait noOptions s' = some ([0, 3, 1, 4], err')) :=
  have h := panic_contained noOptions rfl none panicBatch panicSchedule panicFinal
    [0, 3, 1, 4] (some [(.panic, .recovered "panic message")]) rfl rfl
  ⟨rfl, rfl, rfl, h.2.1, h.2.2.2⟩

/-- C4: on a pool whose context is already done before any task starts, in
every configuration no task body ever runs (the running set stays empty in
every reachable state), and when `Wait` returns the results are empty and the
combined error holds exactly N `CanceledOrTimedOut` errors, each carrying
`context.Cause` of the context (not the generic `ctx.Err()` value); and
`Wait` does return. -/
theorem done_context_cancels_all {T : Type} (cfg : PoolConfig) (d : CtxDone)
    (tasks : List (TaskRet T)) (evs : List Event) (s : PoolState T)
    (hrun : run cfg (initPool (some d) tasks) evs = some s) :
    s.running = [] ∧
    (∀ (rs : List T) (err : Option (List (ErrKind × GoError))),
      wait cfg s = some (rs, err) →
        rs = [] ∧
        err = combine (List.replicate tasks.length (ErrKind.canceledOrTimedOut, d.cause)) ∧
        errCount .canceledOrTimedOut err = tasks.length ∧
        errTotal err = tasks.length) ∧
    (∃ evs1 s1 r, (∀ e ∈ evs1, e.isTask = true) ∧ run cfg s evs1 = some s1 ∧
      wait cfg s1 = some r) := by
  obtain ⟨_, hrn, hrec⟩ := alreadyDone_run hrun
  refine ⟨hrn, ?_, can_complete cfg s⟩
  intro rs err hwait
  obtain ⟨hp, hr, hres⟩ := wait_some hwait
  simp only [Prod.mk.injEq] at hres
  obtain ⟨hrs, herr⟩ := hres
  have hlen : s.recorded.length = tasks.length := by
    have := (recorded_perm_of_final (accounted_run hrun) hp hr).length_eq
    simpa using this
  have hsnd := map_snd_of_const s.recorded _ hrec
  rw [hlen] at hsnd
  have herr' : err = combine (List.replicate tasks.length
      (ErrKind.canceledOrTimedOut, d.cause)) := by
    rw [herr, hsnd, filterMap_replicate_some errorOf (Outcome.canceledOrTimedOut d.cause)
      (ErrKind.canceledOrTimedOut, d.cause) rfl]
  refine ⟨?_, herr', ?_, ?_⟩
  · rw [hrs, hsnd, filterMap_replicate_none (retained cfg) (Outcome.canceledOrTimedOut d.cause) rfl]
  · rw [herr', errCount_replicate]
  · rw [herr', errTotal_combine, List.length_replicate]

/-- C4 (witness): the test case "go tasks with timeout". -/
theorem done_context_cancels_all_witness :
    run noOptions (initPool (some timedOut) okBatch) startAll = some timedOutFinal ∧
    timedOutFinal.running = [] ∧
    (∀ (rs : List Int) (err : Option (List (ErrKind × GoError))),
      wait noOptions timedOutFinal = some (rs, err) →
        rs = [] ∧ err = combine (List.replicate 5 (ErrKind.canceledOrTimedOut, timedOut.cause))
        ∧ errCount .canceledOrTimedOut err = 5 ∧ errTotal err = 5) :=
  have h := done_context_cancels_all noOptions timedOut okBatch startAll timedOutFinal rfl
  ⟨rfl, h.1, h.2.1⟩

/-- C5: on a pool created with the collect-errored-results option (with any
concurrency limit) whose context is never done, whenever `Wait` returns the
results are, order aside, the values returned by all tasks of the batch,
the value returned alongside a non-nil error included (all N values when no
task panics), and the combined error still counts one `TaskError` per failing
task; without the option, in every configuration and context, the recorded
outcome of a failing task contributes no value to the results. -/
theorem collect_errored_results {T : Type} (k : Nat) (tasks : List (TaskRet T))
    (evs : List Event) (s : PoolState T) (rs : List T)
    (err : Option (List (ErrKind × GoError)))
    (hev : ∀ e ∈ evs, e.isTask = true)
    (hrun : run ⟨k, false, true⟩ (initPool none tasks) evs = some s)
    (hwait : wait ⟨k, false, true⟩ s = some (rs, err)) :
    rs.Perm (tasks.filterMap returnedValue) ∧
    ((∀ t ∈ tasks, t.isPanic = false) → rs.length = tasks.length) ∧
    errCount .taskError err = tasks.countP TaskRet.fails ∧
    (∀ (cfg : PoolConfig) (ctx : Option CtxDone) (evs0 : List Event) (s0 : PoolState T),
      cfg.collectErroredResults = false →
      run cfg (initPool ctx tasks) evs0 = some s0 →
      ∀ p ∈ s0.recorded, p.1.2.fails = true → retained cfg p.2 = none) := by
  have hA := accounted_run hrun
  have hQ := @quiet_run T ⟨k, false, true⟩ rfl tasks evs s hev hrun
  obtain ⟨hp, hr, hres⟩ := wait_some hwait
  simp only [Prod.mk.injEq] at hres
  obtain ⟨hrs, herr⟩ := hres
  have hperm : rs.Perm (tasks.filterMap returnedValue) := by
    have h := results_perm_of_quiet ⟨k, false, true⟩ hA hQ hp hr
    simp only [if_true] at h
    rw [hrs]
    exact h
  refine ⟨hperm, ?_, ?_, ?_⟩
  · intro hall
    rw [hperm.length_eq]
    exact filterMap_length_of_forall _ _ fun t ht => returned_of_not_panic t (hall t ht)
  · rw [herr, errCount_of_quiet _ hA hQ hp hr]
    simp only [taskError_iff_fails]
  · intro cfg ctx evs0 s0 hcfg hrun0 p hp0 hf
    exact retained_of_fails cfg hcfg p.1.2 p.2 (classified_run hrun0 p hp0) hf

/-- C5 (witness): the test case "go tasks with errored results". -/
theorem collect_errored_results_witness :
    run collectErrored (initPool none errBatch) errSchedule = some errFinal ∧
    wait collectErrored errFinal
      = some ([4, 0, 1, 3, 2], some [(.taskError, errTask), (.taskError, errTask)]) ∧
    ([4, 0, 1, 3, 2] : List Int).Perm (errBatch.filterMap returnedValue) ∧
    errCount .taskError (some [(.taskError, errTask), (.taskError, errTask)])
      = errBatch.countP TaskRet.fails :=
  have h := collect_errored_results 0 errBatch errSchedule errFinal [4, 0, 1, 3, 2]
    (some [(.taskError, errTask), (.taskError, errTask)]) (by decide) rfl rfl
  ⟨rfl, rfl, h.1, h.2.2.1⟩

/-- C6: on a pool created with the max-goroutines option set to `k ≥ 1`, in
every reachable state of every execution at most `k` task bodies are running
(whatever the other options and the context), and on a context that is never
done `Wait` still returns, with the results of all tasks of the batch: order
aside the values of the tasks that returned a nil error, all N of them when
every task does. -/
theorem max_goroutines_bound {T : Type} (k : Nat) (hk : 1 ≤ k) (tasks : List (TaskRet T))
    (evs : List Event) (s : PoolState T)
    (hev : ∀ e ∈ evs, e.isTask = true)
    (hrun : run (maxGoroutines k) (initPool none tasks) evs = some s) :
    s.running.length ≤ k ∧
    (∃ evs1 s1 r, (∀ e ∈ evs1, e.isTask = true) ∧
      run (maxGoroutines k) s evs1 = some s1 ∧ wait (maxGoroutines k) s1 = some r) ∧
    (∀ (rs : List T) (err : Option (List (ErrKind × GoError))),
      wait (maxGoroutines k) s = some (rs, err) →
        rs.Perm (tasks.filterMap successValue) ∧
        ((∀ t ∈ tasks, (successValue t).isSome) → rs.length = tasks.length)) ∧
    (∀ (cancel collect : Bool) (ctx : Option CtxDone) (evs0 : List Event)
      (s0 : PoolState T),
      run ⟨k, cancel, collect⟩ (initPool ctx tasks) evs0 = some s0 →
      s0.running.length ≤ k) := by
  refine ⟨@withinLimit_run T (maxGoroutines k) hk none tasks evs s hrun,
    can_complete _ s, ?_, ?_⟩
  · intro rs err hwait
    have hA := accounted_run hrun
    have hQ := @quiet_run T (maxGoroutines k) rfl tasks evs s hev hrun
    obtain ⟨hp, hr, hres⟩ := wait_some hwait
    simp only [Prod.mk.injEq] at hres
    have hperm : rs.Perm (tasks.filterMap successValue) := by
      have h := results_perm_of_quiet (maxGoroutines k) hA hQ hp hr
      simp only [maxGoroutines, Bool.false_eq_true, if_false] at h
      rw [hres.1]
      exact h
    refine ⟨hperm, fun hall => ?_⟩
    rw [hperm.length_eq]
    exact filterMap_length_of_forall _ _ hall
  · intro cancel collect ctx evs0 s0 hrun0
    exact @withinLimit_run T ⟨k, cancel, collect⟩ hk ctx tasks evs0 s0 hrun0

/-- C6 (witness): the test case "go tasks with max less than tasks" part of
the way through: two bodies running, one task queued. -/
theorem max_goroutines_bound_witness :
    1 ≤ 2 ∧
    run (maxGoroutines 2) (initPool none okBatch) limitedSchedule = some limitedState ∧
    limitedState.running.length ≤ 2 :=
  ⟨by decide, rfl,
    (max_goroutines_bound 2 (by decide) okBatch limitedSchedule limitedState
      (by decide) rfl).1⟩

/-- C7: on a pool that cancels on the first error, in every execution that
starts on a context that is not done: once a task error (or panic) is
recorded the context is cancelled by the pool, and from then on every task
that has not yet completed resolves to `CanceledOrTimedOut`: no body starts
any more (a task still queued never runs its body), and the outcome recorded
for every task that was queued or running is `CanceledOrTimedOut` carrying
`context.Canceled`, the late result of a body that runs on being discarded;
every recorded `TaskError` is the value and error that the body of its task
returned, and the combined error counts as `TaskError` exactly those, one per
failing task that was not cancelled; the number of results is never greater
than the number obtained for the same batch without the option on a context
that is never done; and `Wait` does return. -/
theorem cancel_on_first_error {T : Type} (cfg : PoolConfig)
    (hcfg : cfg.cancelOnFirstErr = true) (tasks : List (TaskRet T))
    (evs1 evs2 : List Event) (s1 s2 : PoolState T)
    (hrun1 : run cfg (initPool none tasks) evs1 = some s1)
    (hrun2 : run cfg s1 evs2 = some s2) :
    ((∃ p ∈ s1.recorded, p.2.isFailure = true) →
      s1.ctx = some firstErrCancel ∧ s2.ctx = some firstErrCancel ∧
      s2.running.Sublist s1.running ∧
      (∀ job ∈ s1.pending, job ∉ s2.running) ∧
      ∀ job o, (job, o) ∈ s2.recorded → job ∈ s1.pending ∨ job ∈ s1.running →
        o = Outcome.canceledOrTimedOut ctxCanceled) ∧
    (∀ job v e, (job, Outcome.taskError v e) ∈ s2.recorded → job.2 = TaskRet.ret v (some e)) ∧
    (∀ (rs : List T) (err : Option (List (ErrKind × GoError))),
      wait cfg s2 = some (rs, err) →
        errCount .taskError err
          = s2.recorded.countP (fun p => p.1.2.fails && !p.2.isCanceled) ∧
        errCount .taskError err ≤ tasks.countP TaskRet.fails ∧
        ∀ (evs0 : List Event) (s0 : PoolState T) (rs0 : List T)
          (err0 : Option (List (ErrKind × GoError))),
          (∀ e ∈ evs0, e.isTask = true) →
          run ⟨cfg.concurrencyLimit, false, cfg.collectErroredResults⟩
            (initPool none tasks) evs0 = some s0 →
          wait ⟨cfg.concurrencyLimit, false, cfg.collectErroredResults⟩ s0
            = some (rs0, err0) →
          rs.length ≤ rs0.length) ∧
    (∃ evs3 s3 r, (∀ e ∈ evs3, e.isTask = true) ∧ run cfg s2 evs3 = some s3 ∧
      wait cfg s3 = some r) := by
  have hrun : run cfg (initPool none tasks) (evs1 ++ evs2) = some s2 := by
    simp [run_append, hrun1, hrun2]
  have hA1 := accounted_run hrun1
  have hA2 := accounted_run hrun
  have hC2 := classified_run hrun
  refine ⟨?_, ?_, ?_, can_complete cfg s2⟩
  · intro hfail
    have hd := fired_run hcfg hrun1 hfail
    obtain ⟨hctx2, hsub, hrec⟩ := afterDone_run hd hrun2
    have hnd := accounted_nodup hA1
    have hnd' := hnd
    rw [List.append_assoc] at hnd'
    have hdis := List.disjoint_of_nodup_append hnd'
    have hdis2 := List.disjoint_of_nodup_append hnd
    refine ⟨hd, hctx2, hsub, ?_, ?_⟩
    · intro job hjob hrun'
      exact hdis hjob (List.mem_append_left _ (hsub.subset hrun'))
    · intro job o ho hjob
      rcases hrec (job, o) ho with h | h
      · have hmem : job ∈ s1.recorded.map Prod.fst := List.mem_map_of_mem Prod.fst h
        rcases hjob with hj | hj
        · exact absurd (List.mem_append_right _ hmem) (hdis hj)
        · exact absurd hmem (hdis2 (List.mem_append_right _ hj))
      · exact h
  · intro job v e hmem
    rcases hC2 (job, Outcome.taskError v e) hmem with h | ⟨c, h⟩
    · simp only at h
      cases hj : job.2 with
      | ret v' err =>
        rw [hj] at h
        cases err with
        | none => simp [natural] at h
        | some e' =>
          simp only [natural, Outcome.taskError.injEq] at h
          rw [h.1, h.2]
      | panics r =>
        rw [hj] at h
        simp [natural] at h
    · simp at h
  · intro rs err hwait
    obtain ⟨hp, hr, hres⟩ := wait_some hwait
    simp only [Prod.mk.injEq] at hres
    obtain ⟨hrs, herr⟩ := hres
    have hcount : errCount .taskError err
        = s2.recorded.countP (fun p => p.1.2.fails && !p.2.isCanceled) := by
      rw [herr, errCount_recorded]
      exact List.countP_congr fun p hp' => by
        rw [taskError_outcome_iff p.1.2 p.2 (hC2 p hp')]
    refine ⟨hcount, ?_, ?_⟩
    · rw [hcount]
      exact taskErrors_le hA2 hp hr
    · intro evs0 s0 rs0 err0 hev0 hrun0 hwait0
      obtain ⟨hp0, hr0, hres0⟩ := wait_some hwait0
      simp only [Prod.mk.injEq] at hres0
      have hQ0 := @quiet_run T ⟨cfg.concurrencyLimit, false, cfg.collectErroredResults⟩
        rfl tasks evs0 s0 hev0 hrun0
      have hperm := results_perm_of_quiet
        ⟨cfg.concurrencyLimit, false, cfg.collectErroredResults⟩
        (accounted_run hrun0) hQ0 hp0 hr0
      rw [hres0.1, hperm.length_eq, hrs]
      exact results_length_le cfg hA2 hC2 hp hr

/-- C7 (witness): the batch `[taskE 0, taskN 1]` on a pool that cancels on
the first error: both bodies start, task 0 fails, which cancels the context
while task 1 is running; the body of task 1 then runs on to its end, its late
result is discarded and task 1 resolves to `CanceledOrTimedOut`; `Wait`
returns no result and one `TaskError`. -/
theorem cancel_on_first_error_witness :
    cancelOnly.cancelOnFirstErr = true ∧
    run cancelOnly (initPool none [taskE 0, taskN 1]) [.start 0, .start 0, .finish 0]
      = some spareMid ∧
    (∃ p ∈ spareMid.recorded, p.2.isFailure = true) ∧
    run cancelOnly spareMid [.finish 0] = some spareFinal ∧
    ((1, taskN 1), Outcome.canceledOrTimedOut ctxCanceled) ∈ spareFinal.recorded ∧
    (∀ o, (((1, taskN 1) : Job Int), o) ∈ spareFinal.recorded →
      o = Outcome.canceledOrTimedOut ctxCanceled) ∧
    wait cancelOnly spareFinal
      = some ([], some [(.taskError, errTask), (.canceledOrTimedOut, ctxCanceled)]) ∧
    errCount .taskError (some [(.taskError, errTask), (.canceledOrTimedOut, ctxCanceled)])
      = spareFinal.recorded.countP (fun p => p.1.2.fails && !p.2.isCanceled) :=
  have hfail : ∃ p ∈ spareMid.recorded, p.2.isFailure = true :=
    ⟨((0, taskE 0), .taskError 0 errTask), by simp [spareMid], rfl⟩
  have h := cancel_on_first_error cancelOnly rfl [taskE 0, taskN 1]
    [.start 0, .start 0, .finish 0] [.finish 0] spareMid spareFinal rfl rfl
  ⟨rfl, rfl, hfail, rfl, by simp [spareFinal],
    fun o ho => (h.1 hfail).2.2.2.2 (1, taskN 1) o ho (Or.inr (by simp [spareMid])),
    rfl, (h.2.2.1 [] _ rfl).1⟩

/-- C8 (the code at the failing input): with `T` an interface type and a
`call` that succeeds at once with the nil interface value, `SingleDo` invokes
`call` once and returns an error, "expected type <nil> but got type <nil>",
instead of `(nil, nil)`: the type assertion `result.(T)` fails on the nil
interface value.  With a nil pointer the value is returned. -/
theorem singleDo_nil_interface :
    errorIface.holds none = true ∧
    invocations 64 neverDone callNil 0 = 1 ∧
    SingleDo errorIface 64 neverDone callNil 0
      = (none, some (.withStack (.leaf "expected type <nil> but got type <nil>"))) ∧
    SingleDo (.concrete "*T") 64 neverDone callNilPtr 0 = (some ⟨"*T", 0⟩, none) :=
  ⟨rfl, rfl, rfl, rfl⟩

/-- C9 (the code at the failing input): on a 64-bit word with
`retry = 2^63`, `int(retry)` is negative, the loop body never runs: `call`,
which would fail on every attempt, is not invoked at all, and `SingleDo`
returns the type-assertion error instead of the error of `call`. -/
theorem singleDo_retry_overflow :
    toInt 64 (2 ^ 63) = -(2 ^ 63) ∧
    invocations 64 neverDone callBoom (2 ^ 63) = 0 ∧
    SingleDo (.concrete "int") 64 neverDone callBoom (2 ^ 63)
      = (some ⟨"int", 0⟩,
         some (.withStack (.leaf "expected type int but got type <nil>"))) :=
  ⟨by decide, by decide, by decide⟩

/-- C10: when `ctx.Done()` fires during the retry wait that follows the
failed attempt `i`, and the error `e` of that attempt and `ctx.Err()` are
both the deadline error or both the cancel error (as `errors.Is` sees them),
`SingleDo` makes no further invocation of `call` (it was invoked `i + 1`
times) and returns `e` unchanged with the zero value of `T`. -/
theorem singleDo_ctx_done_same_cause (T : GoType) (w : Nat) (sel : Nat → Option CtxErr)
    (call : Nat → GoAny × Option GoError) (retry i : Nat) (r : GoAny) (e : GoError)
    (ce : CtxErr) (hi : (i : Int) < toInt w retry)
    (hfail : ∀ m < i, ∃ r' e', call m = (r', some e'))
    (hsel : ∀ m < i, sel m = none)
    (hlast : call i = (r, some e)) (hdone : sel i = some ce)
    (hsame : (errorsIs .deadlineExceeded e = true ∧ ce = .deadlineExceeded) ∨
      (errorsIs .canceled e = true ∧ ce = .canceled)) :
    SingleDo T w sel call retry = (T.zero, some e) ∧
    invocations w sel call retry = i + 1 := by
  have h := flight_ctx_done w sel call retry i r e ce hi hfail hsel hlast hdone
  have hswitch : onCtxDone e ce = e := by
    rcases hsame with ⟨he, rfl⟩ | ⟨he, rfl⟩
    · simp [onCtxDone, he, CtxErr.toError, ctxDeadlineExceeded, errorsIs]
    · simp [onCtxDone, he, CtxErr.toError, ctxCanceled, errorsIs]
  simp [SingleDo, invocations, h, receive, hswitch]

/-- C10 (witness): the context is cancelled during the wait after the second
attempt, whose error wraps `context.Canceled`. -/
theorem singleDo_ctx_done_same_cause_witness :
    ((1 : Nat) : Int) < toInt 64 5 ∧
    SingleDo (.concrete "int") 64 cancelDuringSecondWait callCanceled 5
      = ((GoType.concrete "int").zero, some (.withStack .canceled)) ∧
    invocations 64 cancelDuringSecondWait callCanceled 5 = 1 + 1 :=
  ⟨by decide,
   singleDo_ctx_done_same_cause (.concrete "int") 64 cancelDuringSecondWait callCanceled 5 1
     none (.withStack .canceled) .canceled (by decide)
     (fun _ _ => ⟨none, .withStack .canceled, rfl⟩)
     (fun m hm => by
       have : m = 0 := by omega
       subst this
       rfl)
     rfl rfl (Or.inr ⟨rfl, rfl⟩)⟩

/-- C11 (as stated, refuted): on a context made with `WithTimeoutCause` whose
cause is the error "timeout", with a call that fails with "boom", the error
`SingleDo` returns when the deadline passes during the first wait carries the
text of `ctx.Err()`, "context deadline exceeded", and not the cause: it is
not the task error wrapped with the text of `context.Cause(ctx)`. -/
theorem singleDo_wraps_ctx_err_counterexample :
    timeoutWithCause 0 = some ⟨.deadlineExceeded, .leaf "timeout"⟩ ∧
    SingleDoOn (.concrete "int") 64 timeoutWithCause callBoom 3
      = (some ⟨"int", 0⟩, some (.withMessage (.leaf "boom") "context deadline exceeded")) ∧
    (GoError.withMessage (.leaf "boom") "context deadline exceeded").message
      = "context deadline exceeded: boom" ∧
    GoError.withMessage (.leaf "boom") "context deadline exceeded"
      ≠ GoError.withMessage (.leaf "boom") (GoError.leaf "timeout").message :=
  ⟨rfl, rfl, by decide, by decide⟩

/-- C11 (amended): when `ctx.Done()` fires during the retry wait that follows
the failed attempt `i`, and the error `e` of that attempt and `ctx.Err()` are
not both the deadline error and not both the cancel error, `SingleDo` makes
no further invocation of `call` and returns the zero value of `T` with `e`
wrapped by `errors.WithMessage` with the text of `ctx.Err()` ("context
canceled" or "context deadline exceeded"): the task error stays in the error
chain, so `errors.Is` sees what it sees in `e`, and the text of the returned
error is the text of `ctx.Err()`, ": " and the text of `e`. -/
theorem singleDo_ctx_done_other_cause (T : GoType) (w : Nat) (sel : Nat → Option CtxErr)
    (call : Nat → GoAny × Option GoError) (retry i : Nat) (r : GoAny) (e : GoError)
    (ce : CtxErr) (hi : (i : Int) < toInt w retry)
    (hfail : ∀ m < i, ∃ r' e', call m = (r', some e'))
    (hsel : ∀ m < i, sel m = none)
    (hlast : call i = (r, some e)) (hdone : sel i = some ce)
    (hdiff : ¬ ((errorsIs .deadlineExceeded e = true ∧ ce = .deadlineExceeded) ∨
      (errorsIs .canceled e = true ∧ ce = .canceled))) :
    SingleDo T w sel call retry = (T.zero, some (.withMessage e ce.message)) ∧
    invocations w sel call retry = i + 1 ∧
    (∀ target, errorsIs target (.withMessage e ce.message) = errorsIs target e) ∧
    (GoError.withMessage e ce.message).message = ce.message ++ ": " ++ e.message := by
  have h := flight_ctx_done w sel call retry i r e ce hi hfail hsel hlast hdone
  rw [onCtxDone_differs e ce hdiff] at h
  refine ⟨?_, ?_, fun target => rfl, rfl⟩
  · simp [SingleDo, h, receive]
  · simp [invocations, h]

/-- C11 (amended, witness): the deadline passes during the first wait after
an attempt that failed with "boom". -/
theorem singleDo_ctx_done_other_cause_witness :
    ((0 : Nat) : Int) < toInt 64 3 ∧
    SingleDo (.concrete "int") 64 (fun i => (timeoutWithCause i).map CtxDone.err) callBoom 3
      = ((GoType.concrete "int").zero,
         some (.withMessage (.leaf "boom") CtxErr.deadlineExceeded.message)) ∧
    invocations 64 (fun i => (timeoutWithCause i).map CtxDone.err) callBoom 3 = 0 + 1 :=
  have h := singleDo_ctx_done_other_cause (.concrete "int") 64
    (fun i => (timeoutWithCause i).map CtxDone.err) callBoom 3 0 none (.leaf "boom")
    .deadlineExceeded (by decide) (fun m hm => absurd hm (Nat.not_lt_zero m))
    (fun m hm => absurd hm (Nat.not_lt_zero m)) rfl rfl (by decide)
  ⟨by decide, h.1, h.2.1⟩

/-- C12: a caller of `SingleDo` with result type `T` that receives from the
shared execution a nil error and a result that is not a value of `T` (its
dynamic type is not `T`, or does not implement `T`) returns the zero value of
`T` and the non-nil error "expected type ... but got type ..."; and whatever
it receives, the data it returns is a value of `T`, never one of another
type. -/
theorem singleDo_type_mismatch (T : GoType) (result : GoAny)
    (h : T.holds result = false) :
    receive T result none
      = (T.zero, some (.withStack (.leaf (mismatchMessage T result)))) ∧
    mismatchMessage T result
      = "expected type " ++ typeName T.zero ++ " but got type " ++ typeName result ∧
    (∀ (r : GoAny) (e : Option GoError), T.holds (receive T r e).1 = true) := by
  refine ⟨?_, rfl, receive_holds T⟩
  simp [receive, assert_of_not_holds T result h]

/-- C12 (witness): a caller with result type `string` joins a flight that
returns an `int`. -/
theorem singleDo_type_mismatch_witness :
    (GoType.concrete "string").holds sharedInt = false ∧
    receive (.concrete "string") sharedInt none
      = (some ⟨"string", 0⟩,
         some (.withStack (.leaf "expected type string but got type int"))) :=
  ⟨by decide, (singleDo_type_mismatch (.concrete "string") sharedInt (by decide)).1⟩

/-- C13 (as stated, refuted): two calls of `SingleDo` on one key that overlap
in time.  First, when the first caller passed a `ttl` and the timer fires
while its execution is running, the key is forgotten and the second caller
starts an execution of its own: two executions are in flight.  Second, when
the second caller joins the execution of the first but has another result
type, the first receives `(5, nil)` and the second the zero value and a type
error: the callers do not receive the identical result and error. -/
theorem overlapping_calls_counterexample :
    ((runGroup emptyGroup [.arrive callerInt, .forget 0, .arrive callerString]).map
        fun g => g.flights.map fun fr => (fr.callers.length, fr.done))
      = some [(1, false), (1, false)] ∧
    ((runGroup emptyGroup [.arrive callerInt, .arrive callerString, .complete 0]).map
        fun g => g.flights.map fun fr => (fr.done, fr.callers.map (fr.returned 64)))
      = some [(true, [(some ⟨"int", 5⟩, none),
                      (some ⟨"string", 0⟩,
                       some (.withStack (.leaf "expected type string but got type int")))])] :=
  ⟨rfl, rfl⟩

/-- C13 (amended): in a group in which no `ttl` timer has fired, at every
moment at most one execution for the key is in flight, and a caller that
arrives while it is in flight joins it and starts no execution of its own;
when `N ≥ 1` callers arrive before the execution of the first returns, the
group runs exactly one execution, with all `N` callers blocked on it.  Every
execution has a first caller; the function that runs is the one of the first
caller, so `call` is invoked as often as for the first caller alone and the
`call` of no other caller is invoked.  Every caller blocked on the execution
receives: the error of the execution when it is non-nil, with the zero value
of its own type `T`; otherwise the shared result itself when that is a
non-nil value of its `T`; otherwise the zero value and the type-mismatch
error.  So callers with the same `T`, and callers whose `T` all hold the
result, receive the identical result and error, and a caller with the `T` of
the first caller receives what `SingleDo` returns to the first caller.  Once
the `ttl` timer of the running execution fires, the key is forgotten and a
caller that arrives then starts a second execution while the first is still
running. -/
theorem single_flight_shared (w : Nat) (evs : List GroupEvent) (g : Group)
    (hkeep : ∀ e ∈ evs, e.keeps = true)
    (hrun : runGroup emptyGroup evs = some g) :
    (∀ (f1 f2 : Nat) (fr1 fr2 : Shared), g.flights[f1]? = some fr1 → g.flights[f2]? = some fr2 →
      fr1.done = false → fr2.done = false → f1 = f2) ∧
    (∀ (f : Nat) (fr : Shared) (c : Caller) (g' : Group),
      g.flights[f]? = some fr → fr.done = false →
      groupStep g (.arrive c) = some g' →
      g'.flights.length = g.flights.length ∧
      g'.flights[f]? = some { fr with callers := fr.callers ++ [c] }) ∧
    (∀ (c0 : Caller) (rest : List Caller),
      runGroup emptyGroup ((c0 :: rest).map GroupEvent.arrive ++ [.complete 0])
        = some ⟨none, [⟨c0 :: rest, true, false⟩]⟩) ∧
    (∀ fr ∈ g.flights, fr.callers ≠ [] ∧ ∀ ex, fr.callers.head? = some ex →
      (fr.outcome w).calls = invocations w ex.sel ex.call ex.retry ∧
      ∀ c ∈ fr.callers,
        (∀ e, (flight w ex.sel ex.call ex.retry).err = some e →
          fr.returned w c = (c.typ.zero, some e)) ∧
        (∀ d, (flight w ex.sel ex.call ex.retry).err = none →
          (flight w ex.sel ex.call ex.retry).result = some d →
          c.typ.holds (some d) = true → fr.returned w c = (some d, none)) ∧
        ((flight w ex.sel ex.call ex.retry).err = none →
          ((flight w ex.sel ex.call ex.retry).result = none ∨
            c.typ.holds (flight w ex.sel ex.call ex.retry).result = false) →
          fr.returned w c = (c.typ.zero, some (.withStack (.leaf
            (mismatchMessage c.typ (flight w ex.sel ex.call ex.retry).result))))) ∧
        (c.typ = ex.typ → fr.returned w c = SingleDo ex.typ w ex.sel ex.call ex.retry)) ∧
    (∀ fr ∈ g.flights, ∀ c1 ∈ fr.callers, ∀ c2 ∈ fr.callers,
      (c1.typ = c2.typ → fr.returned w c1 = fr.returned w c2) ∧
      (∀ d, (fr.outcome w).err = none → (fr.outcome w).result = some d →
        c1.typ.holds (some d) = true → c2.typ.holds (some d) = true →
        fr.returned w c1 = fr.returned w c2)) ∧
    (∀ (f : Nat) (fr : Shared) (c : Caller),
      g.flights[f]? = some fr → fr.done = false → fr.timer = true →
      (groupStep g (.forget f)).bind (fun g1 => groupStep g1 (.arrive c))
        = some ⟨some g.flights.length,
            g.flights.set f { fr with timer := false } ++ [⟨[c], false, c.ttl⟩]⟩) := by
  have hR := registered_run evs g hkeep hrun
  have hN := callers_ne_nil_run evs g hrun
  refine ⟨?_, ?_, arrive_all_one_flight, ?_, ?_, ?_⟩
  · intro f1 f2 fr1 fr2 h1 h2 hd1 hd2
    have e1 := (hR f1 fr1 h1).mp hd1
    have e2 := (hR f2 fr2 h2).mp hd2
    rw [e1] at e2
    exact Option.some.inj e2
  · intro f fr c g' hf hd hstep
    have hentry := (hR f fr hf).mp hd
    simp only [groupStep, hentry, hf, Option.some.injEq] at hstep
    subst hstep
    have hlt : f < g.flights.length := (List.getElem?_eq_some_iff.mp hf).1
    exact ⟨by simp, by simp [List.getElem?_set, hlt]⟩
  · intro fr hfr
    refine ⟨hN fr hfr, fun ex hex => ⟨?_, fun c _ => returned_cases w fr ex c hex⟩⟩
    simp [Shared.outcome, hex, invocations]
  · intro fr hfr c1 _ c2 _
    refine ⟨fun hT => by simp [Shared.returned, hT], ?_⟩
    intro d he hd h1 h2
    simp [Shared.returned, receive, he, hd, assert_of_holds c1.typ d h1,
      assert_of_holds c2.typ d h2]
  · intro f fr c hf hd ht
    simp [groupStep, hf, hd, ht]

/-- C13 (amended, witness): three callers arrive one after the other before
the execution of the first returns, the first with result type `int`, the
second with `string`, the third with an interface type that `int`
implements: one execution runs, with the `call` of the first; the first and
the third receive the identical `(5, nil)`, the second the zero value and
the type-mismatch error; and when the execution of the first caller fails, a
second caller with another result type receives the error of the execution,
not a type-mismatch error. -/
theorem single_flight_shared_witness :
    runGroup emptyGroup
      [.arrive callerInt, .arrive callerString, .arrive callerAny, .complete 0]
      = some mixedDone ∧
    mixedDone.flights.length = 1 ∧
    Shared.returned 64 ⟨[callerInt, callerString, callerAny], true, false⟩ callerInt
      = (some ⟨"int", 5⟩, none) ∧
    Shared.returned 64 ⟨[callerInt, callerString, callerAny], true, false⟩ callerAny
      = (some ⟨"int", 5⟩, none) ∧
    Shared.returned 64 ⟨[callerInt, callerString, callerAny], true, false⟩ callerString
      = (some ⟨"string", 0⟩,
         some (.withStack (.leaf "expected type string but got type int"))) ∧
    runGroup emptyGroup [.arrive callerBoom, .arrive callerString, .complete 0]
      = some boomDone ∧
    Shared.returned 64 ⟨[callerBoom, callerString], true, false⟩ callerString
      = (some ⟨"string", 0⟩, some (.leaf "boom")) :=
  have hb := (single_flight_shared 64
    [.arrive callerBoom, .arrive callerString, .complete 0] boomDone
    (by decide) rfl).2.2.2.1 ⟨[callerBoom, callerString], true, false⟩
    (List.mem_singleton.mpr rfl)
  have h := (single_flight_shared 64
    [.arrive callerInt, .arrive callerString, .arrive callerAny, .complete 0] mixedDone
    (by decide) rfl).2.2.2.1 ⟨[callerInt, callerString, callerAny], true, false⟩
    (List.mem_singleton.mpr rfl)
  ⟨rfl, rfl,
    ((h.2 callerInt rfl).2 callerInt (by simp)).2.1 ⟨"int", 5⟩ rfl rfl rfl,
    ((h.2 callerInt rfl).2 callerAny (by simp)).2.1 ⟨"int", 5⟩ rfl rfl rfl,
    ((h.2 callerInt rfl).2 callerString (by simp)).2.2.1 rfl (Or.inr rfl),
    rfl,
    ((hb.2 callerBoom rfl).2 callerString (by simp)).1 (.leaf "boom") rfl⟩

/-- C14: for every string `s` and flag `trimSpace`, `InterfaceStripTags` gives
the HTML-escaped form of `s'`, where `s'` is `s` without its leading and
trailing white space when `trimSpace` is set and `s` itself otherwise: each
of `&`, `<`, `>`, the double quote and the apostrophe is replaced by `&amp;`,
`&lt;`, `&gt;`, `&#34;`, `&#39;`, and every other character is kept in place;
so the string of the example becomes
`&lt;script&gt;alert()&lt;/script&gt;Yamada`. -/
theorem interfaceStripTags_string (s : String) (trimSpace : Bool) :
    (∃ t : List Char,
      (trimSpace = true → IsTrimOf s.data t) ∧ (trimSpace = false → t = s.data) ∧
      InterfaceStripTags (.str s) trimSpace = .str ⟨t.flatMap escapeChar⟩) ∧
    escapeChar '&' = "&amp;".data ∧ escapeChar '<' = "&lt;".data ∧
    escapeChar '>' = "&gt;".data ∧ escapeChar doubleQuote = "&#34;".data ∧
    escapeChar apostrophe = "&#39;".data ∧
    (∀ c, c ≠ '&' → c ≠ '<' → c ≠ '>' → c ≠ doubleQuote → c ≠ apostrophe →
      escapeChar c = [c]) ∧
    InterfaceStripTags (.str "<script>alert()</script>Yamada") trimSpace
      = .str "&lt;script&gt;alert()&lt;/script&gt;Yamada" := by
  refine ⟨?_, rfl, rfl, rfl, rfl, rfl,
    fun c h1 h3 h4 h5 h2 => escapeChar_other c h1 h2 h3 h4 h5, ?_⟩
  · cases trimSpace with
    | true =>
      refine ⟨(s.data.dropWhile isSpace).rdropWhile isSpace, fun _ => ?_, fun h => ?_, ?_⟩
      · exact trim_spec isSpace s.data
      · cases h
      · simp [InterfaceStripTags, htmlEscapeString, stringsTrimSpace]
    | false =>
      refine ⟨s.data, fun h => ?_, fun _ => rfl, ?_⟩
      · cases h
      · simp [InterfaceStripTags, htmlEscapeString]
  · cases trimSpace <;> rfl

/-- C15: for a request whose content type contains `application/json`
(compared in lower case) and whose body decodes without error: when the
decoded value is not an object (an array, a string, a number, a boolean or
null) `PostDataStripTags` returns a nil map and the error
"ERROR: JSON syntax error"; when it is an object it returns that object with
`InterfaceStripTags` applied (keys kept, values stripped) and a nil error. -/
theorem postData_object_or_error (toLower : String → String)
    (decode : List Nat → Decoded) (req : Request) (trimSpace : Bool) (bytes : List Nat)
    (hct : stringsContains (toLower req.contentType) "application/json" = true)
    (hbody : req.body = some bytes) (hok : (decode bytes).err = none) :
    ((decode bytes).value.isDict = false →
      (PostDataStripTags toLower decode req trimSpace).1
        = (none, some (.leaf "ERROR: JSON syntax error"))) ∧
    (∀ kvs, (decode bytes).value = .dict kvs →
      (PostDataStripTags toLower decode req trimSpace).1
        = (some (stripEntries kvs trimSpace), none) ∧
      InterfaceStripTags (.dict kvs) trimSpace = .dict (stripEntries kvs trimSpace)) := by
  refine ⟨fun hnd => ?_, fun kvs hv => ?_⟩
  · have hne := strip_not_dict (decode bytes).value trimSpace hnd
    simp only [PostDataStripTags, hct, if_true, hbody, hok]
  · have hs : InterfaceStripTags (.dict kvs) trimSpace = .dict (stripEntries kvs trimSpace) := by
      simp [InterfaceStripTags]
    refine ⟨?_, hs⟩
    simp only [PostDataStripTags, hct, if_true, hbody, hok, hv, hs]

/-- C15 (witness): a body that decodes to the object with the entry
"a": " <b> ", and a body that decodes to an array. -/
theorem postData_object_or_error_witness :
    stringsContains (asciiLower shortRequest.contentType) "application/json" = true ∧
    (PostDataStripTags asciiLower firstBlock shortRequest true).1
      = (some [("a", .str "&lt;b&gt;")], none) ∧
    (PostDataStripTags asciiLower arrayDecoder arrayRequest true).1
      = (none, some (.leaf "ERROR: JSON syntax error")) :=
  ⟨rfl,
   ((postData_object_or_error asciiLower firstBlock shortRequest true objectBytes
      rfl rfl rfl).2 [("a", .str " <b> ")] rfl).1,
   (postData_object_or_error asciiLower arrayDecoder arrayRequest true arrayBytes
      rfl rfl rfl).1 rfl⟩

set_option maxRecDepth 8000 in
/-- C16 (the code at the failing input): a JSON request whose body of 600
bytes is an object followed by spaces.  The decoder has read 512 bytes when
the object is complete; `PostDataStripTags` succeeds and leaves as the body
the 512 bytes of the buffer, not the 600 bytes of the original body.  On a
body that the decoder has read to its end, the body is restored. -/
theorem postData_body_truncated :
    (PostDataStripTags asciiLower firstBlock longRequest true).1
      = (some [("a", .str "&lt;b&gt;")], none) ∧
    (PostDataStripTags asciiLower firstBlock longRequest true).2.body
      = some (longBody.take 512) ∧
    (longBody.take 512).length = 512 ∧ longBody.length = 600 ∧
    (PostDataStripTags asciiLower firstBlock shortRequest true).2.body
      = some objectBytes :=
  ⟨rfl, rfl, rfl, rfl, rfl⟩

/-- C17: every value is a chain of `n ≥ 0` non-nil pointers that ends at a
value `x` that is not a non-nil pointer, and `ConvertInterfaceToSlice`
follows the pointers: when `x` is a slice or an array it returns `x` itself,
unchanged and not wrapped; when `x` is any other value (nil, a nil pointer, a
value of a basic or other type) it returns a slice whose one element is `x`;
when the chain (of one pointer or more) ends at a variable of interface type
it does the same with the value `y` that the variable holds.  For nil it
returns a slice holding nil, and applying it twice gives what applying it
once gives. -/
theorem convertInterfaceToSlice_spec (v : Value) :
    (∃ n x, v = pointerChain n x ∧ ∀ t, x ≠ .ptr t) ∧
    (∀ n es, v = pointerChain n (.slice es) → ConvertInterfaceToSlice v = .slice es) ∧
    (∀ n es, v = pointerChain n (.array es) → ConvertInterfaceToSlice v = .array es) ∧
    (∀ n x, v = pointerChain n x → (∀ t, x ≠ .ptr t) → (∀ y, x ≠ .boxed y) →
      (∀ es, x ≠ .slice es) → (∀ es, x ≠ .array es) →
      ConvertInterfaceToSlice v = .slice [x]) ∧
    (∀ n es, v = pointerChain (n + 1) (.boxed (.slice es)) →
      ConvertInterfaceToSlice v = .slice es) ∧
    (∀ n es, v = pointerChain (n + 1) (.boxed (.array es)) →
      ConvertInterfaceToSlice v = .array es) ∧
    (∀ n y, v = pointerChain (n + 1) (.boxed y) →
      (∀ es, y ≠ .slice es) → (∀ es, y ≠ .array es) →
      ConvertInterfaceToSlice v = .slice [y]) ∧
    (v = .nil → ConvertInterfaceToSlice v = .slice [.nil]) ∧
    ConvertInterfaceToSlice (ConvertInterfaceToSlice v) = ConvertInterfaceToSlice v := by
  refine ⟨⟨ptrDepth v, derefLoop v, pointerChain_decompose v, derefLoop_not_ptr v⟩,
    ?_, ?_, ?_, ?_, ?_, ?_, ?_, ?_⟩
  · rintro n es rfl
    have h := indirect_chain_plain n (.slice es) (by simp) (by simp)
    simp [ConvertInterfaceToSlice, h, isArrayOrSlice]
  · rintro n es rfl
    have h := indirect_chain_plain n (.array es) (by simp) (by simp)
    simp [ConvertInterfaceToSlice, h, isArrayOrSlice]
  · rintro n x rfl hp hb hs ha
    have h := indirect_chain_plain n x hp hb
    simp [ConvertInterfaceToSlice, h, isArrayOrSlice_false x hs ha]
  · rintro n es rfl
    have h := (indirect_chain (n + 1) (.boxed (.slice es)) (by simp)).2 (by omega)
    simp [ConvertInterfaceToSlice, h, valueInterface, isArrayOrSlice]
  · rintro n es rfl
    have h := (indirect_chain (n + 1) (.boxed (.array es)) (by simp)).2 (by omega)
    simp [ConvertInterfaceToSlice, h, valueInterface, isArrayOrSlice]
  · rintro n y rfl hs ha
    have h := (indirect_chain (n + 1) (.boxed y) (by simp)).2 (by omega)
    simp [ConvertInterfaceToSlice, h, valueInterface, isArrayOrSlice_false y hs ha]
  · rintro rfl
    rfl
  · have hres : isArrayOrSlice (ConvertInterfaceToSlice v) = true := by
      unfold ConvertInterfaceToSlice
      split
      · assumption
      · rfl
    exact convert_of_arrayOrSlice _ hres

/-- C17 (witness): a pointer to a pointer to a slice gives the slice itself,
a pointer to a pointer to the `int` 1 gives a slice holding 1, a pointer to
a variable of interface type that holds a slice gives that slice, a nil
pointer gives a slice holding the nil pointer. -/
theorem convertInterfaceToSlice_spec_witness :
    ConvertInterfaceToSlice slicePtrPtr = .slice [.int .int 1, .int .int 2] ∧
    ConvertInterfaceToSlice (.ptr (.ptr (.int .int 1))) = .slice [.int .int 1] ∧
    ConvertInterfaceToSlice (.ptr (.boxed (.slice [.bool true]))) = .slice [.bool true] ∧
    ConvertInterfaceToSlice .nilPtr = .slice [.nilPtr] ∧
    ConvertInterfaceToSlice (ConvertInterfaceToSlice slicePtrPtr)
      = ConvertInterfaceToSlice slicePtrPtr :=
  ⟨(convertInterfaceToSlice_spec slicePtrPtr).2.1 2 _ rfl,
    (convertInterfaceToSlice_spec (.ptr (.ptr (.int .int 1)))).2.2.2.1 2 (.int .int 1) rfl
      (by simp) (by simp) (by simp) (by simp),
    (convertInterfaceToSlice_spec (.ptr (.boxed (.slice [.bool true])))).2.2.2.2.1 0 _ rfl,
    (convertInterfaceToSlice_spec .nilPtr).2.2.2.1 0 .nilPtr rfl
      (by simp) (by simp) (by simp) (by simp),
    (convertInterfaceToSlice_spec slicePtrPtr).2.2.2.2.2.2.2.2⟩

/-- C18: for every value `x` of a type that the conversions support and every
chain of one or more non-nil pointers ending at `x`, each of
`ConvertInterfaceToBool`, `ConvertInterfaceToFloat` and
`ConvertInterfaceToString` gives for the pointer the result and the error it
gives for `x` itself. -/
theorem convert_through_pointers (lib : Strconv) (n : Nat) (x : Value)
    (hn : 1 ≤ n) (hx : x.isBasic = true) :
    ConvertInterfaceToBool lib (pointerChain n x) = ConvertInterfaceToBool lib x ∧
    ConvertInterfaceToFloat lib (pointerChain n x) = ConvertInterfaceToFloat lib x ∧
    ConvertInterfaceToString lib (pointerChain n x) = ConvertInterfaceToString lib x := by
  have h1 := indirect_pointerChain n x hn hx
  have h2 := indirect_of_basic x hx
  simp only [ConvertInterfaceToBool, ConvertInterfaceToFloat, ConvertInterfaceToString,
    h1, h2, and_self]

/-- C18 (witness): a pointer to a pointer to the `int` 1. -/
theorem convert_through_pointers_witness :
    1 ≤ 2 ∧ (Value.int .int 1).isBasic = true ∧
    ConvertInterfaceToBool exampleStrconv (.ptr (.ptr (.int .int 1)))
      = ConvertInterfaceToBool exampleStrconv (.int .int 1) ∧
    ConvertInterfaceToString exampleStrconv (.ptr (.ptr (.int .int 1)))
      = ConvertInterfaceToString exampleStrconv (.int .int 1) :=
  have h := convert_through_pointers exampleStrconv 2 (.int .int 1) (by decide) rfl
  ⟨by decide, rfl, h.1, h.2.2⟩

/-- C19: for every context, keys `k ≠ k'` and value `v`: `Get` on a key that
was never set (no `Set` on it since the context was made, or the key is not
in the map) returns `(nil, false)`; after `Set(k, v)`, `Get(k)` returns
`(v, true)`, also when the map was not initialised; `Set(k, v)` leaves the
result of `Get(k')` as it was; and `Get` leaves the context as it was. -/
theorem get_set_frame {V : Type} (bc : beanContext V) (k k' : String) (v : Option V)
    (hne : k ≠ k') :
    (∀ sets : List (String × Option V), bc.keys = none → (∀ p ∈ sets, p.1 ≠ k) →
      ((bc.setAll sets).Get k).1 = (none, false)) ∧
    ((∀ m, bc.keys = some m → m.lookup k = none) → (bc.Get k).1 = (none, false)) ∧
    ((bc.Set k v).Get k).1 = (v, true) ∧
    (bc.keys = none → ((bc.Set k v).Get k).1 = (v, true)) ∧
    ((bc.Set k v).Get k').1 = (bc.Get k').1 ∧
    (bc.Get k).2 = bc := by
  refine ⟨?_, ?_, get_set_self bc k v, fun _ => get_set_self bc k v,
    get_set_ne bc k k' v hne, ?_⟩
  · intro sets hnil hsets
    exact get_setAll_other k sets bc hsets (by simp [beanContext.Get, hnil])
  · intro h
    cases hk : bc.keys with
    | none => simp [beanContext.Get, hk]
    | some m => simp [beanContext.Get, hk, h m hk]
  · cases hk : bc.keys with
    | none => simp [beanContext.Get, hk]
    | some m =>
      simp only [beanContext.Get, hk]
      split <;> rfl

/-- C19 (witness): on a fresh context, whose map is nil, `Set("a", 1)`. -/
theorem get_set_frame_witness :
    "a" ≠ "b" ∧
    (freshContext.Get "a").1 = (none, false) ∧
    ((freshContext.Set "a" (some 1)).Get "a").1 = (some 1, true) ∧
    ((freshContext.Set "a" (some 1)).Get "b").1 = (freshContext.Get "b").1 :=
  have h := get_set_frame freshContext "a" "b" (some 1) (by decide)
  ⟨by decide, h.1 [] rfl (fun _ hp => absurd hp (List.not_mem_nil _)), h.2.2.1, h.2.2.2.2.1⟩

/-- C20: for every context and string key `k`: when a value `v` is stored
under `k`, `Value(k)` returns `v`, whatever the context of the request
holds; when none is stored, `Value(k)` returns the value of the context of
the request for `k`, or nil when there is no request; `Value` leaves the
context as it was, and a second call with the same key returns what the
first returned. -/
theorem value_string_key {V : Type} (bc : beanContext V) (k : String) :
    (∀ v, (bc.Get k).1 = (v, true) → (bc.Value (.str k)).1 = .value v) ∧
    ((bc.Get k).1.2 = false →
      (∀ r, bc.request = some r → (bc.Value (.str k)).1 = .value (r.ctxValue (.str k))) ∧
      (bc.request = none → (bc.Value (.str k)).1 = .value none)) ∧
    (bc.Value (.str k)).2 = bc ∧
    ((bc.Value (.str k)).2.Value (.str k)).1 = (bc.Value (.str k)).1 := by
  have hsame : (bc.Value (.str k)).2 = bc := by
    simp only [beanContext.Value]
    split <;> rfl
  refine ⟨?_, ?_, hsame, by rw [hsame]⟩
  · intro v hv
    simp [beanContext.Value, hv]
  · intro hf
    have hget : (bc.Get k).1 = ((bc.Get k).1.1, false) := by
      rw [← hf]
    refine ⟨fun r hr => ?_, fun hr => ?_⟩
    · simp only [beanContext.Value]
      rw [hget]
      simp [beanContext.inherited, hr]
    · simp only [beanContext.Value]
      rw [hget]
      simp [beanContext.inherited, hr]

/-- C21 (the code at the failing input): a context serves a request with the
query `a=1&b=x&b=y` and `Query("a")` returns `"1"`; then `Reset` (or
`SetRequest`) replaces the request by one with the query `a=2`: the context
holds the new request, yet `Query("a")` still returns `"1"`, the value of
the replaced request, and not `"2"`, and `QueryParams()` still returns the
parameters of the replaced request. -/
theorem query_after_reset_stale :
    (servingContext.Query "a").map Prod.fst = some "1" ∧
    (((servingContext.afterQuery "a").Reset (some secondRequest) ()).request.map
      fun r => r.query) = some [("a", ["2"])] ∧
    urlValuesGet secondRequest.query "a" = "2" ∧
    (((servingContext.afterQuery "a").Reset (some secondRequest) ()).Query "a").map Prod.fst
      = some "1" ∧
    (((servingContext.afterQuery "a").SetRequest (some secondRequest)).Query "a").map Prod.fst
      = some "1" ∧
    (((servingContext.afterQuery "a").Reset (some secondRequest) ()).QueryParams).map Prod.fst
      = some [("a", ["1"]), ("b", ["x", "y"])] ∧
    (((servingContext.afterQuery "a").SetRequest (some secondRequest)).QueryParams).map Prod.fst
      = some [("a", ["1"]), ("b", ["x", "y"])] :=
  ⟨by decide, by decide, by decide, by decide, by decide, by decide, by decide⟩

/-- C22: for every context: without a request, `Deadline` returns the zero
time with `ok == false`, `Done` returns the nil channel and `Err` returns
nil (the three are total, none of them fails); with a request, each of them
returns what the context of the request returns. -/
theorem deadline_done_err {V : Type} (bc : beanContext V) :
    (bc.request = none → bc.Deadline = (0, false) ∧ bc.Done = none ∧ bc.Err = none) ∧
    (∀ r, bc.request = some r →
      bc.Deadline = r.Deadline ∧ bc.Done = r.ctxDone ∧ bc.Err = r.ctxErr) := by
  refine ⟨fun h => ?_, fun r h => ?_⟩
  · simp [beanContext.Deadline, beanContext.Done, beanContext.Err, h]
  · simp [beanContext.Deadline, beanContext.Done, beanContext.Err, h]

/-- C22 (witness): a context without a request, and one whose request has a
deadline, a channel and the error of a cancellation. -/
theorem deadline_done_err_witness :
    freshContext.request = none ∧
    (freshContext.Deadline = (0, false) ∧ freshContext.Done = none ∧
      freshContext.Err = none) ∧
    (servingContext.Deadline = (1700, true) ∧ servingContext.Done = some 7 ∧
      servingContext.Err = some .canceled) :=
  ⟨rfl, (deadline_done_err freshContext).1 rfl,
    (deadline_done_err servingContext).2 firstRequest rfl⟩

/-- C23 (the code at the failing input): on a 64-bit word with the largest
`retry`, `2^64 - 1`, `int(retry)` is `-1`, the loop body never runs and
`call`, which would succeed at once, is not invoked at all before `SingleDo`
returns its type-assertion error; the same on a 32-bit word with
`retry = 2^31`; with `retry = 2^63 - 1`, the largest value whose conversion
is not negative, `call` is invoked once. -/
theorem singleDo_zero_invocations :
    toInt 64 (2 ^ 64 - 1) = -1 ∧
    invocations 64 neverDone callSeven (2 ^ 64 - 1) = 0 ∧
    SingleDo (.concrete "int") 64 neverDone callSeven (2 ^ 64 - 1)
      = (some ⟨"int", 0⟩,
         some (.withStack (.leaf "expected type int but got type <nil>"))) ∧
    invocations 32 neverDone callSeven (2 ^ 31) = 0 ∧
    invocations 64 neverDone callSeven (2 ^ 63 - 1) = 1 ∧
    SingleDo (.concrete "int") 64 neverDone callSeven (2 ^ 63 - 1)
      = (some ⟨"int", 7⟩, none) :=
  ⟨by decide, by decide, by decide, by decide, by decide, by decide⟩

end Bean
